import Mathlib

/-!
# netmap support for mlx4: ring reconciliation

Shallow embedding of `mlx4_netmap_txsync`, `mlx4_netmap_rxsync`,
`mlx4_netmap_reg` and `mlx4_netmap_rx_config` (`LINUX/mlx4_netmap_linux.h`) and
the properties of these routines.

Conventions of the embedding:

* C unsigned 32-bit values are `Nat` reduced with `% 2^32` wherever the C
  code can wrap; `kring->nr_hwavail` is a C `int`, kept as an `Int` and
  re-wrapped through `to_u32` / `to_s32` at every mixed signed/unsigned
  operation, exactly where the usual arithmetic conversions apply in C.
* Device memory (`txr->buf`, `rxr->buf`, `cq->buf`) and the slot array of the
  netmap ring are total functions from the element index.
* Descriptor fields hold the host-order value that the C code passes to
  `cpu_to_be32` / `cpu_to_be64` (and that `be16_to_cpu` / `be32_to_cpu`
  return); the byte swap itself is not modelled.
* The netmap and mlx4 structure declarations are not part of the file; the
  field types are those the routine itself shows: `kring->nr_hwavail` is
  printed with `%d` and compared with the unsigned `lim`, the cursors and the
  producer and consumer counters are printed with `%u` and read into `u_int`
  locals, `slot->len` is read into a `uint16_t`.
* Locks and memory barriers have no counterpart in the state.
* `return netmap_ring_reinit(kring)` is the result `sync_ret.ring_reinit`
  together with the state in which the helper is entered.
* The helpers `mlx4_en_stop_port`, `mlx4_en_start_port` and `netmap_reset` are
  outside the file: the calls of the first two are counted, the value returned
  by `mlx4_en_start_port` and the result of `netmap_reset` are parameters.
* `rxr->prod--` is written `to_u32 (prod - 1)`, the integer `prod - 1`
  converted to `uint32_t`.
-/

namespace Mlx4Netmap

/-! ## C integer arithmetic -/

/-- Value of an expression of type `uint32_t` / `u_int`. -/
def u32 (x : Nat) : Nat := x % 4294967296

/-- Value of an expression stored into a `uint16_t`. -/
def u16 (x : Nat) : Nat := x % 65536

/-- Conversion of a C `int` to `unsigned int`. -/
def to_u32 (x : Int) : Nat := (x % 4294967296).toNat

/-- Conversion of an `unsigned int` to a C `int` (two's complement). -/
def to_s32 (x : Nat) : Int :=
  if x % 4294967296 < 2147483648 then ((x % 4294967296 : Nat) : Int)
  else ((x % 4294967296 : Nat) : Int) - 4294967296

/-- Unsigned 32-bit subtraction `a - b`. -/
def sub32 (a b : Nat) : Nat := (a % 4294967296 + (4294967296 - b % 4294967296)) % 4294967296

/-- Value of the integer `x` stored into a C `int`. -/
def s32 (x : Int) : Int := to_s32 (to_u32 x)

/-- The integer `x` is a value of type `int`. -/
def is_int (x : Int) : Prop := -2147483648 ≤ x ∧ x < 2147483648

/-- The C expression `x & ~m`. -/
def clear_bits (x m : Nat) : Nat := x ^^^ (x &&& m)

/-- Modelled from the spec: the errno constant `EINVAL` of the system headers
is not part of the sources; it is the non-zero value stored in `error` on
every fault path, and only `if (error)` reads it. -/
def EINVAL : Nat := 22

/-- Modelled from the spec: the constant `MLX4_CQE_OWNER_MASK` of the mlx4
headers is not part of the sources; the ownership bit is the top bit of the
owner/opcode byte, bit 7 of `owner_sr_opcode` in the words of the comment
above the completion loop of `mlx4_netmap_txsync`. -/
def MLX4_CQE_OWNER_MASK : Nat := 128

/-- Modelled from the spec: the `XNOR` macro of the mlx4 driver headers is not
part of the sources; it is the non-bitwise XNOR `matches(entryBit,
expectedParity)`, true when both operands are zero or both are non-zero. -/
def XNOR (x y : Nat) : Bool := (x == 0) == (y == 0)

/-! ## Data model -/

/-- One slot of the netmap ring (`struct netmap_slot`). -/
structure netmap_slot where
  buf_idx : Nat
  len : Nat
  flags : Nat

/-- The part of the netmap ring shared with userspace (`struct netmap_ring`). -/
structure netmap_ring where
  cur : Nat
  avail : Nat
  reserved : Nat
  slot : Nat → netmap_slot

/-- Kernel view of a netmap ring (`struct netmap_kring`). -/
structure netmap_kring where
  nr_hwcur : Nat
  nr_hwavail : Int
  nr_kflags : Nat
  nkr_num_slots : Nat
  nkr_slot_flags : Nat
  nkr_hwofs : Int
  ring : netmap_ring

/-- Control segment of a transmit descriptor (`struct mlx4_wqe_ctrl_seg`). -/
structure mlx4_wqe_ctrl_seg where
  owner_opcode : Nat
  vlan_tag : Nat
  ins_vlan : Nat
  fence_size : Nat
  srcrb_flags : Nat
  imm : Nat

/-- Data segment of a descriptor (`struct mlx4_wqe_data_seg`). -/
structure mlx4_wqe_data_seg where
  byte_count : Nat
  lkey : Nat
  addr : Nat

/-- Transmit descriptor block (`struct mlx4_en_tx_desc`). -/
structure mlx4_en_tx_desc where
  ctrl : mlx4_wqe_ctrl_seg
  data : mlx4_wqe_data_seg

/-- Transmit device ring (`struct mlx4_en_tx_ring`); `buf l` is the block at
`txr->buf + l * TXBB_SIZE`, `doorbells` counts the writes to the send
doorbell register. -/
structure mlx4_en_tx_ring where
  prod : Nat
  cons : Nat
  size : Nat
  size_mask : Nat
  buf : Nat → mlx4_en_tx_desc
  doorbells : Nat

/-- Receive device ring (`struct mlx4_en_rx_ring`); `buf l f` is fragment `f`
of the descriptor at `rxr->buf + l * rxr->stride`, `wqres_db` the doorbell
record `*rxr->wqres.db.db`. -/
structure mlx4_en_rx_ring where
  prod : Nat
  cons : Nat
  size : Nat
  size_mask : Nat
  actual_size : Nat
  stride : Nat
  fcs_del : Nat
  buf : Nat → Nat → mlx4_wqe_data_seg
  wqres_db : Nat

/-- Completion queue entry (`struct mlx4_cqe`), the fields read here. -/
structure mlx4_cqe where
  owner_sr_opcode : Nat
  wqe_index : Nat
  byte_cnt : Nat

/-- Completion queue (`struct mlx4_en_cq` with its embedded `struct mlx4_cq`):
`cons_index` is `mcq->cons_index`, `set_ci_db` the record written by
`mlx4_cq_set_ci`, `arm_count` the number of `mlx4_en_arm_cq` requests. -/
structure mlx4_en_cq where
  size : Nat
  buf : Nat → mlx4_cqe
  cons_index : Nat
  set_ci_db : Nat
  arm_count : Nat

/-- What the two routines use and the sources do not define: the buffer
lookup `PNMB` (virtual and physical address of the buffer of index `buf_idx`),
the sentinel `netmap_buffer_base`, `NETMAP_BUF_SIZE`, the helper
`mlx4_en_mac_to_u64` (applied to the buffer address), `netmap_idx_k2n`, and
the flag and opcode constants of the netmap and mlx4 headers. -/
structure Env where
  PNMB : Nat → Nat × Nat
  netmap_buffer_base : Nat
  NETMAP_BUF_SIZE : Nat
  mlx4_en_mac_to_u64 : Nat → Nat
  netmap_idx_k2n : netmap_kring → Nat → Nat
  NS_REPORT : Nat
  NS_BUF_CHANGED : Nat
  NKR_PENDINTR : Nat
  MLX4_WQE_CTRL_CQ_UPDATE : Nat
  MLX4_WQE_CTRL_SOLICITED : Nat
  MLX4_OPCODE_SEND : Nat
  MLX4_EN_BIT_DESC_OWN : Nat

/-- Everything `mlx4_netmap_txsync` reads or writes for one ring:
`priv->tx_ring[ring_nr]`, `priv->tx_cq[ring_nr]`, `na->tx_rings[ring_nr]`,
`priv->cqe_factor` and `priv->mdev->mr.key`. -/
structure TxState where
  txr : mlx4_en_tx_ring
  cq : mlx4_en_cq
  kring : netmap_kring
  cqe_factor : Nat
  mr_key : Nat

/-- Everything `mlx4_netmap_rxsync` reads or writes for one ring. -/
structure RxState where
  rxr : mlx4_en_rx_ring
  cq : mlx4_en_cq
  kring : netmap_kring
  cqe_factor : Nat
  mr_key : Nat
  port_up : Bool

/-- Result of a sync routine: `return 0` or
`return netmap_ring_reinit(kring)`. -/
inductive sync_ret where
  | ok : sync_ret
  | ring_reinit : sync_ret
  deriving DecidableEq, Repr

/-- Array store `a[i] = v`. -/
def store {α : Type} (a : Nat → α) (i : Nat) (v : α) : Nat → α :=
  fun x => if x = i then v else a x

/-- The index step `j = (j == lim) ? 0 : j + 1`. -/
def nm_next (lim j : Nat) : Nat := if j = lim then 0 else j + 1

/-! ## mlx4_netmap_txsync -/

/-- The slot check `addr == netmap_buffer_base || len > NETMAP_BUF_SIZE`. -/
def tx_slot_bad (env : Env) (slot : netmap_slot) : Bool :=
  (env.PNMB slot.buf_idx).1 == env.netmap_buffer_base || decide (slot.len > env.NETMAP_BUF_SIZE)

/-- Slot flags after `slot->flags &= ~NS_REPORT` and the `NS_BUF_CHANGED`
test of the transmit loop. -/
def tx_slot_flags (env : Env) (flags : Nat) : Nat :=
  let f := clear_bits flags env.NS_REPORT
  if f &&& env.NS_BUF_CHANGED ≠ 0 then clear_bits f env.NS_BUF_CHANGED else f

/-- The descriptor written at producer counter `prod` for a slot of length
`len` whose buffer resolves to `(addr, paddr)`. -/
def tx_fill (env : Env) (mr_key size prod addr paddr len : Nat) : mlx4_en_tx_desc :=
  let mac := env.mlx4_en_mac_to_u64 addr
  let mac_h := u32 ((mac &&& 0xffff00000000) >>> 16)
  let mac_l := u32 (mac &&& 0xffffffff)
  { ctrl :=
      { vlan_tag := 0
        ins_vlan := 0
        fence_size := 2
        srcrb_flags := (env.MLX4_WQE_CTRL_CQ_UPDATE ||| env.MLX4_WQE_CTRL_SOLICITED) ||| mac_h
        imm := mac_l
        owner_opcode :=
          env.MLX4_OPCODE_SEND ||| (if prod &&& size ≠ 0 then env.MLX4_EN_BIT_DESC_OWN else 0) }
    data := { addr := paddr, lkey := mr_key, byte_count := len } }

/-- Body of the transmit loop for a slot that passed the check: update the
slot flags, fill the descriptor at `txr->prod & txr->size_mask`, `txr->prod++`. -/
def tx_post (env : Env) (j : Nat) (s : TxState) : TxState :=
  let slot := s.kring.ring.slot j
  let pa := env.PNMB slot.buf_idx
  let l := s.txr.prod &&& s.txr.size_mask
  { s with
    kring := { s.kring with
      ring := { s.kring.ring with
        slot := store s.kring.ring.slot j { slot with flags := tx_slot_flags env slot.flags } } }
    txr := { s.txr with
      buf := store s.txr.buf l (tx_fill env s.mr_key s.txr.size s.txr.prod pa.1 pa.2 slot.len)
      prod := u32 (s.txr.prod + 1) } }

/-- The loop `for (n = 0; j != k; n++)` of `mlx4_netmap_txsync`. The result is
`(error, n, state)`; `none` when `fuel` iterations did not reach `j == k`. -/
def tx_loop (env : Env) (lim k : Nat) : Nat → Nat → Nat → TxState → Option (Nat × Nat × TxState)
  | 0, j, n, s => if j = k then some (0, n, s) else none
  | fuel + 1, j, n, s =>
    if j = k then some (0, n, s)
    else if tx_slot_bad env (s.kring.ring.slot j) then some (EINVAL, n, s)
    else tx_loop env lim k fuel (nm_next lim j) (u32 (n + 1)) (tx_post env j s)

/-- The commit after the transmit loop: `kring->nr_hwcur = k`,
`kring->nr_hwavail -= n` and the doorbell write. -/
def tx_commit (k n : Nat) (s1 : TxState) : TxState :=
  { s1 with
    kring := { s1.kring with
      nr_hwcur := k
      nr_hwavail := to_s32 (sub32 (to_u32 s1.kring.nr_hwavail) n) }
    txr := { s1.txr with doorbells := s1.txr.doorbells + 1 } }

/-- First half of `mlx4_netmap_txsync`: process the new packets to send
(`if (j != k) { ... }`). The result is `(error, state)`. -/
def tx_send (env : Env) (fuel lim k : Nat) (s : TxState) : Option (Nat × TxState) :=
  let j := s.kring.nr_hwcur
  if j ≠ k then
    match tx_loop env lim k fuel j 0 s with
    | none => none
    | some (err, n, s1) =>
      if err ≠ 0 then some (err, s1) else some (0, tx_commit k n s1)
  else some (0, s)

/-- The loop test `XNOR(cqe->owner_sr_opcode & MLX4_CQE_OWNER_MASK,
mcq->cons_index & size)` of both completion scans. -/
def cqe_ready (size : Nat) (cqe : mlx4_cqe) (ci : Nat) : Bool :=
  XNOR (cqe.owner_sr_opcode &&& MLX4_CQE_OWNER_MASK) (ci &&& size)

/-- The entry `&buf[(index << factor) + factor]` examined by
`mlx4_netmap_txsync` at consumer counter `ci`, with
`uint16_t index = mcq->cons_index & size_mask`. -/
def tx_cqe (size_mask factor : Nat) (buf : Nat → mlx4_cqe) (ci : Nat) : mlx4_cqe :=
  buf ((u16 (ci &&& size_mask) <<< factor) + factor)

/-- The entry `&buf[(index << factor) + factor]` examined by
`mlx4_netmap_rxsync` at consumer counter `ci`, with
`int index = mcq->cons_index & size_mask`. -/
def rx_cqe (size_mask factor : Nat) (buf : Nat → mlx4_cqe) (ci : Nat) : mlx4_cqe :=
  buf (((ci &&& size_mask) <<< factor) + factor)

/-- The completion scan `for (n = 0; n < 2*lim; n++)` of `mlx4_netmap_txsync`
with `rem` iterations left; the result is `(mcq->cons_index, new_index, n)`. -/
def tx_cq_scan (size_mask size factor : Nat) (buf : Nat → mlx4_cqe) :
    Nat → Nat → Nat → Nat → Nat × Nat × Nat
  | 0, ci, new_index, n => (ci, new_index, n)
  | rem + 1, ci, new_index, n =>
    let cqe := tx_cqe size_mask factor buf ci
    if !cqe_ready size cqe ci then (ci, new_index, n)
    else tx_cq_scan size_mask size factor buf rem (u32 (ci + 1)) (u16 (cqe.wqe_index &&& size_mask))
      (n + 1)

/-- The completion scan of `mlx4_netmap_txsync` run from the state `s`:
up to `2*lim` entries, `new_index` starting at
`ring_index = txr->cons & size_mask`. -/
def tx_scan (lim : Nat) (s : TxState) : Nat × Nat × Nat :=
  tx_cq_scan s.txr.size_mask s.cq.size s.cqe_factor s.cq.buf (u32 (2 * lim))
    s.cq.cons_index (u16 (s.txr.cons &&& s.txr.size_mask)) 0

/-- The count `n = (new_index - ring_index) & size_mask` computed after the
scan. -/
def tx_freed (lim : Nat) (s : TxState) : Nat :=
  sub32 (tx_scan lim s).2.1 (u16 (s.txr.cons &&& s.txr.size_mask)) &&& s.txr.size_mask

/-- Second half of `mlx4_netmap_txsync`: recover completed transmissions.
The result is `(error, state)`; on the error path `ring->avail` is not
written and the queue is not re-armed. -/
def tx_reclaim (lim : Nat) (s : TxState) : Nat × TxState :=
  let r := tx_scan lim s
  let cq1 := { s.cq with cons_index := r.1, set_ci_db := r.1 &&& 0xffffff }
  let n := tx_freed lim s
  let s1 : TxState := { s with cq := cq1 }
  let s2 : TxState :=
    if n ≠ 0 then
      { s1 with
        txr := { s1.txr with cons := u32 (s1.txr.cons + n) }
        kring := { s1.kring with nr_hwavail := to_s32 (to_u32 s1.kring.nr_hwavail + n) } }
    else s1
  if n ≠ 0 ∧ to_u32 s2.kring.nr_hwavail > lim then (EINVAL, s2)
  else
    let s3 : TxState :=
      if s2.kring.nr_hwavail = 0 then
        { s2 with cq := { s2.cq with arm_count := s2.cq.arm_count + 1 } }
      else s2
    (0, { s3 with
          kring := { s3.kring with
            ring := { s3.kring.ring with avail := to_u32 s3.kring.nr_hwavail } } })

/-- The routine `mlx4_netmap_txsync` on one ring. `fuel` bounds the
iterations of the transmit loop; `none` means the bound was hit. -/
def mlx4_netmap_txsync (env : Env) (fuel : Nat) (_do_lock : Bool) (s : TxState) :
    Option (sync_ret × TxState) :=
  let k := s.kring.ring.cur
  let lim := sub32 s.kring.nkr_num_slots 1
  if k > lim then some (sync_ret.ring_reinit, s)
  else
    let j := s.kring.nr_hwcur
    if j > lim then some (sync_ret.ring_reinit, s)
    else
      match tx_send env fuel lim k s with
      | none => none
      | some (err, s1) =>
        if err ≠ 0 then some (sync_ret.ring_reinit, s1)
        else
          let r := tx_reclaim lim s1
          if r.1 ≠ 0 then some (sync_ret.ring_reinit, r.2)
          else some (sync_ret.ok, r.2)

/-! ## mlx4_netmap_rxsync -/

/-- The completion scan `for (n = 0; n <= 2*lim; n++)` of `mlx4_netmap_rxsync`
with `rem` iterations left; the result is
`(mcq->cons_index, j, n, ring->slot)`. -/
def rx_cq_scan (lim size_mask size factor fcs_del slot_flags : Nat) (buf : Nat → mlx4_cqe) :
    Nat → Nat → Nat → Nat → (Nat → netmap_slot) → Nat × Nat × Nat × (Nat → netmap_slot)
  | 0, ci, j, n, slot => (ci, j, n, slot)
  | rem + 1, ci, j, n, slot =>
    let cqe := rx_cqe size_mask factor buf ci
    if !cqe_ready size cqe ci then (ci, j, n, slot)
    else
      rx_cq_scan lim size_mask size factor fcs_del slot_flags buf rem (u32 (ci + 1))
        (nm_next lim j) (n + 1)
        (store slot j { slot j with len := u16 (sub32 cqe.byte_cnt fcs_del), flags := slot_flags })

/-- The completion scan of `mlx4_netmap_rxsync` run from the state `s`: up to
`2*lim + 1` entries, starting at the netmap index
`j = (kring->nr_hwcur + kring->nr_hwavail) % kring->nkr_num_slots`. -/
def rx_scan (lim : Nat) (s : RxState) : Nat × Nat × Nat × (Nat → netmap_slot) :=
  rx_cq_scan lim s.rxr.size_mask s.cq.size s.cqe_factor s.rxr.fcs_del
    s.kring.nkr_slot_flags s.cq.buf (u32 (2 * lim) + 1) s.cq.cons_index
    (u32 (s.kring.nr_hwcur + to_u32 s.kring.nr_hwavail) % s.kring.nkr_num_slots) 0
    s.kring.ring.slot

/-- First part of `mlx4_netmap_rxsync`: import the newly received packets
into the netmap ring. -/
def rx_harvest (env : Env) (lim : Nat) (s : RxState) : RxState :=
  let r := rx_scan lim s
  let n := r.2.2.1
  let s1 : RxState :=
    { s with
      cq := { s.cq with cons_index := r.1 }
      kring := { s.kring with ring := { s.kring.ring with slot := r.2.2.2 } } }
  let s2 : RxState :=
    if n ≠ 0 then
      { s1 with
        kring := { s1.kring with nr_hwavail := to_s32 (to_u32 s1.kring.nr_hwavail + n) }
        rxr := { s1.rxr with cons := u32 (s1.rxr.cons + n) }
        cq := { s1.cq with set_ci_db := s1.cq.cons_index &&& 0xffffff } }
    else s1
  { s2 with kring := { s2.kring with nr_kflags := clear_bits s2.kring.nr_kflags env.NKR_PENDINTR } }

/-- The `reserved` handling of `mlx4_netmap_rxsync`: the result is
`(resvd, k)` after `if (resvd > 0) { ... }`, for the cursor `k`, the
reserved count `resvd` read at entry and the current `ring->avail`. -/
def rx_release (lim k resvd avail : Nat) : Nat × Nat :=
  if resvd > 0 then
    let resvd1 := if u32 (resvd + avail) ≥ u32 (lim + 1) then 0 else resvd
    (resvd1, if k ≥ resvd1 then k - resvd1 else sub32 (u32 (k + lim + 1)) resvd1)
  else (resvd, k)

/-- Body of the replenish loop for a slot with a valid buffer: clear
`NS_BUF_CHANGED`, write fragment 0 of the descriptor of NIC index `l`. -/
def rx_post (env : Env) (j l : Nat) (s : RxState) : RxState :=
  let slot := s.kring.ring.slot j
  let pa := env.PNMB slot.buf_idx
  let slot1 :=
    if slot.flags &&& env.NS_BUF_CHANGED ≠ 0 then
      { slot with flags := clear_bits slot.flags env.NS_BUF_CHANGED }
    else slot
  { s with
    kring := { s.kring with ring := { s.kring.ring with slot := store s.kring.ring.slot j slot1 } }
    rxr := { s.rxr with
      buf := store s.rxr.buf l
        (store (s.rxr.buf l) 0
          { addr := pa.2, byte_count := env.NETMAP_BUF_SIZE, lkey := s.mr_key }) } }

/-- The loop `for (n = 0; j != k; n++)` of `mlx4_netmap_rxsync`. The result is
`(bad, n, state)` where `bad` records the jump to `ring_reset`; `none` when
`fuel` iterations did not reach `j == k`. -/
def rx_loop (env : Env) (lim k : Nat) :
    Nat → Nat → Nat → Nat → RxState → Option (Bool × Nat × RxState)
  | 0, j, _, n, s => if j = k then some (false, n, s) else none
  | fuel + 1, j, l, n, s =>
    if j = k then some (false, n, s)
    else if (env.PNMB (s.kring.ring.slot j).buf_idx).1 == env.netmap_buffer_base then
      some (true, n, s)
    else rx_loop env lim k fuel (nm_next lim j) (nm_next lim l) (u32 (n + 1)) (rx_post env j l s)

/-- The store `ring->reserved = resvd = 0` taken when
`resvd + ring->avail >= lim + 1`, for the reserved count `resvd0` read at
entry. -/
def rx_clamp (lim resvd0 : Nat) (s : RxState) : RxState :=
  if resvd0 > 0 ∧ u32 (resvd0 + s.kring.ring.avail) ≥ u32 (lim + 1) then
    { s with kring := { s.kring with ring := { s.kring.ring with reserved := 0 } } }
  else s

/-- The commit after the replenish loop: `rxr->prod += n`,
`kring->nr_hwavail -= n`, `kring->nr_hwcur = k`, the doorbell record and
`ring->avail = kring->nr_hwavail - resvd`. -/
def rx_commit (k n resvd : Nat) (s1 : RxState) : RxState :=
  { s1 with
    rxr := { s1.rxr with
      prod := u32 (s1.rxr.prod + n)
      wqres_db := u32 (s1.rxr.prod + n) &&& 0xffff }
    kring := { s1.kring with
      nr_hwavail := to_s32 (sub32 (to_u32 s1.kring.nr_hwavail) n)
      nr_hwcur := k
      ring := { s1.kring.ring with
        avail := sub32 (to_u32 (to_s32 (sub32 (to_u32 s1.kring.nr_hwavail) n))) resvd } } }

/-- The final store `ring->avail = kring->nr_hwavail - resvd`. -/
def rx_publish (resvd : Nat) (s : RxState) : RxState :=
  { s with
    kring := { s.kring with
      ring := { s.kring.ring with avail := sub32 (to_u32 s.kring.nr_hwavail) resvd } } }

/-- NIC index `l = netmap_idx_k2n(kring, j)` at which the replenish loop
starts, for the state `s` left by the harvest and the reserved count read at
entry. -/
def rx_nic_start (env : Env) (lim resvd0 : Nat) (s : RxState) : Nat :=
  env.netmap_idx_k2n (rx_clamp lim resvd0 s).kring s.kring.nr_hwcur

/-- Second part of `mlx4_netmap_rxsync`: give the released slots back to the
NIC and publish `ring->avail`; `k0` and `resvd0` are `ring->cur` and
`ring->reserved` as read at entry. -/
def rx_replenish (env : Env) (fuel lim k0 resvd0 : Nat) (s : RxState) :
    Option (sync_ret × RxState) :=
  let j := s.kring.nr_hwcur
  let rk := rx_release lim k0 resvd0 s.kring.ring.avail
  if j ≠ rk.2 then
    match rx_loop env lim rk.2 fuel j (rx_nic_start env lim resvd0 s) 0 (rx_clamp lim resvd0 s) with
    | none => none
    | some (bad, n, s1) =>
      if bad then some (sync_ret.ring_reinit, s1)
      else some (sync_ret.ok, rx_commit rk.2 n rk.1 s1)
  else some (sync_ret.ok, rx_publish rk.1 (rx_clamp lim resvd0 s))

/-- The routine `mlx4_netmap_rxsync` on one ring. `fuel` bounds the
iterations of the replenish loop; `none` means the bound was hit. -/
def mlx4_netmap_rxsync (env : Env) (fuel : Nat) (_do_lock : Bool) (s : RxState) :
    Option (sync_ret × RxState) :=
  let lim := sub32 s.kring.nkr_num_slots 1
  let k := s.kring.ring.cur
  let resvd := s.kring.ring.reserved
  if !s.port_up then some (sync_ret.ok, s)
  else if k > lim then some (sync_ret.ring_reinit, s)
  else rx_replenish env fuel lim k resvd (rx_harvest env lim s)

/-! ## mlx4_netmap_reg -/

/-- What `mlx4_netmap_reg` touches of one `struct mlx4_en_tx_ring`: the two
counters, the geometry, `last_nr_txbb`, and the ring memory seen as 32-bit
words, `word0 j` being the word at `txr->buf + j * TXBB_SIZE` in host byte
order. -/
structure tx_ring_raw where
  prod : Nat
  cons : Nat
  size : Nat
  size_mask : Nat
  last_nr_txbb : Nat
  word0 : Nat → Nat

/-- What `mlx4_netmap_reg` uses and the sources do not define: the constants
`IFCAP_NETMAP`, `STAMP_VAL` and `STAMP_SHIFT`, and the result of
`mlx4_en_start_port`, given as the value returned by the call that follows
`n` earlier calls. -/
structure RegEnv where
  IFCAP_NETMAP : Nat
  STAMP_VAL : Nat
  STAMP_SHIFT : Nat
  mlx4_en_start_port : Nat → Int

/-- The interface as seen by `mlx4_netmap_reg`: whether `NA(ifp)` is set,
`netif_running(ifp)`, `ifp->if_capenable`, the addresses `ifp->netdev_ops`,
`na->if_transmit` and `&na->nm_ndo`, the transmit rings, and the number of
calls made so far to `mlx4_en_stop_port` and `mlx4_en_start_port`. What these
two helpers do to the device is outside the sources and is not modelled. -/
structure RegState where
  na_present : Bool
  running : Bool
  if_capenable : Nat
  netdev_ops : Nat
  if_transmit : Nat
  nm_ndo : Nat
  num_tx_rings : Nat
  tx_ring : Nat → tx_ring_raw
  stop_calls : Nat
  start_calls : Nat

/-- The value `STAMP_VAL | (!!(txr->cons & txr->size) << STAMP_SHIFT)` stored
in a `uint32_t`. -/
def stamp_word (env : RegEnv) (cons size : Nat) : Nat :=
  u32 (env.STAMP_VAL ||| ((if cons &&& size ≠ 0 then 1 else 0) <<< env.STAMP_SHIFT))

/-- Body of the stamping loop: `*ptr = new_val` at
`uint16_t j = txr->cons & txr->size_mask`, then `txr->cons++`. -/
def stamp_step (env : RegEnv) (r : tx_ring_raw) : tx_ring_raw :=
  { r with
    word0 := store r.word0 (u16 (r.cons &&& r.size_mask)) (stamp_word env r.cons r.size)
    cons := u32 (r.cons + 1) }

/-- The loop `for (; txr->cons != txr->prod; txr->cons++)`; `none` when `fuel`
iterations did not reach `txr->cons == txr->prod`. -/
def stamp_loop (env : RegEnv) : Nat → tx_ring_raw → Option tx_ring_raw
  | 0, r => if r.cons = r.prod then some r else none
  | fuel + 1, r => if r.cons = r.prod then some r else stamp_loop env fuel (stamp_step env r)

/-- One turn of the loop over the rings: `txr->cons += txr->last_nr_txbb`
followed by the stamping loop. -/
def stamp_ring (env : RegEnv) (fuel : Nat) (r : tx_ring_raw) : Option tx_ring_raw :=
  stamp_loop env fuel { r with cons := u32 (r.cons + r.last_nr_txbb) }

/-- The loop `for (i = 0; i < na->num_tx_rings; i++)` with `rem` rings left,
the next one being ring `i`. -/
def stamp_rings (env : RegEnv) (fuel : Nat) :
    Nat → Nat → (Nat → tx_ring_raw) → Option (Nat → tx_ring_raw)
  | 0, _, rings => some rings
  | rem + 1, i, rings =>
    match stamp_ring env fuel (rings i) with
    | none => none
    | some r => stamp_rings env fuel rem (i + 1) (store rings i r)

/-- The block `if (netif_running(ifp)) { ... }` of `mlx4_netmap_reg`: stamp
the transmit rings when `onoff == 0`, then call `mlx4_en_stop_port`. -/
def reg_unload (env : RegEnv) (fuel : Nat) (onoff : Int) (s : RegState) : Option RegState :=
  if s.running then
    match (if onoff = 0 then stamp_rings env fuel s.num_tx_rings 0 s.tx_ring
      else some s.tx_ring) with
    | none => none
    | some rings => some { s with tx_ring := rings, stop_calls := s.stop_calls + 1 }
  else some s

/-- The mode switch after the label `retry`. -/
def reg_switch (env : RegEnv) (onoff : Int) (s : RegState) : RegState :=
  if onoff ≠ 0 then
    { s with
      if_capenable := s.if_capenable ||| env.IFCAP_NETMAP
      if_transmit := s.netdev_ops
      netdev_ops := s.nm_ndo }
  else
    { s with
      netdev_ops := s.if_transmit
      if_capenable := clear_bits s.if_capenable env.IFCAP_NETMAP }

/-- One pass from the label `retry` to the test `if (error && onoff)`: the
mode switch and, when `need_load` is set, the call of `mlx4_en_start_port`.
The result is `(error, state)`. -/
def reg_pass (env : RegEnv) (need_load : Bool) (onoff : Int) (s : RegState) : Int × RegState :=
  let s1 := reg_switch env onoff s
  if need_load then
    (env.mlx4_en_start_port s1.start_calls, { s1 with start_calls := s1.start_calls + 1 })
  else (0, s1)

/-- The routine `mlx4_netmap_reg`. The jump `goto retry` is taken with
`onoff = 0`, so the second pass cannot jump again and the two passes are
written out. `fuel` bounds the iterations of each stamping loop; `none` means
the bound was hit. -/
def mlx4_netmap_reg (env : RegEnv) (fuel : Nat) (onoff : Int) (s : RegState) :
    Option (Int × RegState) :=
  if !s.na_present then some ((EINVAL : Int), s)
  else
    match reg_unload env fuel onoff s with
    | none => none
    | some s1 =>
      let need_load := s.running
      let r := reg_pass env need_load onoff s1
      if need_load = true ∧ r.1 ≠ 0 ∧ onoff ≠ 0 then some (reg_pass env need_load 0 r.2)
      else some r

/-! ## mlx4_netmap_rx_config -/

/-- What `mlx4_netmap_rx_config` uses and the sources do not define:
`sizeof(struct mlx4_en_rx_desc)`, `DS_SIZE`, `MLX4_EN_MEMTYPE_PAD`, and
`netmap_reset`, which returns `NULL` (here `none`) when the interface is not in
netmap mode and otherwise the slots of the ring it has reset (here the kring
after the reset, whose `ring.slot` is the returned array). -/
structure CfgEnv where
  rx_desc_size : Nat
  DS_SIZE : Nat
  MLX4_EN_MEMTYPE_PAD : Nat
  netmap_reset : netmap_kring → Option netmap_kring

/-- Subtraction of two `size_t` values on a 64-bit kernel. -/
def sub64 (a b : Nat) : Nat :=
  (a % 18446744073709551616 + (18446744073709551616 - b % 18446744073709551616))
    % 18446744073709551616

/-- The value `(rxr->stride - sizeof(struct mlx4_en_rx_desc)) / DS_SIZE`
stored in the `int possible_frags`. -/
def possible_frags (cfg : CfgEnv) (stride : Nat) : Int :=
  to_s32 (sub64 stride cfg.rx_desc_size / cfg.DS_SIZE)

/-- The loop `for (j = 1; j < possible_frags; j++)` over the fragments of one
descriptor, with `rem` iterations left. -/
def rx_cfg_pad (cfg : CfgEnv) :
    Nat → Nat → (Nat → mlx4_wqe_data_seg) → (Nat → mlx4_wqe_data_seg)
  | 0, _, d => d
  | rem + 1, j, d =>
    rx_cfg_pad cfg rem (j + 1)
      (store d j { byte_count := 0, lkey := cfg.MLX4_EN_MEMTYPE_PAD, addr := 0 })

/-- The loop `for (i = 0; i < kring->nkr_num_slots; i++)` of
`mlx4_netmap_rx_config`, with `rem` iterations left. -/
def rx_cfg_fill (env : Env) (cfg : CfgEnv) (mr_key : Nat) (frags : Int)
    (slot : Nat → netmap_slot) :
    Nat → Nat → (Nat → Nat → mlx4_wqe_data_seg) → (Nat → Nat → mlx4_wqe_data_seg)
  | 0, _, buf => buf
  | rem + 1, i, buf =>
    rx_cfg_fill env cfg mr_key frags slot rem (i + 1)
      (store buf i
        (rx_cfg_pad cfg (frags - 1).toNat 1
          (store (buf i) 0
            { addr := (env.PNMB (slot i).buf_idx).2
              byte_count := env.NETMAP_BUF_SIZE
              lkey := mr_key })))

/-- State of `mlx4_netmap_rx_config` once `netmap_reset` has returned the slots
of `kring` and `rxr->prod--` has been executed (the value `prod - 1` converted
to `uint32_t`). -/
def rx_cfg_enter (s : RxState) (kring : netmap_kring) : RxState :=
  { s with kring := kring, rxr := { s.rxr with prod := to_u32 ((s.rxr.prod : Int) - 1) } }

/-- State of `mlx4_netmap_rx_config` after the loop that fills the
descriptors. -/
def rx_cfg_bind (env : Env) (cfg : CfgEnv) (s1 : RxState) : RxState :=
  { s1 with
    rxr := { s1.rxr with
      buf := rx_cfg_fill env cfg s1.mr_key (possible_frags cfg s1.rxr.stride)
        s1.kring.ring.slot s1.kring.nkr_num_slots 0 s1.rxr.buf } }

/-- The routine `mlx4_netmap_rx_config` on one ring; the result is the value
returned and the state left. -/
def mlx4_netmap_rx_config (env : Env) (cfg : CfgEnv) (s : RxState) : Int × RxState :=
  match cfg.netmap_reset s.kring with
  | none => (0, s)
  | some kring =>
    if kring.nkr_num_slots ≠ (rx_cfg_enter s kring).rxr.actual_size then
      (1, rx_cfg_enter s kring)
    else (1, rx_cfg_bind env cfg (rx_cfg_enter s kring))

/-! ## Vocabulary of the specification -/

/-- Ownership bit of a completion entry: 1 when bit 7 of `owner_sr_opcode` is
set. -/
def cqe_owner_bit (cqe : mlx4_cqe) : Nat :=
  if cqe.owner_sr_opcode &&& MLX4_CQE_OWNER_MASK ≠ 0 then 1 else 0

/-- Expected parity `(c / S) & 1` of the wrap in which the consumer counter
`c` lies, for a queue of `S` entries. -/
def wrap_parity (S c : Nat) : Nat := (c / S) &&& 1

/-! ## Example configuration -/

/-- Example environment: 64 buffers of 2048 bytes, buffer index 0 and any
index past the pool resolve to `netmap_buffer_base`; `netmap_idx_k2n` is the
netmap helper (subtract `nkr_hwofs`, wrap into the ring). -/
def ex_env : Env :=
  { PNMB := fun i =>
      if 0 < i ∧ i < 64 then (4096 + 2048 * i, 1048576 + 2048 * i) else (4096, 1048576)
    netmap_buffer_base := 4096
    NETMAP_BUF_SIZE := 2048
    mlx4_en_mac_to_u64 := fun _ => 0
    netmap_idx_k2n := fun kr idx =>
      let n : Int := kr.nkr_num_slots
      let x : Int := (idx : Int) - kr.nkr_hwofs
      (if x < 0 then x + n else if x < n then x else x - n).toNat
    NS_REPORT := 2
    NS_BUF_CHANGED := 1
    NKR_PENDINTR := 1
    MLX4_WQE_CTRL_CQ_UPDATE := 12
    MLX4_WQE_CTRL_SOLICITED := 2
    MLX4_OPCODE_SEND := 10
    MLX4_EN_BIT_DESC_OWN := 2147483648 }

/-- A zeroed transmit descriptor. -/
def ex_tx_desc : mlx4_en_tx_desc :=
  { ctrl := { owner_opcode := 0, vlan_tag := 0, ins_vlan := 0, fence_size := 0,
              srcrb_flags := 0, imm := 0 }
    data := { byte_count := 0, lkey := 0, addr := 0 } }

/-- Completion queue contents in which the first `m` entries carry ownership
bit 0 (ready on an even wrap) and back-reference `w i`, the others bit 1. -/
def ex_cq_buf (m : Nat) (w : Nat → Nat) : Nat → mlx4_cqe :=
  fun i =>
    if i < m then { owner_sr_opcode := 0, wqe_index := w i, byte_cnt := 64 }
    else { owner_sr_opcode := 128, wqe_index := 0, byte_cnt := 0 }

/-- Transmit ring of 8 slots (device ring and completion queue of 8 entries,
32-byte completion entries), slot `i` bound to buffer `i + 1` with a 60-byte
frame, with the given cursors, availability and completion entries. -/
def ex_tx (cur hwcur : Nat) (hwavail : Int) (prod cons : Nat) (cqbuf : Nat → mlx4_cqe) :
    TxState :=
  { txr := { prod := prod, cons := cons, size := 8, size_mask := 7,
             buf := fun _ => ex_tx_desc, doorbells := 0 }
    cq := { size := 8, buf := cqbuf, cons_index := 0, set_ci_db := 0, arm_count := 0 }
    kring := { nr_hwcur := hwcur, nr_hwavail := hwavail, nr_kflags := 0, nkr_num_slots := 8,
               nkr_slot_flags := 0, nkr_hwofs := 0,
               ring := { cur := cur, avail := 0, reserved := 0,
                         slot := fun i => { buf_idx := i + 1, len := 60, flags := 0 } } }
    cqe_factor := 0
    mr_key := 7 }

/-- A zeroed data segment. -/
def ex_seg : mlx4_wqe_data_seg := { byte_count := 0, lkey := 0, addr := 0 }

/-- Receive ring of 8 slots (device ring and completion queue of 8 entries,
4-byte trailer), slot `i` bound to buffer `i + 1`, port up, with the given
cursors, reserved count, availability and completion entries. -/
def ex_rx (cur resvd avail hwcur : Nat) (hwavail : Int) (prod cons : Nat)
    (cqbuf : Nat → mlx4_cqe) : RxState :=
  { rxr := { prod := prod, cons := cons, size := 8, size_mask := 7, actual_size := 8,
             stride := 64, fcs_del := 4, buf := fun _ _ => ex_seg, wqres_db := 0 }
    cq := { size := 8, buf := cqbuf, cons_index := 0, set_ci_db := 0, arm_count := 0 }
    kring := { nr_hwcur := hwcur, nr_hwavail := hwavail, nr_kflags := 0, nkr_num_slots := 8,
               nkr_slot_flags := 0, nkr_hwofs := 0,
               ring := { cur := cur, avail := avail, reserved := resvd,
                         slot := fun i => { buf_idx := i + 1, len := 0, flags := 0 } } }
    cqe_factor := 0
    mr_key := 7
    port_up := true }

/-- Completion entries crossing a wrap of an 8-entry queue: positions 6 and 7
written in an even wrap (bit 0), positions 0 and 1 in the next, odd wrap
(bit 1), position 2 still from the even wrap. -/
def ex_cq_wrap : Nat → mlx4_cqe :=
  fun i =>
    if i = 6 ∨ i = 7 ∨ i = 2 then { owner_sr_opcode := 0, wqe_index := i, byte_cnt := 64 }
    else { owner_sr_opcode := 128, wqe_index := i, byte_cnt := 64 }

/-- Transmit state whose completion consumer index is 6, over `ex_cq_wrap`. -/
def ex_tx_wrap : TxState :=
  { ex_tx 3 3 3 6 2 ex_cq_wrap with
    cq := { size := 8, buf := ex_cq_wrap, cons_index := 6, set_ci_db := 6, arm_count := 0 } }

/-- Receive state whose completion consumer index is 6, over `ex_cq_wrap`. -/
def ex_rx_wrap : RxState :=
  { ex_rx 0 0 0 0 0 7 6 ex_cq_wrap with
    cq := { size := 8, buf := ex_cq_wrap, cons_index := 6, set_ci_db := 6, arm_count := 0 } }

/-- Slots of which the one of index `bad` is unbound (buffer index 0) and the
one of index `long` carries the length `len`. -/
def ex_slots (bad long len : Nat) : Nat → netmap_slot :=
  fun i => { buf_idx := if i = bad then 0 else i + 1, len := if i = long then len else 60,
             flags := 0 }

/-- Transmit state with `cur = 3`, `nr_hwcur = 0`, whose slot 1 is unbound. -/
def ex_tx_bad : TxState :=
  { ex_tx 3 0 7 0 0 (ex_cq_buf 0 id) with
    kring := { nr_hwcur := 0, nr_hwavail := 7, nr_kflags := 0, nkr_num_slots := 8,
               nkr_slot_flags := 0, nkr_hwofs := 0,
               ring := { cur := 3, avail := 0, reserved := 0, slot := ex_slots 1 8 60 } } }

/-- Receive state with `cur = 3`, `nr_hwcur = 0`, whose slot 1 is unbound. -/
def ex_rx_bad : RxState :=
  { ex_rx 3 0 0 0 3 7 0 (ex_cq_buf 0 id) with
    kring := { nr_hwcur := 0, nr_hwavail := 3, nr_kflags := 0, nkr_num_slots := 8,
               nkr_slot_flags := 0, nkr_hwofs := 0,
               ring := { cur := 3, avail := 0, reserved := 0, slot := ex_slots 1 8 60 } } }

/-- Receive state with `cur = 5`, `reserved = 2`, `nr_hwcur = 0`, five slots
available and one completion pending: the release boundary is 3. -/
def ex_rx_rel : RxState := ex_rx 5 2 3 0 5 7 0 (ex_cq_buf 1 id)

/-- State left by a first `mlx4_netmap_txsync` on a ring with three new
packets and no completion. -/
def ex_tx_once : TxState :=
  ((mlx4_netmap_txsync ex_env 8 false (ex_tx 3 0 7 0 0 (ex_cq_buf 0 id))).getD
    (sync_ret.ring_reinit, ex_tx 3 0 7 0 0 (ex_cq_buf 0 id))).2

/-- State left by a first `mlx4_netmap_rxsync` on `ex_rx_rel`. -/
def ex_rx_once : RxState :=
  ((mlx4_netmap_rxsync ex_env 8 false ex_rx_rel).getD (sync_ret.ring_reinit, ex_rx_rel)).2

/-- Receive state in which the host has moved `cur` to 3 with `reserved = 1`
although no slot was available (`nr_hwavail = 0`, `nr_hwcur = 0`). -/
def ex_rx_over : RxState := ex_rx 3 1 0 0 0 7 0 (ex_cq_buf 0 id)

/-- Transmit state with `cur = nr_hwcur = 3` and two completions pending. -/
def ex_tx_done : TxState := ex_tx 3 3 5 5 3 (ex_cq_buf 2 (fun i => i + 4))

/-- Receive state with `cur = nr_hwcur = 0`, `reserved = 1`, seven slots
available and nothing to harvest. -/
def ex_rx_resv : RxState := ex_rx 0 1 0 0 7 7 0 (ex_cq_buf 0 id)

/-- Receive state with `cur = nr_hwcur = 0`, `reserved = 0`, three slots
available and two completions pending. -/
def ex_rx_done : RxState := ex_rx 0 0 3 0 3 7 0 (ex_cq_buf 2 id)

/-- Transmit state in which the host has queued three packets although no
slot was available (`nr_hwavail = 0`). -/
def ex_tx_over : TxState := ex_tx 3 0 0 0 0 (ex_cq_buf 0 id)

/-- Receive state with all seven usable slots already available to the host
and one more completion pending. -/
def ex_rx_full : RxState := ex_rx 0 0 7 0 7 7 0 (ex_cq_buf 1 id)

/-- Receive ring of 8 slots with `ring->reserved = 1` and `ring->avail = 7`:
the sum is 8, the number of slots. -/
def ex_rx_edge : RxState := ex_rx 3 1 7 3 7 7 0 (ex_cq_buf 0 id)

/-- Receive ring of 8 slots with `ring->reserved = 2` and `ring->avail = 3`;
one slot is released. -/
def ex_rx_keep : RxState := ex_rx 3 2 3 0 5 7 0 (ex_cq_buf 0 id)

/-- Receive ring whose port is down and whose `ring->cur` is 8, one past the
last slot. -/
def ex_rx_down : RxState := { ex_rx 8 0 0 0 0 7 0 (ex_cq_buf 0 id) with port_up := false }

/-- Receive ring with the port up and `ring->cur = 8`. -/
def ex_rx_cheat : RxState := ex_rx 8 0 0 0 0 7 0 (ex_cq_buf 0 id)

/-- Transmit ring of 8 slots with `nr_hwavail = 7` on which two completions
are pending. -/
def ex_tx_flood : TxState := ex_tx 3 3 7 5 3 (ex_cq_buf 2 (fun i => i + 4))

/-- Transmit ring of 8 slots on which the host has queued slots 0, 1 and 2
while `txr->prod` is 5. -/
def ex_tx_three : TxState := ex_tx 3 0 7 5 5 (ex_cq_buf 0 id)

/-- Transmit ring of 8 slots on which the host has queued slots 0, 1 and 2
while `txr->prod` is 6, two descriptors before the end of the device ring. -/
def ex_tx_turn : TxState := ex_tx 3 0 7 6 6 (ex_cq_buf 0 id)

/-- Constants for `mlx4_netmap_reg` in which the first call of
`mlx4_en_start_port` fails with -12 and every later call succeeds. -/
def ex_reg_env : RegEnv :=
  { IFCAP_NETMAP := 1048576
    STAMP_VAL := 2147483647
    STAMP_SHIFT := 31
    mlx4_en_start_port := fun n => if n = 0 then -12 else 0 }

/-- Constants for `mlx4_netmap_reg` in which every call of
`mlx4_en_start_port` fails, the first with -12 and the others with -5. -/
def ex_reg_env_dead : RegEnv :=
  { ex_reg_env with mlx4_en_start_port := fun n => if n = 0 then -12 else -5 }

/-- Transmit ring of 8 blocks, all first words 0, with `cons = 3`, `prod = 8`
and `last_nr_txbb = 1`. -/
def ex_ring_raw : tx_ring_raw :=
  { prod := 8, cons := 3, size := 8, size_mask := 7, last_nr_txbb := 1, word0 := fun _ => 0 }

/-- Running interface in standard mode with one transmit ring: operations at
address 100, netmap operations at address 200, no capability set. -/
def ex_reg : RegState :=
  { na_present := true, running := true, if_capenable := 0, netdev_ops := 100,
    if_transmit := 0, nm_ndo := 200, num_tx_rings := 1, tx_ring := fun _ => ex_ring_raw,
    stop_calls := 0, start_calls := 0 }

/-- Running interface in netmap mode: the saved operations are at address 100,
the capability bit is set. -/
def ex_reg_on : RegState :=
  { ex_reg with if_capenable := 1048576, netdev_ops := 200, if_transmit := 100 }

/-- Constants for `mlx4_netmap_rx_config`: a 64-byte stride without header
and 16-byte data segments give 4 fragments; `netmap_reset` returns the ring
unchanged. -/
def ex_cfg : CfgEnv :=
  { rx_desc_size := 0, DS_SIZE := 16, MLX4_EN_MEMTYPE_PAD := 4294967295,
    netmap_reset := fun kr => some kr }

/-- Receive ring of 8 netmap slots whose device ring reports 16 descriptors. -/
def ex_rx_mis : RxState :=
  { ex_rx 0 0 0 0 0 0 0 (ex_cq_buf 0 id) with
    rxr := { prod := 0, cons := 0, size := 16, size_mask := 15, actual_size := 16,
             stride := 64, fcs_del := 4, buf := fun _ _ => ex_seg, wqres_db := 0 } }

/-- Receive ring of 8 netmap slots whose device ring reports 8 descriptors. -/
def ex_rx_fit : RxState := ex_rx 0 0 0 0 0 0 0 (ex_cq_buf 0 id)

/-- Receive ring of 8 slots, all bound, with `ring->cur = 0`,
`ring->reserved = 9` and `ring->avail = 4294967287`, two values whose 32-bit
sum is 0. -/
def ex_rx_spin : RxState := ex_rx 0 9 4294967287 0 0 7 0 (ex_cq_buf 0 id)

/-- Transmit ring of 8 slots with `cur = 4`, `nr_hwcur = 0`, `txr->prod = 5`,
`txr->cons = 3`, one completion pending, whose slot 2 is unbound. -/
def ex_tx_late : TxState :=
  { ex_tx 4 0 7 5 3 (ex_cq_buf 1 (fun i => i + 4)) with
    kring := { nr_hwcur := 0, nr_hwavail := 7, nr_kflags := 0, nkr_num_slots := 8,
               nkr_slot_flags := 0, nkr_hwofs := 0,
               ring := { cur := 4, avail := 0, reserved := 0, slot := ex_slots 2 8 60 } } }

/-- Transmit ring of 2 slots over a device ring and a completion queue of 2
entries, both entries written in the first, even wrap. -/
def ex_tx_two : TxState :=
  { txr := { prod := 2, cons := 0, size := 2, size_mask := 1,
             buf := fun _ => ex_tx_desc, doorbells := 0 }
    cq := { size := 2, buf := ex_cq_buf 2 id, cons_index := 0, set_ci_db := 0,
            arm_count := 0 }
    kring := { nr_hwcur := 0, nr_hwavail := 0, nr_kflags := 0, nkr_num_slots := 2,
               nkr_slot_flags := 0, nkr_hwofs := 0,
               ring := { cur := 0, avail := 0, reserved := 0,
                         slot := fun i => { buf_idx := i + 1, len := 60, flags := 0 } } }
    cqe_factor := 0
    mr_key := 7 }

/-! ## Iterated loop bodies -/

/-- State after `d` iterations of the transmit loop body starting at netmap
index `j`, all slots passing the check. -/
def tx_post_n (env : Env) (lim : Nat) : Nat → Nat → TxState → TxState
  | 0, _, s => s
  | d + 1, j, s => tx_post_n env lim d (nm_next lim j) (tx_post env j s)

/-- State after `d` iterations of the replenish loop body starting at netmap
index `j` and NIC index `l`, all slots having a valid buffer. -/
def rx_post_n (env : Env) (lim : Nat) : Nat → Nat → Nat → RxState → RxState
  | 0, _, _, s => s
  | d + 1, j, l, s => rx_post_n env lim d (nm_next lim j) (nm_next lim l) (rx_post env j l s)

/-- Ring after `d` iterations of the stamping loop body. -/
def stamp_n (env : RegEnv) : Nat → tx_ring_raw → tx_ring_raw
  | 0, r => r
  | d + 1, r => stamp_n env d (stamp_step env r)

/-! ## Arithmetic facts -/

theorem u32_lt (x : Nat) : u32 x < 4294967296 := by
  unfold u32; omega

theorem u32_of_lt {x : Nat} (h : x < 4294967296) : u32 x = x := by
  unfold u32; omega

theorem u32_add_u32 (a b : Nat) : u32 (u32 a + b) = u32 (a + b) := by
  unfold u32; omega

theorem sub32_one {N : Nat} (h0 : 0 < N) (h1 : N < 4294967296) : sub32 N 1 = N - 1 := by
  unfold sub32; omega

theorem sub32_self (a : Nat) : sub32 a a = 0 := by
  unfold sub32; omega

theorem to_u32_lt (x : Int) : to_u32 x < 4294967296 := by
  unfold to_u32; omega

theorem to_u32_of_nonneg {x : Int} (h0 : 0 ≤ x) (h1 : x < 4294967296) :
    to_u32 x = x.toNat := by
  unfold to_u32; omega

theorem to_s32_add (h : Int) (n : Nat) :
    to_s32 (to_u32 h + n) = to_s32 (to_u32 (h + n)) := by
  unfold to_s32 to_u32; split <;> split <;> omega

theorem to_s32_sub {h : Int} {n : Nat} (hn : n < 4294967296) :
    to_s32 (sub32 (to_u32 h) n) = to_s32 (to_u32 (h - n)) := by
  unfold to_s32 to_u32 sub32; split <;> split <;> omega

theorem to_s32_to_u32 {x : Int} (h0 : -2147483648 ≤ x) (h1 : x < 2147483648) :
    to_s32 (to_u32 x) = x := by
  unfold to_s32 to_u32; split <;> omega

theorem add_mod_ring {N j i : Nat} (hj : j < N) (hi : i ≤ N) :
    (j + i) % N = if j + i < N then j + i else j + i - N := by
  split
  · exact Nat.mod_eq_of_lt (by assumption)
  · rw [Nat.mod_eq_sub_mod (by omega)]
    exact Nat.mod_eq_of_lt (by omega)

theorem dist_ring {N j k : Nat} (hj : j < N) (hk : k < N) :
    (k + N - j) % N = if j ≤ k then k - j else k + N - j := by
  split
  · have h : k + N - j = (k - j) + N := by omega
    rw [h, Nat.add_mod_right]
    exact Nat.mod_eq_of_lt (by omega)
  · exact Nat.mod_eq_of_lt (by omega)

theorem iter_next {lim j : Nat} (hj : j ≤ lim) (i : Nat) :
    (nm_next lim)^[i] j = (j + i) % (lim + 1) := by
  induction i with
  | zero => simp; exact (Nat.mod_eq_of_lt (by omega)).symm
  | succ i ih =>
    rw [Function.iterate_succ_apply', ih]
    have hlt : (j + i) % (lim + 1) < lim + 1 := Nat.mod_lt _ (by omega)
    have e : (j + (i + 1)) % (lim + 1) = ((j + i) % (lim + 1) + 1) % (lim + 1) := by
      rw [← Nat.add_assoc]; exact (Nat.mod_add_mod _ _ _).symm
    rw [e]
    unfold nm_next
    split
    · rename_i h; rw [h]; simp
    · rename_i h
      exact (Nat.mod_eq_of_lt (by omega)).symm

/-! ## The transmit loop -/

theorem tx_post_n_shape (env : Env) (lim : Nat) : ∀ (d j : Nat) (s : TxState),
    tx_post_n env lim d j s =
      { s with
        kring := { s.kring with
          ring := { s.kring.ring with slot := (tx_post_n env lim d j s).kring.ring.slot } }
        txr := { s.txr with
          buf := (tx_post_n env lim d j s).txr.buf
          prod := (tx_post_n env lim d j s).txr.prod } } := by
  intro d
  induction d with
  | zero => intro j s; rfl
  | succ d ih =>
    intro j s
    have h := ih (nm_next lim j) (tx_post env j s)
    simp only [tx_post_n]
    rw [h]
    simp [tx_post]

theorem tx_post_n_prod (env : Env) (lim : Nat) : ∀ (d j : Nat) (s : TxState),
    s.txr.prod < 4294967296 → (tx_post_n env lim d j s).txr.prod = u32 (s.txr.prod + d) := by
  intro d
  induction d with
  | zero => intro j s hp; simp [tx_post_n, u32_of_lt hp]
  | succ d ih =>
    intro j s _
    simp only [tx_post_n]
    rw [ih _ _ (by simp [tx_post, u32_lt])]
    simp only [tx_post]
    rw [u32_add_u32, Nat.add_assoc, Nat.add_comm 1 d]

theorem tx_post_slot_static (env : Env) (j : Nat) (s : TxState) (x : Nat) :
    ((tx_post env j s).kring.ring.slot x).buf_idx = (s.kring.ring.slot x).buf_idx ∧
    ((tx_post env j s).kring.ring.slot x).len = (s.kring.ring.slot x).len := by
  simp only [tx_post, store]
  split
  · rename_i h; subst h; simp
  · simp

theorem tx_post_n_slot_static (env : Env) (lim : Nat) : ∀ (d j : Nat) (s : TxState) (x : Nat),
    ((tx_post_n env lim d j s).kring.ring.slot x).buf_idx = (s.kring.ring.slot x).buf_idx ∧
    ((tx_post_n env lim d j s).kring.ring.slot x).len = (s.kring.ring.slot x).len := by
  intro d
  induction d with
  | zero => intro j s x; simp [tx_post_n]
  | succ d ih =>
    intro j s x
    simp only [tx_post_n]
    rw [(ih _ _ x).1, (ih _ _ x).2]
    exact tx_post_slot_static env j s x

theorem tx_slot_bad_congr (env : Env) {a b : netmap_slot} (h1 : a.buf_idx = b.buf_idx)
    (h2 : a.len = b.len) : tx_slot_bad env a = tx_slot_bad env b := by
  simp [tx_slot_bad, h1, h2]

theorem tx_post_n_buf_frame (env : Env) (lim : Nat) : ∀ (d j : Nat) (s : TxState) (l : Nat),
    s.txr.prod < 4294967296 →
    (∀ i, i < d → l ≠ u32 (s.txr.prod + i) &&& s.txr.size_mask) →
    (tx_post_n env lim d j s).txr.buf l = s.txr.buf l := by
  intro d
  induction d with
  | zero => intro j s l _ _; simp [tx_post_n]
  | succ d ih =>
    intro j s l hp hl
    simp only [tx_post_n]
    rw [ih (nm_next lim j) (tx_post env j s) l (by simp [tx_post, u32_lt])]
    · have h0 := hl 0 (by omega)
      simp only [Nat.add_zero, u32_of_lt hp] at h0
      simp [tx_post, store, h0]
    · intro i hi
      have h := hl (i + 1) (by omega)
      simpa [tx_post, u32_add_u32, Nat.add_assoc, Nat.add_comm 1 i] using h

/-- The transmit loop over `d` good slots reaching `k`. -/
theorem tx_loop_ok (env : Env) (lim k : Nat) : ∀ (d fuel j n : Nat) (s : TxState),
    (∀ i, i < d → (nm_next lim)^[i] j ≠ k ∧
      tx_slot_bad env (s.kring.ring.slot ((nm_next lim)^[i] j)) = false) →
    (nm_next lim)^[d] j = k → d ≤ fuel → n + d < 4294967296 →
    tx_loop env lim k fuel j n s = some (0, n + d, tx_post_n env lim d j s) := by
  intro d
  induction d with
  | zero =>
    intro fuel j n s _ hk _ _
    simp only [Function.iterate_zero, id_eq] at hk
    cases fuel <;> simp [tx_loop, hk, tx_post_n]
  | succ d ih =>
    intro fuel j n s hgood hk hfuel hn
    cases fuel with
    | zero => omega
    | succ fuel =>
      have h0 := hgood 0 (by omega)
      simp only [Function.iterate_zero, id_eq] at h0
      simp only [tx_loop, h0.1, h0.2, if_false, Bool.false_eq_true, tx_post_n]
      rw [ih fuel (nm_next lim j) (u32 (n + 1)) (tx_post env j s)]
      · rw [u32_of_lt (by omega)]
        simp [Nat.add_assoc, Nat.add_comm 1 d]
      · intro i hi
        have h := hgood (i + 1) (by omega)
        rw [Function.iterate_succ_apply] at h
        refine ⟨h.1, ?_⟩
        rw [← h.2]
        exact tx_slot_bad_congr env (tx_post_slot_static env j s _).1 (tx_post_slot_static env j s _).2
      · rw [← hk, Function.iterate_succ_apply]
      · omega
      · rw [u32_of_lt (by omega)]; omega

/-- The transmit loop stopped by the first bad slot, after `d` good ones. -/
theorem tx_loop_bad (env : Env) (lim k : Nat) : ∀ (d fuel j n : Nat) (s : TxState),
    (∀ i, i < d → (nm_next lim)^[i] j ≠ k ∧
      tx_slot_bad env (s.kring.ring.slot ((nm_next lim)^[i] j)) = false) →
    (nm_next lim)^[d] j ≠ k →
    tx_slot_bad env (s.kring.ring.slot ((nm_next lim)^[d] j)) = true →
    d < fuel → n + d < 4294967296 →
    tx_loop env lim k fuel j n s = some (EINVAL, n + d, tx_post_n env lim d j s) := by
  intro d
  induction d with
  | zero =>
    intro fuel j n s _ hk hbad hfuel _
    simp only [Function.iterate_zero, id_eq] at hk hbad
    cases fuel with
    | zero => omega
    | succ fuel => simp [tx_loop, hk, hbad, tx_post_n]
  | succ d ih =>
    intro fuel j n s hgood hk hbad hfuel hn
    cases fuel with
    | zero => omega
    | succ fuel =>
      have h0 := hgood 0 (by omega)
      simp only [Function.iterate_zero, id_eq] at h0
      simp only [tx_loop, h0.1, h0.2, if_false, Bool.false_eq_true, tx_post_n]
      rw [ih fuel (nm_next lim j) (u32 (n + 1)) (tx_post env j s)]
      · rw [u32_of_lt (by omega)]
        simp [Nat.add_assoc, Nat.add_comm 1 d]
      · intro i hi
        have h := hgood (i + 1) (by omega)
        rw [Function.iterate_succ_apply] at h
        refine ⟨h.1, ?_⟩
        rw [← h.2]
        exact tx_slot_bad_congr env (tx_post_slot_static env j s _).1 (tx_post_slot_static env j s _).2
      · rw [← Function.iterate_succ_apply]; exact hk
      · rw [← hbad, Function.iterate_succ_apply]
        exact tx_slot_bad_congr env (tx_post_slot_static env j s _).1 (tx_post_slot_static env j s _).2
      · omega
      · rw [u32_of_lt (by omega)]; omega

/-! ## The completion scans -/

theorem tx_cq_scan_stop (size_mask size factor : Nat) (buf : Nat → mlx4_cqe)
    (rem ci ni n : Nat) (h : cqe_ready size (tx_cqe size_mask factor buf ci) ci = false) :
    tx_cq_scan size_mask size factor buf rem ci ni n = (ci, ni, n) := by
  cases rem <;> simp [tx_cq_scan, h]

theorem tx_cq_scan_spec (size_mask size factor : Nat) (buf : Nat → mlx4_cqe) :
    ∀ (rem ci ni n : Nat), ci < 4294967296 →
    ∃ c, c ≤ rem ∧
      tx_cq_scan size_mask size factor buf rem ci ni n =
        (u32 (ci + c),
         (if c = 0 then ni
          else u16 ((tx_cqe size_mask factor buf (u32 (ci + (c - 1)))).wqe_index &&& size_mask)),
         n + c) ∧
      (∀ i, i < c → cqe_ready size (tx_cqe size_mask factor buf (u32 (ci + i))) (u32 (ci + i)) = true) ∧
      (c < rem →
        cqe_ready size (tx_cqe size_mask factor buf (u32 (ci + c))) (u32 (ci + c)) = false) := by
  intro rem
  induction rem with
  | zero =>
    intro ci ni n hci
    exact ⟨0, by omega, by simp [tx_cq_scan, u32_of_lt hci], by intro i hi; omega, by intro h; omega⟩
  | succ rem ih =>
    intro ci ni n hci
    by_cases hr : cqe_ready size (tx_cqe size_mask factor buf ci) ci = true
    · obtain ⟨c, hc, heq, hall, hstop⟩ :=
        ih (u32 (ci + 1)) (u16 ((tx_cqe size_mask factor buf ci).wqe_index &&& size_mask)) (n + 1)
          (u32_lt _)
      refine ⟨c + 1, by omega, ?_, ?_, ?_⟩
      · simp only [tx_cq_scan, hr, Bool.not_true, Bool.false_eq_true, if_false]
        rw [heq, u32_add_u32]
        by_cases hc0 : c = 0
        · subst hc0; simp [u32_of_lt hci]
        · have e : ci + 1 + (c - 1) = ci + (c + 1 - 1) := by omega
          simp [hc0, u32_add_u32, e, Nat.add_assoc, Nat.add_comm 1 c]
      · intro i hi
        cases i with
        | zero => simpa [u32_of_lt hci] using hr
        | succ i =>
          have h := hall i (by omega)
          rw [u32_add_u32] at h
          simpa [Nat.add_assoc, Nat.add_comm 1 i] using h
      · intro hlt
        have h := hstop (by omega)
        rw [u32_add_u32] at h
        simpa [Nat.add_assoc, Nat.add_comm 1 c] using h
    · have hf : cqe_ready size (tx_cqe size_mask factor buf ci) ci = false := by
        simpa using hr
      refine ⟨0, by omega, ?_, by intro i hi; omega, ?_⟩
      · simp [tx_cq_scan_stop _ _ _ _ _ _ _ _ hf, u32_of_lt hci]
      · intro _; simpa [u32_of_lt hci] using hf

/-! ## The two halves of txsync -/

theorem ring_walk {lim j k : Nat} (hj : j ≤ lim) (hk : k ≤ lim) :
    (nm_next lim)^[(k + (lim + 1) - j) % (lim + 1)] j = k ∧
    ∀ i, i < (k + (lim + 1) - j) % (lim + 1) → (nm_next lim)^[i] j ≠ k := by
  have hd := dist_ring (N := lim + 1) (j := j) (k := k) (by omega) (by omega)
  constructor
  · rw [iter_next hj, add_mod_ring (by omega) (by rw [hd]; split <;> omega), hd]
    split <;> split <;> omega
  · intro i hi
    rw [iter_next hj, add_mod_ring (by omega) (by rw [hd] at hi; split at hi <;> omega)]
    rw [hd] at hi
    split at hi <;> split <;> omega

theorem tx_send_ok (env : Env) (fuel lim k : Nat) (s : TxState)
    (hj : s.kring.nr_hwcur ≤ lim) (hk : k ≤ lim) (hfuel : lim ≤ fuel)
    (hlim : lim < 4294967296)
    (hgood : ∀ i, i < (k + (lim + 1) - s.kring.nr_hwcur) % (lim + 1) →
      tx_slot_bad env (s.kring.ring.slot ((s.kring.nr_hwcur + i) % (lim + 1))) = false) :
    tx_send env fuel lim k s =
      some (0,
        if s.kring.nr_hwcur = k then s
        else tx_commit k ((k + (lim + 1) - s.kring.nr_hwcur) % (lim + 1))
          (tx_post_n env lim ((k + (lim + 1) - s.kring.nr_hwcur) % (lim + 1)) s.kring.nr_hwcur s)) := by
  unfold tx_send
  by_cases hjk : s.kring.nr_hwcur = k
  · simp [hjk]
  · have hw := ring_walk hj hk
    have hdl : (k + (lim + 1) - s.kring.nr_hwcur) % (lim + 1) < lim + 1 :=
      Nat.mod_lt _ (by omega)
    have hl := tx_loop_ok env lim k ((k + (lim + 1) - s.kring.nr_hwcur) % (lim + 1)) fuel
      s.kring.nr_hwcur 0 s
      (fun i hi => ⟨hw.2 i hi, by rw [iter_next hj]; exact hgood i hi⟩) hw.1 (by omega) (by omega)
    simp only [ne_eq, hjk, not_false_eq_true, if_true, hl, Nat.zero_add, not_true_eq_false,
      if_false]

theorem tx_scan_idle (lim : Nat) (s : TxState)
    (h : cqe_ready s.cq.size (tx_cqe s.txr.size_mask s.cqe_factor s.cq.buf s.cq.cons_index)
      s.cq.cons_index = false) :
    tx_scan lim s = (s.cq.cons_index, u16 (s.txr.cons &&& s.txr.size_mask), 0) := by
  unfold tx_scan
  exact tx_cq_scan_stop _ _ _ _ _ _ _ _ h

theorem tx_freed_idle (lim : Nat) (s : TxState)
    (h : cqe_ready s.cq.size (tx_cqe s.txr.size_mask s.cqe_factor s.cq.buf s.cq.cons_index)
      s.cq.cons_index = false) : tx_freed lim s = 0 := by
  unfold tx_freed
  rw [tx_scan_idle lim s h]
  simp [sub32_self]

theorem tx_reclaim_idle (lim : Nat) (s : TxState)
    (h : cqe_ready s.cq.size (tx_cqe s.txr.size_mask s.cqe_factor s.cq.buf s.cq.cons_index)
      s.cq.cons_index = false) :
    tx_reclaim lim s =
      (0, { s with
            cq := { s.cq with
              set_ci_db := s.cq.cons_index &&& 0xffffff
              arm_count := if s.kring.nr_hwavail = 0 then s.cq.arm_count + 1 else s.cq.arm_count }
            kring := { s.kring with
              ring := { s.kring.ring with avail := to_u32 s.kring.nr_hwavail } } }) := by
  unfold tx_reclaim
  simp only [tx_scan_idle lim s h, tx_freed_idle lim s h, ne_eq, not_true_eq_false,
    false_and, if_false]
  by_cases h0 : s.kring.nr_hwavail = 0 <;> simp [h0]

/-- Every field written by the reclaim half, in terms of the scan result and
of the freed count. -/
theorem tx_reclaim_fields (lim : Nat) (s : TxState) :
    (tx_reclaim lim s).1 =
      (if tx_freed lim s ≠ 0 ∧ to_u32 (to_s32 (to_u32 s.kring.nr_hwavail + tx_freed lim s)) > lim
        then EINVAL else 0) ∧
    (tx_reclaim lim s).2.txr.cons =
      (if tx_freed lim s ≠ 0 then u32 (s.txr.cons + tx_freed lim s) else s.txr.cons) ∧
    (tx_reclaim lim s).2.kring.nr_hwavail =
      (if tx_freed lim s ≠ 0 then to_s32 (to_u32 s.kring.nr_hwavail + tx_freed lim s)
        else s.kring.nr_hwavail) ∧
    (tx_reclaim lim s).2.cq.cons_index = (tx_scan lim s).1 ∧
    (tx_reclaim lim s).2.txr.prod = s.txr.prod ∧
    (tx_reclaim lim s).2.txr.buf = s.txr.buf ∧
    (tx_reclaim lim s).2.kring.nr_hwcur = s.kring.nr_hwcur ∧
    (tx_reclaim lim s).2.kring.ring.slot = s.kring.ring.slot ∧
    ((tx_reclaim lim s).1 = 0 →
      (tx_reclaim lim s).2.kring.ring.avail = to_u32 (tx_reclaim lim s).2.kring.nr_hwavail) ∧
    (tx_reclaim lim s).2.kring.nkr_num_slots = s.kring.nkr_num_slots ∧
    (tx_reclaim lim s).2.kring.ring.cur = s.kring.ring.cur ∧
    (tx_reclaim lim s).2.cq.buf = s.cq.buf ∧
    (tx_reclaim lim s).2.cq.size = s.cq.size ∧
    (tx_reclaim lim s).2.txr.size_mask = s.txr.size_mask ∧
    (tx_reclaim lim s).2.cqe_factor = s.cqe_factor := by
  unfold tx_reclaim
  by_cases hn : tx_freed lim s = 0
  · by_cases h0 : s.kring.nr_hwavail = 0 <;> simp [hn, h0]
  · by_cases hl : to_u32 (to_s32 (to_u32 s.kring.nr_hwavail + tx_freed lim s)) > lim
    · simp [hn, hl, EINVAL]
    · by_cases h0 : to_s32 (to_u32 s.kring.nr_hwavail + tx_freed lim s) = 0
      · have hl0 : ¬ lim < to_u32 0 := by rw [h0] at hl; exact hl
        simp [hn, h0, hl0]
      · simp [hn, hl, h0]

theorem tx_post_n_frame (env : Env) (lim d j : Nat) (s : TxState) :
    (tx_post_n env lim d j s).cq = s.cq ∧
    (tx_post_n env lim d j s).cqe_factor = s.cqe_factor ∧
    (tx_post_n env lim d j s).mr_key = s.mr_key ∧
    (tx_post_n env lim d j s).txr.cons = s.txr.cons ∧
    (tx_post_n env lim d j s).txr.size = s.txr.size ∧
    (tx_post_n env lim d j s).txr.size_mask = s.txr.size_mask ∧
    (tx_post_n env lim d j s).txr.doorbells = s.txr.doorbells ∧
    (tx_post_n env lim d j s).kring.nr_hwcur = s.kring.nr_hwcur ∧
    (tx_post_n env lim d j s).kring.nr_hwavail = s.kring.nr_hwavail ∧
    (tx_post_n env lim d j s).kring.nkr_num_slots = s.kring.nkr_num_slots ∧
    (tx_post_n env lim d j s).kring.ring.cur = s.kring.ring.cur ∧
    (tx_post_n env lim d j s).kring.ring.avail = s.kring.ring.avail ∧
    (tx_post_n env lim d j s).kring.ring.reserved = s.kring.ring.reserved := by
  have hs := tx_post_n_shape env lim d j s
  refine ⟨?_, ?_, ?_, ?_, ?_, ?_, ?_, ?_, ?_, ?_, ?_, ?_, ?_⟩ <;> rw [hs]

/-! ## Cursor validation and the transmit commit -/

/-- C5: a transmit cursor outside `[0, N-1]` makes `mlx4_netmap_txsync`
return through `netmap_ring_reinit` at once: the state handed to the helper
is the entry state, so the producer and consumer indices, `nr_hwcur`,
`nr_hwavail`, the completion consumer index and every descriptor are
untouched. -/
theorem txsync_cur_out_of_range (env : Env) (fuel : Nat) (do_lock : Bool) (s : TxState)
    (hN0 : 0 < s.kring.nkr_num_slots) (hN : s.kring.nkr_num_slots < 4294967296)
    (hcur : s.kring.nkr_num_slots ≤ s.kring.ring.cur) :
    mlx4_netmap_txsync env fuel do_lock s = some (sync_ret.ring_reinit, s) := by
  unfold mlx4_netmap_txsync
  have hlim := sub32_one hN0 hN
  simp only [hlim]
  rw [if_pos (by omega)]

theorem txsync_cur_out_of_range_witness :
    mlx4_netmap_txsync ex_env 8 false (ex_tx 8 0 7 0 0 (ex_cq_buf 0 id)) =
      some (sync_ret.ring_reinit, ex_tx 8 0 7 0 0 (ex_cq_buf 0 id)) :=
  txsync_cur_out_of_range ex_env 8 false (ex_tx 8 0 7 0 0 (ex_cq_buf 0 id))
    (by decide) (by decide) (by decide)

/-- C2: with `cur` and `nr_hwcur` inside the ring, every slot of
`[nr_hwcur, cur)` passing the address and length check and no completion
entry ready at the consumer index, `mlx4_netmap_txsync` returns 0, `txr->prod`
has advanced by `d = (cur - nr_hwcur) mod N` (as a 32-bit counter),
`nr_hwavail` has dropped by `d` (as an `int`) and `nr_hwcur` is `cur`. -/
theorem txsync_drain_commit (env : Env) (fuel : Nat) (do_lock : Bool) (s : TxState)
    (hN0 : 0 < s.kring.nkr_num_slots) (hN : s.kring.nkr_num_slots < 4294967296)
    (hprod : s.txr.prod < 4294967296) (hav : is_int s.kring.nr_hwavail)
    (hcur : s.kring.ring.cur < s.kring.nkr_num_slots)
    (hhw : s.kring.nr_hwcur < s.kring.nkr_num_slots)
    (hfuel : s.kring.nkr_num_slots ≤ fuel)
    (hgood : ∀ i, i < (s.kring.ring.cur + s.kring.nkr_num_slots - s.kring.nr_hwcur)
        % s.kring.nkr_num_slots →
      tx_slot_bad env (s.kring.ring.slot ((s.kring.nr_hwcur + i) % s.kring.nkr_num_slots)) = false)
    (hcq : cqe_ready s.cq.size (tx_cqe s.txr.size_mask s.cqe_factor s.cq.buf s.cq.cons_index)
      s.cq.cons_index = false) :
    ∃ s1, mlx4_netmap_txsync env fuel do_lock s = some (sync_ret.ok, s1) ∧
      s1.txr.prod = u32 (s.txr.prod +
        (s.kring.ring.cur + s.kring.nkr_num_slots - s.kring.nr_hwcur) % s.kring.nkr_num_slots) ∧
      s1.kring.nr_hwavail = s32 (s.kring.nr_hwavail -
        ((s.kring.ring.cur + s.kring.nkr_num_slots - s.kring.nr_hwcur) % s.kring.nkr_num_slots
          : Nat)) ∧
      s1.kring.nr_hwcur = s.kring.ring.cur := by
  obtain ⟨lim, hlim⟩ : ∃ lim, s.kring.nkr_num_slots = lim + 1 := ⟨s.kring.nkr_num_slots - 1, by omega⟩
  rw [hlim] at hN hcur hhw hfuel hgood ⊢
  unfold mlx4_netmap_txsync
  have hl : sub32 s.kring.nkr_num_slots 1 = lim := by rw [sub32_one hN0 (by omega)]; omega
  simp only [hl]
  rw [if_neg (by omega), if_neg (by omega)]
  rw [tx_send_ok env fuel lim _ s (by omega) (by omega) (by omega) (by omega) hgood]
  simp only [ne_eq, not_true_eq_false, if_false]
  by_cases hjk : s.kring.nr_hwcur = s.kring.ring.cur
  · rw [if_pos hjk, tx_reclaim_idle lim s hcq]
    refine ⟨_, rfl, ?_, ?_, ?_⟩
    · simp [hjk, u32_of_lt hprod]
    · simp only [hjk, Nat.add_sub_cancel_left, Nat.mod_self, Nat.cast_zero, sub_zero]
      exact (to_s32_to_u32 hav.1 hav.2).symm
    · exact hjk
  · rw [if_neg hjk]
    obtain ⟨f1, f2, _, f4, _, f6, _, _, f9, _, _, _, _⟩ :=
      tx_post_n_frame env lim ((s.kring.ring.cur + (lim + 1) - s.kring.nr_hwcur) % (lim + 1))
        s.kring.nr_hwcur s
    rw [tx_reclaim_idle lim _ (by simpa [tx_commit, f1, f2, f6] using hcq)]
    refine ⟨_, rfl, ?_, ?_, ?_⟩
    · simp [tx_commit, tx_post_n_prod env lim _ _ s hprod]
    · simp only [tx_commit, f9, s32]
      exact to_s32_sub (Nat.lt_of_lt_of_le (Nat.mod_lt _ (by omega)) (by omega))
    · simp [tx_commit]

theorem txsync_drain_commit_witness :
    ∃ s1, mlx4_netmap_txsync ex_env 8 false (ex_tx 3 0 7 0 0 (ex_cq_buf 0 id)) =
        some (sync_ret.ok, s1) ∧
      s1.txr.prod = 3 ∧ s1.kring.nr_hwavail = 4 ∧ s1.kring.nr_hwcur = 3 := by
  obtain ⟨s1, h1, h2, h3, h4⟩ :=
    txsync_drain_commit ex_env 8 false (ex_tx 3 0 7 0 0 (ex_cq_buf 0 id))
      (by decide) (by decide) (by decide) ⟨by decide, by decide⟩ (by decide) (by decide)
      (by decide) (by decide) (by decide)
  exact ⟨s1, h1, h2.trans (by decide), h3.trans (by decide), h4⟩

theorem two_pow_dvd_u32 {k : Nat} (hk : k ≤ 32) : 2 ^ k ∣ 4294967296 := by
  have h : (4294967296 : Nat) = 2 ^ 32 := by norm_num
  rw [h]
  exact pow_dvd_pow 2 hk

/-- With a mask `2^k - 1`, `k ≤ 16`, the count computed from the two 16-bit
indexes is the masked 32-bit difference of the raw back-reference and the
masked consumer counter. -/
theorem freed_count {k : Nat} (hk : k ≤ 16) (w c : Nat) :
    sub32 (u16 (w &&& (2 ^ k - 1))) (u16 (c &&& (2 ^ k - 1))) &&& (2 ^ k - 1) =
      sub32 w (c &&& (2 ^ k - 1)) &&& (2 ^ k - 1) := by
  have hM := two_pow_dvd_u32 (k := k) (by omega)
  have hpos : 0 < 2 ^ k := Nat.two_pow_pos k
  have hle : 2 ^ k ≤ 65536 := by
    have h : (65536 : Nat) = 2 ^ 16 := by norm_num
    rw [h]
    exact Nat.pow_le_pow_right (by norm_num) hk
  have hc : c % 2 ^ k < 2 ^ k := Nat.mod_lt _ hpos
  have hw : w % 2 ^ k < 2 ^ k := Nat.mod_lt _ hpos
  simp only [Nat.and_pow_two_sub_one_eq_mod, sub32, u16]
  rw [Nat.mod_eq_of_lt (show c % 2 ^ k < 65536 by omega),
    Nat.mod_eq_of_lt (show w % 2 ^ k < 65536 by omega),
    Nat.mod_eq_of_lt (show c % 2 ^ k < 4294967296 by omega),
    Nat.mod_eq_of_lt (show w % 2 ^ k < 4294967296 by omega),
    Nat.mod_mod_of_dvd _ hM, Nat.mod_mod_of_dvd _ hM,
    Nat.add_mod (w % 4294967296), Nat.mod_mod_of_dvd _ hM, Nat.mod_add_mod, Nat.mod_add_mod,
    Nat.add_mod_mod]

/-- C3: in the reclaim half of `mlx4_netmap_txsync`, on a ring whose mask is
`2^k - 1` (`k ≤ 16`, the back-reference being a 16-bit field), the number of
freed slots is `n = (w - (txr->cons & size_mask)) & size_mask` with `w` the
`wqe_index` of the last entry consumed by the scan, and `n = 0` when the
scan consumes nothing; `txr->cons` (a 32-bit counter) and `nr_hwavail` (an
`int`) both grow by `n`, and the completion consumer index by the number of
entries consumed. -/
theorem txsync_harvest_freed (lim : Nat) (s : TxState) (k : Nat) (hk : k ≤ 16)
    (hmask : s.txr.size_mask = 2 ^ k - 1) (hci : s.cq.cons_index < 4294967296)
    (hcons : s.txr.cons < 4294967296) (hav : is_int s.kring.nr_hwavail) :
    tx_freed lim s =
      (if (tx_scan lim s).2.2 = 0 then 0
       else sub32 (tx_cqe s.txr.size_mask s.cqe_factor s.cq.buf
              (u32 (s.cq.cons_index + ((tx_scan lim s).2.2 - 1)))).wqe_index
            (s.txr.cons &&& s.txr.size_mask) &&& s.txr.size_mask) ∧
    (tx_reclaim lim s).2.txr.cons = u32 (s.txr.cons + tx_freed lim s) ∧
    (tx_reclaim lim s).2.kring.nr_hwavail = s32 (s.kring.nr_hwavail + (tx_freed lim s : Nat)) ∧
    (tx_reclaim lim s).2.cq.cons_index = u32 (s.cq.cons_index + (tx_scan lim s).2.2) := by
  obtain ⟨c, _, heq, _, _⟩ :=
    tx_cq_scan_spec s.txr.size_mask s.cq.size s.cqe_factor s.cq.buf (u32 (2 * lim))
      s.cq.cons_index (u16 (s.txr.cons &&& s.txr.size_mask)) 0 hci
  have hscan : tx_scan lim s = _ := heq
  obtain ⟨_, f2, f3, f4, _⟩ := tx_reclaim_fields lim s
  refine ⟨?_, ?_, ?_, ?_⟩
  · unfold tx_freed
    rw [hscan]
    by_cases hc0 : c = 0
    · simp [hc0, sub32_self]
    · simp only [hc0, if_false, Nat.zero_add]
      rw [hmask]
      exact freed_count hk _ _
  · rw [f2]
    by_cases hn : tx_freed lim s = 0
    · simp [hn, u32_of_lt hcons]
    · simp [hn]
  · rw [f3]
    by_cases hn : tx_freed lim s = 0
    · simp only [hn, ne_eq, not_true_eq_false, if_false, Nat.cast_zero, add_zero, s32]
      exact (to_s32_to_u32 hav.1 hav.2).symm
    · simp only [ne_eq, hn, not_false_eq_true, if_true, s32]
      exact to_s32_add _ _
  · rw [f4, hscan]
    simp

/-- Scenario B: two completions whose last back-reference is two slots past
`txr->cons` free two slots. -/
theorem txsync_harvest_freed_witness :
    tx_freed 7 (ex_tx 3 3 5 5 3 (ex_cq_buf 2 (fun i => i + 4))) = 2 ∧
    (tx_reclaim 7 (ex_tx 3 3 5 5 3 (ex_cq_buf 2 (fun i => i + 4)))).2.txr.cons = 5 ∧
    (tx_reclaim 7 (ex_tx 3 3 5 5 3 (ex_cq_buf 2 (fun i => i + 4)))).2.kring.nr_hwavail = 7 ∧
    (tx_reclaim 7 (ex_tx 3 3 5 5 3 (ex_cq_buf 2 (fun i => i + 4)))).2.cq.cons_index = 2 := by
  obtain ⟨h1, h2, h3, h4⟩ :=
    txsync_harvest_freed 7 (ex_tx 3 3 5 5 3 (ex_cq_buf 2 (fun i => i + 4))) 3 (by decide)
      (by decide) (by decide) (by decide) ⟨by decide, by decide⟩
  exact ⟨h1.trans (by decide), h2.trans (by decide), h3.trans (by decide), h4.trans (by decide)⟩

/-! ## Ownership parity -/

theorem and_two_pow_eq_zero (x k : Nat) : x &&& 2 ^ k = 0 ↔ (x / 2 ^ k) % 2 = 0 := by
  have ht : x.testBit k = decide (x / 2 ^ k % 2 = 1) := Nat.testBit_to_div_mod
  constructor
  · intro h
    have h1 : (x &&& 2 ^ k).testBit k = false := by rw [h]; exact Nat.zero_testBit k
    rw [Nat.testBit_and, Nat.testBit_two_pow_self, Bool.and_true, ht] at h1
    have h2 : ¬ (x / 2 ^ k % 2 = 1) := by simpa using h1
    omega
  · intro h
    apply Nat.eq_of_testBit_eq
    intro i
    rw [Nat.testBit_and, Nat.zero_testBit, Nat.testBit_two_pow]
    by_cases hki : k = i
    · subst hki
      rw [ht]
      simp [h]
    · simp [hki]

theorem cqe_ready_iff_parity (k : Nat) (cqe : mlx4_cqe) (c : Nat) :
    cqe_ready (2 ^ k) cqe c = true ↔ cqe_owner_bit cqe = wrap_parity (2 ^ k) c := by
  unfold cqe_ready XNOR cqe_owner_bit wrap_parity
  rw [Nat.and_one_is_mod]
  have h := and_two_pow_eq_zero c k
  have h2 : c / 2 ^ k % 2 < 2 := Nat.mod_lt _ (by omega)
  by_cases h0 : cqe.owner_sr_opcode &&& MLX4_CQE_OWNER_MASK = 0
  · by_cases h1 : c &&& 2 ^ k = 0
    · have := h.1 h1
      simp [h0, h1, this]
    · have : ¬ (c / 2 ^ k % 2 = 0) := fun hh => h1 (h.2 hh)
      simp [h0, h1]
      omega
  · by_cases h1 : c &&& 2 ^ k = 0
    · have := h.1 h1
      simp [h0, h1, this]
    · have : ¬ (c / 2 ^ k % 2 = 0) := fun hh => h1 (h.2 hh)
      simp [h0, h1]
      omega

theorem cqe_not_ready_iff_parity (k : Nat) (cqe : mlx4_cqe) (c : Nat) :
    cqe_ready (2 ^ k) cqe c = false ↔ cqe_owner_bit cqe ≠ wrap_parity (2 ^ k) c := by
  rw [Ne, ← cqe_ready_iff_parity]
  simp

theorem rx_cq_scan_stop (lim size_mask size factor fcs_del slot_flags : Nat)
    (buf : Nat → mlx4_cqe) (rem ci j n : Nat) (slot : Nat → netmap_slot)
    (h : cqe_ready size (rx_cqe size_mask factor buf ci) ci = false) :
    rx_cq_scan lim size_mask size factor fcs_del slot_flags buf rem ci j n slot =
      (ci, j, n, slot) := by
  cases rem <;> simp [rx_cq_scan, h]

theorem rx_cq_scan_spec (lim size_mask size factor fcs_del slot_flags : Nat)
    (buf : Nat → mlx4_cqe) :
    ∀ (rem ci j n : Nat) (slot : Nat → netmap_slot), ci < 4294967296 →
    ∃ c, c ≤ rem ∧
      (rx_cq_scan lim size_mask size factor fcs_del slot_flags buf rem ci j n slot).1 =
        u32 (ci + c) ∧
      (rx_cq_scan lim size_mask size factor fcs_del slot_flags buf rem ci j n slot).2.1 =
        (nm_next lim)^[c] j ∧
      (rx_cq_scan lim size_mask size factor fcs_del slot_flags buf rem ci j n slot).2.2.1 =
        n + c ∧
      (∀ i, i < c →
        cqe_ready size (rx_cqe size_mask factor buf (u32 (ci + i))) (u32 (ci + i)) = true) ∧
      (c < rem →
        cqe_ready size (rx_cqe size_mask factor buf (u32 (ci + c))) (u32 (ci + c)) = false) ∧
      (∀ x, (∀ i, i < c → x ≠ (nm_next lim)^[i] j) →
        (rx_cq_scan lim size_mask size factor fcs_del slot_flags buf rem ci j n slot).2.2.2 x =
          slot x) ∧
      (∀ x,
        ((rx_cq_scan lim size_mask size factor fcs_del slot_flags buf rem ci j n slot).2.2.2 x).buf_idx
          = (slot x).buf_idx) ∧
      (∀ i, i < c → (∀ i2, i < i2 → i2 < c → (nm_next lim)^[i2] j ≠ (nm_next lim)^[i] j) →
        ((rx_cq_scan lim size_mask size factor fcs_del slot_flags buf rem ci j n slot).2.2.2
            ((nm_next lim)^[i] j)).len =
          u16 (sub32 (rx_cqe size_mask factor buf (u32 (ci + i))).byte_cnt fcs_del) ∧
        ((rx_cq_scan lim size_mask size factor fcs_del slot_flags buf rem ci j n slot).2.2.2
            ((nm_next lim)^[i] j)).flags = slot_flags) := by
  intro rem
  induction rem with
  | zero =>
    intro ci j n slot hci
    refine ⟨0, by omega, ?_, ?_, ?_, ?_, ?_, ?_, ?_, ?_⟩ <;>
      simp [rx_cq_scan, u32_of_lt hci]
  | succ rem ih =>
    intro ci j n slot hci
    by_cases hr : cqe_ready size (rx_cqe size_mask factor buf ci) ci = true
    · obtain ⟨c, hc, h1, h2, h3, hall, hstop, hframe, hidx, hval⟩ :=
        ih (u32 (ci + 1)) (nm_next lim j) (n + 1)
          (store slot j { slot j with
            len := u16 (sub32 (rx_cqe size_mask factor buf ci).byte_cnt fcs_del)
            flags := slot_flags })
          (u32_lt _)
      have hstep : rx_cq_scan lim size_mask size factor fcs_del slot_flags buf (rem + 1) ci j n slot
          = rx_cq_scan lim size_mask size factor fcs_del slot_flags buf rem (u32 (ci + 1))
              (nm_next lim j) (n + 1)
              (store slot j { slot j with
                len := u16 (sub32 (rx_cqe size_mask factor buf ci).byte_cnt fcs_del)
                flags := slot_flags }) := by
        simp [rx_cq_scan, hr]
      rw [hstep]
      refine ⟨c + 1, by omega, ?_, ?_, ?_, ?_, ?_, ?_, ?_, ?_⟩
      · rw [h1, u32_add_u32, Nat.add_assoc, Nat.add_comm 1 c]
      · rw [h2, Function.iterate_succ_apply]
      · rw [h3]; omega
      · intro i hi
        cases i with
        | zero => simpa [u32_of_lt hci] using hr
        | succ i =>
          have h := hall i (by omega)
          rw [u32_add_u32] at h
          simpa [Nat.add_assoc, Nat.add_comm 1 i] using h
      · intro hlt
        have h := hstop (by omega)
        rw [u32_add_u32] at h
        simpa [Nat.add_assoc, Nat.add_comm 1 c] using h
      · intro x hx
        rw [hframe x (fun i hi => by
          have h := hx (i + 1) (by omega)
          rwa [Function.iterate_succ_apply] at h)]
        have h0 := hx 0 (by omega)
        simp only [Function.iterate_zero, id_eq] at h0
        simp [store, h0]
      · intro x
        rw [hidx x]
        simp only [store]
        split
        · rename_i h; subst h; rfl
        · rfl
      · intro i hi hlast
        cases i with
        | zero =>
          simp only [Function.iterate_zero, id_eq]
          rw [hframe j (fun i2 hi2 => by
            have h := hlast (i2 + 1) (by omega) (by omega)
            simp only [Function.iterate_zero, id_eq, Function.iterate_succ_apply] at h
            exact fun e => h e.symm)]
          simp [store, u32_of_lt hci]
        | succ i =>
          have h := hval i (by omega) (fun i2 h1 h2 => by
            have h := hlast (i2 + 1) (by omega) (by omega)
            simpa only [Function.iterate_succ_apply] using h)
          rw [u32_add_u32] at h
          simpa [Function.iterate_succ_apply, Nat.add_assoc, Nat.add_comm 1 i] using h
    · have hf : cqe_ready size (rx_cqe size_mask factor buf ci) ci = false := by
        simpa using hr
      rw [rx_cq_scan_stop _ _ _ _ _ _ _ _ _ _ _ _ hf]
      refine ⟨0, by omega, ?_, ?_, ?_, ?_, ?_, ?_, ?_, ?_⟩ <;>
        simp [u32_of_lt hci, hf]

/-! ## The harvest half of rxsync -/

/-- Every field written by the harvest half, in terms of the scan result. -/
theorem rx_harvest_fields (env : Env) (lim : Nat) (s : RxState) :
    (rx_harvest env lim s).cq.cons_index = (rx_scan lim s).1 ∧
    (rx_harvest env lim s).kring.ring.slot = (rx_scan lim s).2.2.2 ∧
    (rx_harvest env lim s).kring.nr_hwavail =
      (if (rx_scan lim s).2.2.1 ≠ 0 then to_s32 (to_u32 s.kring.nr_hwavail + (rx_scan lim s).2.2.1)
        else s.kring.nr_hwavail) ∧
    (rx_harvest env lim s).rxr.cons =
      (if (rx_scan lim s).2.2.1 ≠ 0 then u32 (s.rxr.cons + (rx_scan lim s).2.2.1)
        else s.rxr.cons) ∧
    (rx_harvest env lim s).rxr.prod = s.rxr.prod ∧
    (rx_harvest env lim s).rxr.buf = s.rxr.buf ∧
    (rx_harvest env lim s).kring.nr_hwcur = s.kring.nr_hwcur ∧
    (rx_harvest env lim s).kring.nkr_num_slots = s.kring.nkr_num_slots ∧
    (rx_harvest env lim s).kring.ring.cur = s.kring.ring.cur ∧
    (rx_harvest env lim s).kring.ring.avail = s.kring.ring.avail ∧
    (rx_harvest env lim s).kring.ring.reserved = s.kring.ring.reserved ∧
    (rx_harvest env lim s).mr_key = s.mr_key ∧
    (rx_harvest env lim s).cq.buf = s.cq.buf ∧
    (rx_harvest env lim s).cq.size = s.cq.size ∧
    (rx_harvest env lim s).rxr.size_mask = s.rxr.size_mask ∧
    (rx_harvest env lim s).cqe_factor = s.cqe_factor ∧
    (rx_harvest env lim s).port_up = s.port_up := by
  unfold rx_harvest
  by_cases hn : (rx_scan lim s).2.2.1 = 0 <;> simp [hn]

theorem rx_scan_idle (lim : Nat) (s : RxState)
    (h : cqe_ready s.cq.size (rx_cqe s.rxr.size_mask s.cqe_factor s.cq.buf s.cq.cons_index)
      s.cq.cons_index = false) :
    rx_scan lim s =
      (s.cq.cons_index,
       u32 (s.kring.nr_hwcur + to_u32 s.kring.nr_hwavail) % s.kring.nkr_num_slots, 0,
       s.kring.ring.slot) := by
  unfold rx_scan
  exact rx_cq_scan_stop _ _ _ _ _ _ _ _ _ _ _ _ h

theorem tx_cqe_pos {k : Nat} (hk : k ≤ 16) (factor : Nat) (buf : Nat → mlx4_cqe) (x : Nat) :
    tx_cqe (2 ^ k - 1) factor buf x = buf (((x % 2 ^ k) <<< factor) + factor) := by
  have hle : 2 ^ k ≤ 65536 := by
    have h : (65536 : Nat) = 2 ^ 16 := by norm_num
    rw [h]
    exact Nat.pow_le_pow_right (by norm_num) hk
  have hx : x % 2 ^ k < 2 ^ k := Nat.mod_lt _ (Nat.two_pow_pos k)
  unfold tx_cqe u16
  rw [Nat.and_pow_two_sub_one_eq_mod, Nat.mod_eq_of_lt (show x % 2 ^ k < 65536 by omega)]

theorem rx_cqe_pos (k factor : Nat) (buf : Nat → mlx4_cqe) (x : Nat) :
    rx_cqe (2 ^ k - 1) factor buf x = buf (((x % 2 ^ k) <<< factor) + factor) := by
  unfold rx_cqe
  rw [Nat.and_pow_two_sub_one_eq_mod]

/-- C4: on a completion queue of `S` entries, `S` a power of two, with index
mask `S - 1` (`S ≤ 2^16` on the transmit side, whose index is a `uint16_t`),
the scan of `mlx4_netmap_txsync` (bound `2*lim`) and the scan of
`mlx4_netmap_rxsync` (bound `2*lim + 1`) advance the completion consumer index
by a count `c` no larger than the bound such that each of the `c` entries
passed, the one at position `(ci + i) mod S`, carries an ownership bit equal to
the wrap parity `((ci + i) / S) & 1`, and, unless the bound was reached, the
entry at which the scan stopped does not: the counters passed are consecutive
and form the maximal run of matching entries. -/
theorem harvest_scan_parity (env : Env) (k kr lim : Nat) (hk : k ≤ 16) (t : TxState)
    (r : RxState)
    (ht1 : t.cq.size = 2 ^ k) (ht2 : t.txr.size_mask = 2 ^ k - 1)
    (ht3 : t.cq.cons_index < 4294967296)
    (hr1 : r.cq.size = 2 ^ kr) (hr2 : r.rxr.size_mask = 2 ^ kr - 1)
    (hr3 : r.cq.cons_index < 4294967296) :
    (∃ c, c ≤ u32 (2 * lim) ∧
      (tx_reclaim lim t).2.cq.cons_index = u32 (t.cq.cons_index + c) ∧
      (∀ i, i < c →
        cqe_owner_bit
            (t.cq.buf (((u32 (t.cq.cons_index + i) % 2 ^ k) <<< t.cqe_factor) + t.cqe_factor)) =
          wrap_parity (2 ^ k) (u32 (t.cq.cons_index + i))) ∧
      (c < u32 (2 * lim) →
        cqe_owner_bit
            (t.cq.buf (((u32 (t.cq.cons_index + c) % 2 ^ k) <<< t.cqe_factor) + t.cqe_factor)) ≠
          wrap_parity (2 ^ k) (u32 (t.cq.cons_index + c)))) ∧
    (∃ c, c ≤ u32 (2 * lim) + 1 ∧
      (rx_harvest env lim r).cq.cons_index = u32 (r.cq.cons_index + c) ∧
      (∀ i, i < c →
        cqe_owner_bit
            (r.cq.buf (((u32 (r.cq.cons_index + i) % 2 ^ kr) <<< r.cqe_factor) + r.cqe_factor)) =
          wrap_parity (2 ^ kr) (u32 (r.cq.cons_index + i))) ∧
      (c < u32 (2 * lim) + 1 →
        cqe_owner_bit
            (r.cq.buf (((u32 (r.cq.cons_index + c) % 2 ^ kr) <<< r.cqe_factor) + r.cqe_factor)) ≠
          wrap_parity (2 ^ kr) (u32 (r.cq.cons_index + c)))) := by
  constructor
  · obtain ⟨c, hc, heq, hall, hstop⟩ :=
      tx_cq_scan_spec t.txr.size_mask t.cq.size t.cqe_factor t.cq.buf (u32 (2 * lim))
        t.cq.cons_index (u16 (t.txr.cons &&& t.txr.size_mask)) 0 ht3
    have hscan : tx_scan lim t = _ := heq
    refine ⟨c, hc, ?_, ?_, ?_⟩
    · rw [(tx_reclaim_fields lim t).2.2.2.1, hscan]
    · intro i hi
      have h := hall i hi
      rw [ht1, ht2, tx_cqe_pos hk] at h
      exact (cqe_ready_iff_parity k _ _).1 h
    · intro hlt
      have h := hstop hlt
      rw [ht1, ht2, tx_cqe_pos hk] at h
      exact (cqe_not_ready_iff_parity k _ _).1 h
  · obtain ⟨c, hc, h1, _, _, hall, hstop, _⟩ :=
      rx_cq_scan_spec lim r.rxr.size_mask r.cq.size r.cqe_factor r.rxr.fcs_del
        r.kring.nkr_slot_flags r.cq.buf (u32 (2 * lim) + 1) r.cq.cons_index
        (u32 (r.kring.nr_hwcur + to_u32 r.kring.nr_hwavail) % r.kring.nkr_num_slots) 0
        r.kring.ring.slot hr3
    have hscan : (rx_scan lim r).1 = _ := h1
    refine ⟨c, hc, ?_, ?_, ?_⟩
    · rw [(rx_harvest_fields env lim r).1, hscan]
    · intro i hi
      have h := hall i hi
      rw [hr1, hr2, rx_cqe_pos] at h
      exact (cqe_ready_iff_parity kr _ _).1 h
    · intro hlt
      have h := hstop hlt
      rw [hr1, hr2, rx_cqe_pos] at h
      exact (cqe_not_ready_iff_parity kr _ _).1 h

/-- A scan started at counter 6 of an 8-entry queue passes the four entries
6, 7, 8, 9 (positions 6, 7, 0, 1) and stops at counter 10. -/
theorem harvest_scan_parity_witness :
    ((∃ c, c ≤ u32 (2 * 7) ∧
      (tx_reclaim 7 ex_tx_wrap).2.cq.cons_index = u32 (ex_tx_wrap.cq.cons_index + c) ∧
      (∀ i, i < c →
        cqe_owner_bit
            (ex_tx_wrap.cq.buf
              (((u32 (ex_tx_wrap.cq.cons_index + i) % 2 ^ 3) <<< ex_tx_wrap.cqe_factor) +
                ex_tx_wrap.cqe_factor)) =
          wrap_parity (2 ^ 3) (u32 (ex_tx_wrap.cq.cons_index + i))) ∧
      (c < u32 (2 * 7) →
        cqe_owner_bit
            (ex_tx_wrap.cq.buf
              (((u32 (ex_tx_wrap.cq.cons_index + c) % 2 ^ 3) <<< ex_tx_wrap.cqe_factor) +
                ex_tx_wrap.cqe_factor)) ≠
          wrap_parity (2 ^ 3) (u32 (ex_tx_wrap.cq.cons_index + c)))) ∧
    (∃ c, c ≤ u32 (2 * 7) + 1 ∧
      (rx_harvest ex_env 7 ex_rx_wrap).cq.cons_index = u32 (ex_rx_wrap.cq.cons_index + c) ∧
      (∀ i, i < c →
        cqe_owner_bit
            (ex_rx_wrap.cq.buf
              (((u32 (ex_rx_wrap.cq.cons_index + i) % 2 ^ 3) <<< ex_rx_wrap.cqe_factor) +
                ex_rx_wrap.cqe_factor)) =
          wrap_parity (2 ^ 3) (u32 (ex_rx_wrap.cq.cons_index + i))) ∧
      (c < u32 (2 * 7) + 1 →
        cqe_owner_bit
            (ex_rx_wrap.cq.buf
              (((u32 (ex_rx_wrap.cq.cons_index + c) % 2 ^ 3) <<< ex_rx_wrap.cqe_factor) +
                ex_rx_wrap.cqe_factor)) ≠
          wrap_parity (2 ^ 3) (u32 (ex_rx_wrap.cq.cons_index + c))))) ∧
    (tx_reclaim 7 ex_tx_wrap).2.cq.cons_index = 10 ∧
    (rx_harvest ex_env 7 ex_rx_wrap).cq.cons_index = 10 :=
  ⟨harvest_scan_parity ex_env 3 3 7 (by decide) ex_tx_wrap ex_rx_wrap (by decide) (by decide)
      (by decide) (by decide) (by decide) (by decide),
    by decide, by decide⟩

theorem ring_no_dup {N a i i2 : Nat} (h1 : i < i2) (h2 : i2 < i + N) :
    (a + i2) % N ≠ (a + i) % N := by
  intro h
  have hm : a + i ≡ a + i2 [MOD N] := h.symm
  have hm2 : i ≡ i2 [MOD N] := Nat.ModEq.add_left_cancel' a hm
  have hd : N ∣ i2 - i := (Nat.modEq_iff_dvd' (Nat.le_of_lt h1)).1 hm2
  have := Nat.le_of_dvd (by omega) hd
  omega

/-- The slots written by the harvest half of `mlx4_netmap_rxsync`, for every
consumed entry that no later entry of the same call overwrites. -/
theorem rx_harvest_slots_guarded (env : Env) (lim : Nat) (s : RxState)
    (hN : s.kring.nkr_num_slots = lim + 1)
    (hci : s.cq.cons_index < 4294967296) (hcons : s.rxr.cons < 4294967296)
    (hav : is_int s.kring.nr_hwavail) (h0 : 0 ≤ s.kring.nr_hwavail)
    (hsum : s.kring.nr_hwcur + s.kring.nr_hwavail.toNat < 4294967296) :
    (∀ i, i < (rx_scan lim s).2.2.1 → (rx_scan lim s).2.2.1 ≤ i + s.kring.nkr_num_slots →
      ((rx_harvest env lim s).kring.ring.slot
          ((s.kring.nr_hwcur + s.kring.nr_hwavail.toNat + i) % s.kring.nkr_num_slots)).len =
        u16 (sub32 (rx_cqe s.rxr.size_mask s.cqe_factor s.cq.buf
          (u32 (s.cq.cons_index + i))).byte_cnt s.rxr.fcs_del) ∧
      ((rx_harvest env lim s).kring.ring.slot
          ((s.kring.nr_hwcur + s.kring.nr_hwavail.toNat + i) % s.kring.nkr_num_slots)).flags =
        s.kring.nkr_slot_flags) ∧
    (rx_harvest env lim s).kring.nr_hwavail =
      s32 (s.kring.nr_hwavail + ((rx_scan lim s).2.2.1 : Nat)) ∧
    (rx_harvest env lim s).rxr.cons = u32 (s.rxr.cons + (rx_scan lim s).2.2.1) ∧
    (rx_harvest env lim s).cq.cons_index = u32 (s.cq.cons_index + (rx_scan lim s).2.2.1) := by
  obtain ⟨c, _, h1, _, h3, _, _, _, _, hval⟩ :=
    rx_cq_scan_spec lim s.rxr.size_mask s.cq.size s.cqe_factor s.rxr.fcs_del
      s.kring.nkr_slot_flags s.cq.buf (u32 (2 * lim) + 1) s.cq.cons_index
      (u32 (s.kring.nr_hwcur + to_u32 s.kring.nr_hwavail) % s.kring.nkr_num_slots) 0
      s.kring.ring.slot hci
  have hs1 : (rx_scan lim s).1 = u32 (s.cq.cons_index + c) := h1
  have hs3 : (rx_scan lim s).2.2.1 = c := by
    have h : (rx_scan lim s).2.2.1 = 0 + c := h3
    omega
  obtain ⟨f1, f2, f3, f4, _⟩ := rx_harvest_fields env lim s
  have hj : u32 (s.kring.nr_hwcur + to_u32 s.kring.nr_hwavail) % s.kring.nkr_num_slots =
      (s.kring.nr_hwcur + s.kring.nr_hwavail.toNat) % (lim + 1) := by
    rw [to_u32_of_nonneg h0 (by omega), u32_of_lt hsum, hN]
  have hjl : (s.kring.nr_hwcur + s.kring.nr_hwavail.toNat) % (lim + 1) ≤ lim :=
    Nat.le_of_lt_succ (Nat.mod_lt _ (by omega))
  rw [hs3]
  refine ⟨?_, ?_, ?_, ?_⟩
  · intro i hi hlast
    have hv := hval i hi (fun i2 h1 h2 => by
      rw [hj, iter_next hjl, iter_next hjl]
      exact ring_no_dup h1 (by omega))
    rw [hj, iter_next hjl, Nat.mod_add_mod] at hv
    rw [f2, hN]
    unfold rx_scan
    rw [hj]
    exact hv
  · rw [f3, hs3]
    by_cases hc : c = 0
    · simp only [hc, ne_eq, not_true_eq_false, if_false, Nat.cast_zero, add_zero, s32]
      exact (to_s32_to_u32 hav.1 hav.2).symm
    · simp only [ne_eq, hc, not_false_eq_true, if_true, s32]
      exact to_s32_add _ _
  · rw [f4, hs3]
    by_cases hc : c = 0
    · simp [hc, u32_of_lt hcons]
    · simp [hc]
  · rw [f1, hs1]

theorem two_pow_split {k : Nat} (hk : k ≤ 31) :
    (4294967296 : Nat) = 2 ^ k * (2 * 2 ^ (31 - k)) := by
  have h : (4294967296 : Nat) = 2 ^ 32 := by norm_num
  rw [h, ← Nat.pow_succ', ← Nat.pow_add]
  congr 1
  omega

/-- One queue length further the expected parity is the opposite one, also
across the wrap of the 32-bit consumer counter. -/
theorem parity_flip {k : Nat} (hk : k ≤ 31) {x : Nat} (hx : x < 4294967296) :
    wrap_parity (2 ^ k) (u32 (x + 2 ^ k)) ≠ wrap_parity (2 ^ k) x := by
  unfold wrap_parity u32
  rw [Nat.and_one_is_mod, Nat.and_one_is_mod]
  have hS : 0 < 2 ^ k := Nat.two_pow_pos k
  have hsplit := two_pow_split hk
  have hdiv : (x + 2 ^ k) / 2 ^ k = x / 2 ^ k + 1 := Nat.add_div_right x hS
  by_cases h : x + 2 ^ k < 4294967296
  · rw [Nat.mod_eq_of_lt h, hdiv]
    omega
  · have hSle : 2 ^ k ≤ 4294967296 :=
      Nat.le_of_dvd (by norm_num) (two_pow_dvd_u32 (by omega))
    have e : (x + 2 ^ k) % 4294967296 = x + 2 ^ k - 2 ^ k * (2 * 2 ^ (31 - k)) := by
      rw [← hsplit]
      omega
    have hle : 2 ^ k * (2 * 2 ^ (31 - k)) ≤ x + 2 ^ k := by omega
    have hq : 2 * 2 ^ (31 - k) ≤ (x + 2 ^ k) / 2 ^ k :=
      (Nat.le_div_iff_mul_le hS).2 (by rw [Nat.mul_comm]; exact hle)
    rw [e, Nat.sub_mul_div _ _ _ hle, hdiv]
    rw [hdiv] at hq
    omega

/-- With an unchanged queue of `2^k` entries the receive scan consumes at most
`2^k` of them. -/
theorem rx_cq_scan_le_size {k : Nat} (hk : k ≤ 31) (lim factor fcs_del slot_flags : Nat)
    (buf : Nat → mlx4_cqe) (rem ci j : Nat) (slot : Nat → netmap_slot)
    (hci : ci < 4294967296) :
    (rx_cq_scan lim (2 ^ k - 1) (2 ^ k) factor fcs_del slot_flags buf rem ci j 0 slot).2.2.1
      ≤ 2 ^ k := by
  obtain ⟨c, _, _, _, h3, hall, _⟩ :=
    rx_cq_scan_spec lim (2 ^ k - 1) (2 ^ k) factor fcs_del slot_flags buf rem ci j 0 slot hci
  rw [h3, Nat.zero_add]
  by_contra hgt
  have hlt : 2 ^ k < c := Nat.lt_of_not_le hgt
  have ha := hall 0 (Nat.lt_of_le_of_lt (Nat.zero_le _) hlt)
  have hb := hall (2 ^ k) hlt
  rw [rx_cqe_pos] at ha hb
  have hM := two_pow_dvd_u32 (k := k) (by omega)
  have epos : u32 (ci + 2 ^ k) % 2 ^ k = u32 (ci + 0) % 2 ^ k := by
    unfold u32
    rw [Nat.mod_mod_of_dvd _ hM, Nat.mod_mod_of_dvd _ hM, Nat.add_mod_right, Nat.add_zero]
  rw [epos] at hb
  have pa := (cqe_ready_iff_parity k _ _).1 ha
  have pb := (cqe_ready_iff_parity k _ _).1 hb
  rw [pa] at pb
  simp only [Nat.add_zero, u32_of_lt hci] at pb
  exact parity_flip hk hci pb.symm

/-- C9: the harvest half of `mlx4_netmap_rxsync` on a ring of `N = 2^k` slots
whose completion queue has the same `N` entries and index mask `N - 1` (the
1:1 mapping the routine relies on), with `nr_hwavail ≥ 0`: with `m` the number
of completion entries consumed, for every `i < m` the slot of index
`(nr_hwcur + nr_hwavail + i) mod N` ends with `len` equal to the byte count of
the `i`-th consumed entry minus `fcs_del` (computed on 32 bits and stored in
the 16-bit field) and with `flags` equal to `nkr_slot_flags`; `nr_hwavail`
and `rxr->cons` have grown by `m` and so has the completion consumer index. -/
theorem rxsync_harvest_slots (env : Env) (lim k : Nat) (s : RxState) (hk : k ≤ 31)
    (hN : s.kring.nkr_num_slots = lim + 1) (hS : lim + 1 = 2 ^ k)
    (hsize : s.cq.size = 2 ^ k) (hmask : s.rxr.size_mask = 2 ^ k - 1)
    (hci : s.cq.cons_index < 4294967296) (hcons : s.rxr.cons < 4294967296)
    (hav : is_int s.kring.nr_hwavail) (h0 : 0 ≤ s.kring.nr_hwavail)
    (hsum : s.kring.nr_hwcur + s.kring.nr_hwavail.toNat < 4294967296) :
    (∀ i, i < (rx_scan lim s).2.2.1 →
      ((rx_harvest env lim s).kring.ring.slot
          ((s.kring.nr_hwcur + s.kring.nr_hwavail.toNat + i) % s.kring.nkr_num_slots)).len =
        u16 (sub32 (rx_cqe s.rxr.size_mask s.cqe_factor s.cq.buf
          (u32 (s.cq.cons_index + i))).byte_cnt s.rxr.fcs_del) ∧
      ((rx_harvest env lim s).kring.ring.slot
          ((s.kring.nr_hwcur + s.kring.nr_hwavail.toNat + i) % s.kring.nkr_num_slots)).flags =
        s.kring.nkr_slot_flags) ∧
    (rx_harvest env lim s).kring.nr_hwavail =
      s32 (s.kring.nr_hwavail + ((rx_scan lim s).2.2.1 : Nat)) ∧
    (rx_harvest env lim s).rxr.cons = u32 (s.rxr.cons + (rx_scan lim s).2.2.1) ∧
    (rx_harvest env lim s).cq.cons_index = u32 (s.cq.cons_index + (rx_scan lim s).2.2.1) := by
  obtain ⟨g1, g2, g3, g4⟩ := rx_harvest_slots_guarded env lim s hN hci hcons hav h0 hsum
  have hm : (rx_scan lim s).2.2.1 ≤ 2 ^ k := by
    unfold rx_scan
    rw [hsize, hmask]
    exact rx_cq_scan_le_size hk _ _ _ _ _ _ _ _ _ hci
  exact ⟨fun i hi => g1 i hi (by rw [hN, hS]; omega), g2, g3, g4⟩

/-- Two 64-byte completions on a ring with `nr_hwcur = 0`, `nr_hwavail = 3`
and a 4-byte trailer: slots 3 and 4 report 60 bytes. -/
theorem rxsync_harvest_slots_witness :
    ((rx_harvest ex_env 7 (ex_rx 0 0 3 0 3 7 0 (ex_cq_buf 2 id))).kring.ring.slot 3).len = 60 ∧
    ((rx_harvest ex_env 7 (ex_rx 0 0 3 0 3 7 0 (ex_cq_buf 2 id))).kring.ring.slot 4).len = 60 ∧
    ((rx_harvest ex_env 7 (ex_rx 0 0 3 0 3 7 0 (ex_cq_buf 2 id))).kring.ring.slot 4).flags = 0 ∧
    (rx_harvest ex_env 7 (ex_rx 0 0 3 0 3 7 0 (ex_cq_buf 2 id))).kring.nr_hwavail = 5 ∧
    (rx_harvest ex_env 7 (ex_rx 0 0 3 0 3 7 0 (ex_cq_buf 2 id))).rxr.cons = 2 ∧
    (rx_harvest ex_env 7 (ex_rx 0 0 3 0 3 7 0 (ex_cq_buf 2 id))).cq.cons_index = 2 := by
  obtain ⟨h1, h2, h3, h4⟩ :=
    rxsync_harvest_slots ex_env 7 3 (ex_rx 0 0 3 0 3 7 0 (ex_cq_buf 2 id)) (by decide)
      (by decide) (by decide) (by decide) (by decide) (by decide) (by decide)
      ⟨by decide, by decide⟩ (by decide) (by decide)
  exact ⟨(h1 0 (by decide)).1.trans (by decide),
    (h1 1 (by decide)).1.trans (by decide),
    (h1 1 (by decide)).2.trans (by decide),
    h2.trans (by decide), h3.trans (by decide), h4.trans (by decide)⟩

/-! ## The replenish loop -/

theorem rx_post_n_shape (env : Env) (lim : Nat) : ∀ (d j l : Nat) (s : RxState),
    rx_post_n env lim d j l s =
      { s with
        kring := { s.kring with
          ring := { s.kring.ring with slot := (rx_post_n env lim d j l s).kring.ring.slot } }
        rxr := { s.rxr with buf := (rx_post_n env lim d j l s).rxr.buf } } := by
  intro d
  induction d with
  | zero => intro j l s; rfl
  | succ d ih =>
    intro j l s
    have h := ih (nm_next lim j) (nm_next lim l) (rx_post env j l s)
    simp only [rx_post_n]
    rw [h]
    simp [rx_post]

theorem rx_post_n_frame (env : Env) (lim d j l : Nat) (s : RxState) :
    (rx_post_n env lim d j l s).cq = s.cq ∧
    (rx_post_n env lim d j l s).mr_key = s.mr_key ∧
    (rx_post_n env lim d j l s).rxr.prod = s.rxr.prod ∧
    (rx_post_n env lim d j l s).rxr.cons = s.rxr.cons ∧
    (rx_post_n env lim d j l s).kring.nr_hwcur = s.kring.nr_hwcur ∧
    (rx_post_n env lim d j l s).kring.nr_hwavail = s.kring.nr_hwavail ∧
    (rx_post_n env lim d j l s).kring.nkr_num_slots = s.kring.nkr_num_slots ∧
    (rx_post_n env lim d j l s).kring.ring.cur = s.kring.ring.cur ∧
    (rx_post_n env lim d j l s).kring.ring.avail = s.kring.ring.avail ∧
    (rx_post_n env lim d j l s).kring.ring.reserved = s.kring.ring.reserved ∧
    (rx_post_n env lim d j l s).port_up = s.port_up ∧
    (rx_post_n env lim d j l s).cqe_factor = s.cqe_factor ∧
    (rx_post_n env lim d j l s).rxr.size_mask = s.rxr.size_mask := by
  have hs := rx_post_n_shape env lim d j l s
  refine ⟨?_, ?_, ?_, ?_, ?_, ?_, ?_, ?_, ?_, ?_, ?_, ?_, ?_⟩ <;> rw [hs]

theorem rx_post_buf_idx (env : Env) (j l : Nat) (s : RxState) (x : Nat) :
    ((rx_post env j l s).kring.ring.slot x).buf_idx = (s.kring.ring.slot x).buf_idx := by
  simp only [rx_post, store]
  split
  · rename_i h; subst h; split <;> rfl
  · rfl

theorem rx_post_n_buf_idx (env : Env) (lim : Nat) : ∀ (d j l : Nat) (s : RxState) (x : Nat),
    ((rx_post_n env lim d j l s).kring.ring.slot x).buf_idx = (s.kring.ring.slot x).buf_idx := by
  intro d
  induction d with
  | zero => intro j l s x; rfl
  | succ d ih =>
    intro j l s x
    simp only [rx_post_n]
    rw [ih, rx_post_buf_idx]

theorem rx_post_n_buf_frame (env : Env) (lim : Nat) : ∀ (d j l : Nat) (s : RxState) (x : Nat),
    (∀ i, i < d → x ≠ (nm_next lim)^[i] l) →
    (rx_post_n env lim d j l s).rxr.buf x = s.rxr.buf x := by
  intro d
  induction d with
  | zero => intro j l s x _; rfl
  | succ d ih =>
    intro j l s x hx
    simp only [rx_post_n]
    rw [ih (nm_next lim j) (nm_next lim l) (rx_post env j l s) x (fun i hi => by
      have h := hx (i + 1) (by omega)
      rwa [Function.iterate_succ_apply] at h)]
    have h0 := hx 0 (by omega)
    simp only [Function.iterate_zero, id_eq] at h0
    simp [rx_post, store, h0]

/-- Fragment 0 of the descriptor written for the `i`-th replenished slot, when
no later iteration of the same loop writes the same descriptor. -/
theorem rx_post_n_buf_val (env : Env) (lim : Nat) : ∀ (d j l : Nat) (s : RxState) (i : Nat),
    i < d → (∀ i2, i < i2 → i2 < d → (nm_next lim)^[i2] l ≠ (nm_next lim)^[i] l) →
    (rx_post_n env lim d j l s).rxr.buf ((nm_next lim)^[i] l) 0 =
      { addr := (env.PNMB (s.kring.ring.slot ((nm_next lim)^[i] j)).buf_idx).2
        byte_count := env.NETMAP_BUF_SIZE
        lkey := s.mr_key } := by
  intro d
  induction d with
  | zero => intro j l s i hi; omega
  | succ d ih =>
    intro j l s i hi hlast
    simp only [rx_post_n]
    cases i with
    | zero =>
      simp only [Function.iterate_zero, id_eq]
      rw [rx_post_n_buf_frame env lim d _ _ _ l (fun i2 hi2 => by
        have h := hlast (i2 + 1) (by omega) (by omega)
        simp only [Function.iterate_zero, id_eq, Function.iterate_succ_apply] at h
        exact fun e => h e.symm)]
      simp [rx_post, store]
    | succ i =>
      have h := ih (nm_next lim j) (nm_next lim l) (rx_post env j l s) i (by omega)
        (fun i2 h1 h2 => by
          have h := hlast (i2 + 1) (by omega) (by omega)
          simpa only [Function.iterate_succ_apply] using h)
      rw [Function.iterate_succ_apply, Function.iterate_succ_apply, h, rx_post_buf_idx]
      simp [rx_post]

/-- The replenish loop over `d` bound slots reaching `k`. -/
theorem rx_loop_ok (env : Env) (lim k : Nat) : ∀ (d fuel j l n : Nat) (s : RxState),
    (∀ i, i < d → (nm_next lim)^[i] j ≠ k ∧
      (env.PNMB (s.kring.ring.slot ((nm_next lim)^[i] j)).buf_idx).1 ≠ env.netmap_buffer_base) →
    (nm_next lim)^[d] j = k → d ≤ fuel → n + d < 4294967296 →
    rx_loop env lim k fuel j l n s = some (false, n + d, rx_post_n env lim d j l s) := by
  intro d
  induction d with
  | zero =>
    intro fuel j l n s _ hk _ _
    simp only [Function.iterate_zero, id_eq] at hk
    cases fuel <;> simp [rx_loop, hk, rx_post_n]
  | succ d ih =>
    intro fuel j l n s hgood hk hfuel hn
    cases fuel with
    | zero => omega
    | succ fuel =>
      have h0 := hgood 0 (by omega)
      simp only [Function.iterate_zero, id_eq] at h0
      simp only [rx_loop, h0.1, if_false, beq_iff_eq, h0.2, rx_post_n]
      rw [ih fuel (nm_next lim j) (nm_next lim l) (u32 (n + 1)) (rx_post env j l s)]
      · rw [u32_of_lt (by omega)]
        simp [Nat.add_assoc, Nat.add_comm 1 d]
      · intro i hi
        have h := hgood (i + 1) (by omega)
        rw [Function.iterate_succ_apply] at h
        refine ⟨h.1, ?_⟩
        rw [rx_post_buf_idx]
        exact h.2
      · rw [← hk, Function.iterate_succ_apply]
      · omega
      · rw [u32_of_lt (by omega)]; omega

/-- The replenish loop stopped by the first unbound slot, after `d` bound
ones. -/
theorem rx_loop_bad (env : Env) (lim k : Nat) : ∀ (d fuel j l n : Nat) (s : RxState),
    (∀ i, i < d → (nm_next lim)^[i] j ≠ k ∧
      (env.PNMB (s.kring.ring.slot ((nm_next lim)^[i] j)).buf_idx).1 ≠ env.netmap_buffer_base) →
    (nm_next lim)^[d] j ≠ k →
    (env.PNMB (s.kring.ring.slot ((nm_next lim)^[d] j)).buf_idx).1 = env.netmap_buffer_base →
    d < fuel → n + d < 4294967296 →
    rx_loop env lim k fuel j l n s = some (true, n + d, rx_post_n env lim d j l s) := by
  intro d
  induction d with
  | zero =>
    intro fuel j l n s _ hk hbad hfuel _
    simp only [Function.iterate_zero, id_eq] at hk hbad
    cases fuel with
    | zero => omega
    | succ fuel => simp [rx_loop, hk, hbad, rx_post_n]
  | succ d ih =>
    intro fuel j l n s hgood hk hbad hfuel hn
    cases fuel with
    | zero => omega
    | succ fuel =>
      have h0 := hgood 0 (by omega)
      simp only [Function.iterate_zero, id_eq] at h0
      simp only [rx_loop, h0.1, if_false, beq_iff_eq, h0.2, rx_post_n]
      rw [ih fuel (nm_next lim j) (nm_next lim l) (u32 (n + 1)) (rx_post env j l s)]
      · rw [u32_of_lt (by omega)]
        simp [Nat.add_assoc, Nat.add_comm 1 d]
      · intro i hi
        have h := hgood (i + 1) (by omega)
        rw [Function.iterate_succ_apply] at h
        refine ⟨h.1, ?_⟩
        rw [rx_post_buf_idx]
        exact h.2
      · rw [← Function.iterate_succ_apply]; exact hk
      · rw [rx_post_buf_idx, ← Function.iterate_succ_apply]; exact hbad
      · omega
      · rw [u32_of_lt (by omega)]; omega

/-! ## The two halves of rxsync -/

theorem first_bad (P : Nat → Prop) [DecidablePred P] (b : Nat) (hb : P b) :
    ∃ i0, i0 ≤ b ∧ P i0 ∧ ∀ i, i < i0 → ¬ P i :=
  ⟨Nat.find ⟨b, hb⟩, Nat.find_min' _ hb, Nat.find_spec _, fun _ hi => Nat.find_min _ hi⟩

theorem desc_distinct {k : Nat} (hk : k ≤ 32) (p : Nat) {i b : Nat} (h1 : i < b)
    (h2 : b < i + 2 ^ k) :
    u32 (p + b) &&& (2 ^ k - 1) ≠ u32 (p + i) &&& (2 ^ k - 1) := by
  have hM := two_pow_dvd_u32 hk
  simp only [Nat.and_pow_two_sub_one_eq_mod, u32]
  rw [Nat.mod_mod_of_dvd _ hM, Nat.mod_mod_of_dvd _ hM]
  exact ring_no_dup h1 h2

theorem rx_cq_scan_buf_idx (lim size_mask size factor fcs_del slot_flags : Nat)
    (buf : Nat → mlx4_cqe) : ∀ (rem ci j n : Nat) (slot : Nat → netmap_slot) (x : Nat),
    ((rx_cq_scan lim size_mask size factor fcs_del slot_flags buf rem ci j n slot).2.2.2 x).buf_idx
      = (slot x).buf_idx := by
  intro rem
  induction rem with
  | zero => intro ci j n slot x; rfl
  | succ rem ih =>
    intro ci j n slot x
    by_cases hr : cqe_ready size (rx_cqe size_mask factor buf ci) ci = true
    · simp only [rx_cq_scan, hr, Bool.not_true, Bool.false_eq_true, if_false]
      rw [ih]
      simp only [store]
      split
      · rename_i h; subst h; rfl
      · rfl
    · have hf : cqe_ready size (rx_cqe size_mask factor buf ci) ci = false := by
        simpa using hr
      rw [rx_cq_scan_stop _ _ _ _ _ _ _ _ _ _ _ _ hf]

theorem rx_harvest_buf_idx (env : Env) (lim : Nat) (s : RxState) (x : Nat) :
    ((rx_harvest env lim s).kring.ring.slot x).buf_idx = (s.kring.ring.slot x).buf_idx := by
  rw [(rx_harvest_fields env lim s).2.1]
  exact rx_cq_scan_buf_idx _ _ _ _ _ _ _ _ _ _ _ _ _

theorem rx_clamp_fields (lim resvd0 : Nat) (s : RxState) :
    (rx_clamp lim resvd0 s).rxr = s.rxr ∧
    (rx_clamp lim resvd0 s).cq = s.cq ∧
    (rx_clamp lim resvd0 s).mr_key = s.mr_key ∧
    (rx_clamp lim resvd0 s).kring.nr_hwcur = s.kring.nr_hwcur ∧
    (rx_clamp lim resvd0 s).kring.nr_hwavail = s.kring.nr_hwavail ∧
    (rx_clamp lim resvd0 s).kring.nkr_num_slots = s.kring.nkr_num_slots ∧
    (rx_clamp lim resvd0 s).kring.ring.cur = s.kring.ring.cur ∧
    (rx_clamp lim resvd0 s).kring.ring.avail = s.kring.ring.avail ∧
    (rx_clamp lim resvd0 s).kring.ring.slot = s.kring.ring.slot ∧
    (rx_clamp lim resvd0 s).port_up = s.port_up ∧
    (rx_clamp lim resvd0 s).cqe_factor = s.cqe_factor := by
  unfold rx_clamp
  split <;> simp

theorem rx_clamp_reserved (lim k : Nat) (s : RxState) :
    (rx_clamp lim s.kring.ring.reserved s).kring.ring.reserved =
      (rx_release lim k s.kring.ring.reserved s.kring.ring.avail).1 := by
  unfold rx_clamp rx_release
  by_cases h0 : s.kring.ring.reserved > 0
  · by_cases h1 : u32 (s.kring.ring.reserved + s.kring.ring.avail) ≥ u32 (lim + 1)
    · simp [h0, h1]
    · simp [h0, h1]
  · simp [h0]

theorem rx_replenish_ok (env : Env) (fuel lim k0 resvd0 : Nat) (s : RxState)
    (hj : s.kring.nr_hwcur ≤ lim)
    (hk : (rx_release lim k0 resvd0 s.kring.ring.avail).2 ≤ lim)
    (hfuel : lim ≤ fuel) (hlim : lim < 4294967296)
    (hgood : ∀ i,
      i < ((rx_release lim k0 resvd0 s.kring.ring.avail).2 + (lim + 1) - s.kring.nr_hwcur)
        % (lim + 1) →
      (env.PNMB (s.kring.ring.slot ((s.kring.nr_hwcur + i) % (lim + 1))).buf_idx).1 ≠
        env.netmap_buffer_base) :
    rx_replenish env fuel lim k0 resvd0 s =
      some (sync_ret.ok,
        if s.kring.nr_hwcur = (rx_release lim k0 resvd0 s.kring.ring.avail).2 then
          rx_publish (rx_release lim k0 resvd0 s.kring.ring.avail).1 (rx_clamp lim resvd0 s)
        else
          rx_commit (rx_release lim k0 resvd0 s.kring.ring.avail).2
            (((rx_release lim k0 resvd0 s.kring.ring.avail).2 + (lim + 1) - s.kring.nr_hwcur)
              % (lim + 1))
            (rx_release lim k0 resvd0 s.kring.ring.avail).1
            (rx_post_n env lim
              (((rx_release lim k0 resvd0 s.kring.ring.avail).2 + (lim + 1) - s.kring.nr_hwcur)
                % (lim + 1))
              s.kring.nr_hwcur (rx_nic_start env lim resvd0 s) (rx_clamp lim resvd0 s))) := by
  unfold rx_replenish
  by_cases hjk : s.kring.nr_hwcur = (rx_release lim k0 resvd0 s.kring.ring.avail).2
  · simp [hjk]
  · have hw := ring_walk hj hk
    have hdl : ((rx_release lim k0 resvd0 s.kring.ring.avail).2 + (lim + 1) - s.kring.nr_hwcur)
        % (lim + 1) < lim + 1 := Nat.mod_lt _ (by omega)
    have hslot := (rx_clamp_fields lim resvd0 s).2.2.2.2.2.2.2.2.1
    have hl := rx_loop_ok env lim (rx_release lim k0 resvd0 s.kring.ring.avail).2
      (((rx_release lim k0 resvd0 s.kring.ring.avail).2 + (lim + 1) - s.kring.nr_hwcur)
        % (lim + 1)) fuel s.kring.nr_hwcur (rx_nic_start env lim resvd0 s) 0
      (rx_clamp lim resvd0 s)
      (fun i hi => ⟨hw.2 i hi, by rw [hslot, iter_next hj]; exact hgood i hi⟩) hw.1 (by omega)
      (by omega)
    simp only [ne_eq, hjk, not_false_eq_true, if_true, hl, Nat.zero_add, if_false,
      Bool.false_eq_true]

theorem rx_replenish_bad (env : Env) (fuel lim k0 resvd0 : Nat) (s : RxState) (i0 : Nat)
    (hj : s.kring.nr_hwcur ≤ lim)
    (hk : (rx_release lim k0 resvd0 s.kring.ring.avail).2 ≤ lim)
    (hfuel : lim ≤ fuel) (hlim : lim < 4294967296)
    (hi0 : i0 < ((rx_release lim k0 resvd0 s.kring.ring.avail).2 + (lim + 1) - s.kring.nr_hwcur)
        % (lim + 1))
    (hgood : ∀ i, i < i0 →
      (env.PNMB (s.kring.ring.slot ((s.kring.nr_hwcur + i) % (lim + 1))).buf_idx).1 ≠
        env.netmap_buffer_base)
    (hbad : (env.PNMB (s.kring.ring.slot ((s.kring.nr_hwcur + i0) % (lim + 1))).buf_idx).1 =
        env.netmap_buffer_base) :
    rx_replenish env fuel lim k0 resvd0 s =
      some (sync_ret.ring_reinit,
        rx_post_n env lim i0 s.kring.nr_hwcur (rx_nic_start env lim resvd0 s)
          (rx_clamp lim resvd0 s)) := by
  unfold rx_replenish
  have hw := ring_walk hj hk
  have hdl : ((rx_release lim k0 resvd0 s.kring.ring.avail).2 + (lim + 1) - s.kring.nr_hwcur)
      % (lim + 1) < lim + 1 := Nat.mod_lt _ (by omega)
  have hjk : s.kring.nr_hwcur ≠ (rx_release lim k0 resvd0 s.kring.ring.avail).2 := by
    have h := hw.2 0 (by omega)
    simpa using h
  have hslot := (rx_clamp_fields lim resvd0 s).2.2.2.2.2.2.2.2.1
  have hl := rx_loop_bad env lim (rx_release lim k0 resvd0 s.kring.ring.avail).2 i0 fuel
    s.kring.nr_hwcur (rx_nic_start env lim resvd0 s) 0 (rx_clamp lim resvd0 s)
    (fun i hi => ⟨hw.2 i (by omega), by rw [hslot, iter_next hj]; exact hgood i hi⟩)
    (hw.2 i0 hi0) (by rw [hslot, iter_next hj]; exact hbad) (by omega) (by omega)
  simp only [ne_eq, hjk, not_false_eq_true, if_true, hl, Nat.zero_add]

theorem tx_send_bad (env : Env) (fuel lim k : Nat) (s : TxState) (i0 : Nat)
    (hj : s.kring.nr_hwcur ≤ lim) (hk : k ≤ lim) (hfuel : lim ≤ fuel)
    (hlim : lim < 4294967296)
    (hi0 : i0 < (k + (lim + 1) - s.kring.nr_hwcur) % (lim + 1))
    (hgood : ∀ i, i < i0 →
      tx_slot_bad env (s.kring.ring.slot ((s.kring.nr_hwcur + i) % (lim + 1))) = false)
    (hbad : tx_slot_bad env (s.kring.ring.slot ((s.kring.nr_hwcur + i0) % (lim + 1))) = true) :
    tx_send env fuel lim k s = some (EINVAL, tx_post_n env lim i0 s.kring.nr_hwcur s) := by
  unfold tx_send
  have hw := ring_walk hj hk
  have hdl : (k + (lim + 1) - s.kring.nr_hwcur) % (lim + 1) < lim + 1 :=
    Nat.mod_lt _ (by omega)
  have hjk : s.kring.nr_hwcur ≠ k := by
    have h := hw.2 0 (by omega)
    simpa using h
  have hl := tx_loop_bad env lim k i0 fuel s.kring.nr_hwcur 0 s
    (fun i hi => ⟨hw.2 i (by omega), by rw [iter_next hj]; exact hgood i hi⟩)
    (hw.2 i0 hi0) (by rw [iter_next hj]; exact hbad) (by omega) (by omega)
  simp [hjk, hl, EINVAL]

/-! ## Invalid slots -/

theorem txsync_lim {s : TxState} {lim : Nat} (hN : s.kring.nkr_num_slots = lim + 1)
    (hlim : lim + 1 < 4294967296) : sub32 s.kring.nkr_num_slots 1 = lim := by
  rw [hN, sub32_one (by omega) hlim]; omega

theorem rxsync_lim {s : RxState} {lim : Nat} (hN : s.kring.nkr_num_slots = lim + 1)
    (hlim : lim + 1 < 4294967296) : sub32 s.kring.nkr_num_slots 1 = lim := by
  rw [hN, sub32_one (by omega) hlim]; omega

/-- A bad slot in the transmit range: the call returns through
`netmap_ring_reinit` in the state reached after the good slots before the
first bad one. -/
theorem txsync_bad_slot (env : Env) (fuel : Nat) (do_lock : Bool) (t : TxState) (lim b : Nat)
    (hN : t.kring.nkr_num_slots = lim + 1) (hlim : lim + 1 < 4294967296)
    (hcur : t.kring.ring.cur ≤ lim) (hhw : t.kring.nr_hwcur ≤ lim) (hfuel : lim ≤ fuel)
    (hb : b < (t.kring.ring.cur + (lim + 1) - t.kring.nr_hwcur) % (lim + 1))
    (hbad : tx_slot_bad env (t.kring.ring.slot ((t.kring.nr_hwcur + b) % (lim + 1))) = true) :
    ∃ i0, i0 ≤ b ∧
      tx_slot_bad env (t.kring.ring.slot ((t.kring.nr_hwcur + i0) % (lim + 1))) = true ∧
      (∀ i, i < i0 →
        tx_slot_bad env (t.kring.ring.slot ((t.kring.nr_hwcur + i) % (lim + 1))) = false) ∧
      mlx4_netmap_txsync env fuel do_lock t =
        some (sync_ret.ring_reinit, tx_post_n env lim i0 t.kring.nr_hwcur t) := by
  obtain ⟨i0, h1, h2, h3⟩ :=
    first_bad (fun i => tx_slot_bad env (t.kring.ring.slot ((t.kring.nr_hwcur + i) % (lim + 1)))
      = true) b hbad
  refine ⟨i0, h1, h2, fun i hi => by simpa using h3 i hi, ?_⟩
  unfold mlx4_netmap_txsync
  simp only [txsync_lim hN hlim]
  rw [if_neg (by omega), if_neg (by omega),
    tx_send_bad env fuel lim _ t i0 hhw hcur hfuel (by omega) (by omega)
      (fun i hi => by simpa using h3 i hi) h2]
  simp [EINVAL]

/-- An unbound slot in the replenish range: the call returns through
`netmap_ring_reinit` in the state reached after the bound slots before the
first unbound one. -/
theorem rxsync_bad_slot (env : Env) (fuel : Nat) (do_lock : Bool) (r : RxState) (lim b : Nat)
    (hup : r.port_up = true)
    (hN : r.kring.nkr_num_slots = lim + 1) (hlim : lim + 1 < 4294967296)
    (hcur : r.kring.ring.cur ≤ lim) (hhw : r.kring.nr_hwcur ≤ lim) (hfuel : lim ≤ fuel)
    (hk : (rx_release lim r.kring.ring.cur r.kring.ring.reserved r.kring.ring.avail).2 ≤ lim)
    (hb : b < ((rx_release lim r.kring.ring.cur r.kring.ring.reserved r.kring.ring.avail).2 +
        (lim + 1) - r.kring.nr_hwcur) % (lim + 1))
    (hbad : (env.PNMB (r.kring.ring.slot ((r.kring.nr_hwcur + b) % (lim + 1))).buf_idx).1 =
        env.netmap_buffer_base) :
    ∃ i0, i0 ≤ b ∧
      (env.PNMB (r.kring.ring.slot ((r.kring.nr_hwcur + i0) % (lim + 1))).buf_idx).1 =
        env.netmap_buffer_base ∧
      (∀ i, i < i0 →
        (env.PNMB (r.kring.ring.slot ((r.kring.nr_hwcur + i) % (lim + 1))).buf_idx).1 ≠
          env.netmap_buffer_base) ∧
      mlx4_netmap_rxsync env fuel do_lock r =
        some (sync_ret.ring_reinit,
          rx_post_n env lim i0 r.kring.nr_hwcur
            (rx_nic_start env lim r.kring.ring.reserved (rx_harvest env lim r))
            (rx_clamp lim r.kring.ring.reserved (rx_harvest env lim r))) := by
  obtain ⟨i0, h1, h2, h3⟩ :=
    first_bad (fun i =>
      (env.PNMB (r.kring.ring.slot ((r.kring.nr_hwcur + i) % (lim + 1))).buf_idx).1 =
        env.netmap_buffer_base) b hbad
  refine ⟨i0, h1, h2, h3, ?_⟩
  unfold mlx4_netmap_rxsync
  obtain ⟨_, _, _, _, _, _, f7, _, _, f10, _⟩ := rx_harvest_fields env lim r
  simp only [rxsync_lim hN hlim, hup, Bool.not_true, Bool.false_eq_true, if_false]
  rw [if_neg (by omega)]
  have e := rx_replenish_bad env fuel lim r.kring.ring.cur r.kring.ring.reserved
    (rx_harvest env lim r) i0 (by rw [f7]; exact hhw) (by rw [f10]; exact hk) hfuel (by omega)
    (by rw [f10, f7]; omega)
    (fun i hi => by rw [f7, rx_harvest_buf_idx]; exact h3 i hi)
    (by rw [f7, rx_harvest_buf_idx]; exact h2)
  rw [e, f7]

/-- C6: a slot of the transmit range `[nr_hwcur, cur)` that resolves to
`netmap_buffer_base` or is longer than `NETMAP_BUF_SIZE` makes
`mlx4_netmap_txsync` return through `netmap_ring_reinit`, the descriptor of
that slot (producer counter `prod + b` for the slot at offset `b`) being
left as it was; an unbound slot of the replenish range does the same to
`mlx4_netmap_rxsync` and to the descriptor of NIC index `l + b`; a bound slot
whose length equals `NETMAP_BUF_SIZE` passes the transmit check. The device
ring has `2^k` descriptors, at least as many as the netmap ring has slots. -/
theorem sync_invalid_slot_rejected (env : Env) (fuel : Nat) (do_lock : Bool)
    (t : TxState) (r : RxState) (lt lr k bt br : Nat)
    (htN : t.kring.nkr_num_slots = lt + 1) (htlim : lt + 1 < 4294967296)
    (htprod : t.txr.prod < 4294967296)
    (htcur : t.kring.ring.cur ≤ lt) (hthw : t.kring.nr_hwcur ≤ lt) (htfuel : lt ≤ fuel)
    (hk : k ≤ 32) (htmask : t.txr.size_mask = 2 ^ k - 1) (htsize : lt + 1 ≤ 2 ^ k)
    (htb : bt < (t.kring.ring.cur + (lt + 1) - t.kring.nr_hwcur) % (lt + 1))
    (htbad : tx_slot_bad env (t.kring.ring.slot ((t.kring.nr_hwcur + bt) % (lt + 1))) = true)
    (hrup : r.port_up = true)
    (hrN : r.kring.nkr_num_slots = lr + 1) (hrlim : lr + 1 < 4294967296)
    (hrcur : r.kring.ring.cur ≤ lr) (hrhw : r.kring.nr_hwcur ≤ lr) (hrfuel : lr ≤ fuel)
    (hrk : (rx_release lr r.kring.ring.cur r.kring.ring.reserved r.kring.ring.avail).2 ≤ lr)
    (hrl : rx_nic_start env lr r.kring.ring.reserved (rx_harvest env lr r) ≤ lr)
    (hrb : br < ((rx_release lr r.kring.ring.cur r.kring.ring.reserved r.kring.ring.avail).2 +
        (lr + 1) - r.kring.nr_hwcur) % (lr + 1))
    (hrbad : (env.PNMB (r.kring.ring.slot ((r.kring.nr_hwcur + br) % (lr + 1))).buf_idx).1 =
        env.netmap_buffer_base) :
    (∃ t1, mlx4_netmap_txsync env fuel do_lock t = some (sync_ret.ring_reinit, t1) ∧
      t1.txr.buf (u32 (t.txr.prod + bt) &&& t.txr.size_mask) =
        t.txr.buf (u32 (t.txr.prod + bt) &&& t.txr.size_mask)) ∧
    (∃ r1, mlx4_netmap_rxsync env fuel do_lock r = some (sync_ret.ring_reinit, r1) ∧
      r1.rxr.buf
          ((rx_nic_start env lr r.kring.ring.reserved (rx_harvest env lr r) + br) % (lr + 1)) =
        r.rxr.buf
          ((rx_nic_start env lr r.kring.ring.reserved (rx_harvest env lr r) + br) % (lr + 1))) ∧
    (∀ slot : netmap_slot, (env.PNMB slot.buf_idx).1 ≠ env.netmap_buffer_base →
      slot.len = env.NETMAP_BUF_SIZE → tx_slot_bad env slot = false) := by
  refine ⟨?_, ?_, ?_⟩
  · obtain ⟨i0, h1, _, _, h4⟩ :=
      txsync_bad_slot env fuel do_lock t lt bt htN htlim htcur hthw htfuel htb htbad
    refine ⟨_, h4, ?_⟩
    have hd : (t.kring.ring.cur + (lt + 1) - t.kring.nr_hwcur) % (lt + 1) < lt + 1 :=
      Nat.mod_lt _ (by omega)
    apply tx_post_n_buf_frame env lt i0 _ t _ htprod
    intro i hi
    rw [htmask]
    exact desc_distinct hk _ (by omega) (by omega)
  · obtain ⟨i0, h1, _, _, h4⟩ :=
      rxsync_bad_slot env fuel do_lock r lr br hrup hrN hrlim hrcur hrhw hrfuel hrk hrb hrbad
    refine ⟨_, h4, ?_⟩
    have hd : ((rx_release lr r.kring.ring.cur r.kring.ring.reserved r.kring.ring.avail).2 +
        (lr + 1) - r.kring.nr_hwcur) % (lr + 1) < lr + 1 := Nat.mod_lt _ (by omega)
    rw [rx_post_n_buf_frame env lr i0]
    · rw [(rx_clamp_fields lr _ _).1, (rx_harvest_fields env lr r).2.2.2.2.2.1]
    · intro i hi
      rw [iter_next hrl]
      exact ring_no_dup (by omega) (by omega)
  · intro slot h1 h2
    simp [tx_slot_bad, h1, h2]

theorem sync_invalid_slot_rejected_witness :
    (∃ t1, mlx4_netmap_txsync ex_env 8 false ex_tx_bad = some (sync_ret.ring_reinit, t1) ∧
      t1.txr.buf (u32 (ex_tx_bad.txr.prod + 1) &&& ex_tx_bad.txr.size_mask) =
        ex_tx_bad.txr.buf (u32 (ex_tx_bad.txr.prod + 1) &&& ex_tx_bad.txr.size_mask)) ∧
    (∃ r1, mlx4_netmap_rxsync ex_env 8 false ex_rx_bad = some (sync_ret.ring_reinit, r1) ∧
      r1.rxr.buf
          ((rx_nic_start ex_env 7 ex_rx_bad.kring.ring.reserved (rx_harvest ex_env 7 ex_rx_bad)
            + 1) % (7 + 1)) =
        ex_rx_bad.rxr.buf
          ((rx_nic_start ex_env 7 ex_rx_bad.kring.ring.reserved (rx_harvest ex_env 7 ex_rx_bad)
            + 1) % (7 + 1))) ∧
    (∀ slot : netmap_slot, (ex_env.PNMB slot.buf_idx).1 ≠ ex_env.netmap_buffer_base →
      slot.len = ex_env.NETMAP_BUF_SIZE → tx_slot_bad ex_env slot = false) :=
  sync_invalid_slot_rejected ex_env 8 false ex_tx_bad ex_rx_bad 7 7 3 1 1
    (by decide) (by decide) (by decide) (by decide) (by decide) (by decide) (by decide)
    (by decide) (by decide) (by decide) (by decide)
    (by decide) (by decide) (by decide) (by decide) (by decide) (by decide) (by decide)
    (by decide) (by decide) (by decide)

/-! ## Replenish and commit -/

theorem is_int_to_s32 (x : Nat) : is_int (to_s32 x) := by
  unfold is_int to_s32
  split <;> omega

theorem rx_harvest_is_int (env : Env) (lim : Nat) (s : RxState) (h : is_int s.kring.nr_hwavail) :
    is_int (rx_harvest env lim s).kring.nr_hwavail := by
  rw [(rx_harvest_fields env lim s).2.2.1]
  split
  · exact is_int_to_s32 _
  · exact h

/-- C10 as stated fails on the baseline of `nr_hwavail`: on `ex_rx_rel`
(`nr_hwavail = 5`, release boundary 3, `nr_hwcur = 0`, so `n = 3`) one
completion is harvested before the three slots are replenished and the call
returns 0 with `nr_hwavail = 3`, a decrease of 2 over the call. -/
theorem rxsync_replenish_counterexample :
    ex_rx_rel.kring.nr_hwavail = 5 ∧
    ((rx_release 7 ex_rx_rel.kring.ring.cur ex_rx_rel.kring.ring.reserved
        ex_rx_rel.kring.ring.avail).2 + 8 - ex_rx_rel.kring.nr_hwcur) % 8 = 3 ∧
    (mlx4_netmap_rxsync ex_env 8 false ex_rx_rel).map
      (fun p => (p.1, p.2.kring.nr_hwcur, p.2.kring.nr_hwavail)) = some (sync_ret.ok, 3, 3) := by
  decide

/-- C10 (amended): a call of `mlx4_netmap_rxsync` with the port up, `cur` and `nr_hwcur`
inside the ring, a release boundary `b` (the cursor moved back by `reserved`)
inside the ring and every slot of `[nr_hwcur, b)` bound returns 0; with
`n = (b - nr_hwcur) mod N` and `l = netmap_idx_k2n(kring, nr_hwcur)`, for each
`i < n` fragment 0 of the descriptor of NIC index `(l + i) mod N` holds the
physical address of slot `(nr_hwcur + i) mod N`, `NETMAP_BUF_SIZE` and the
memory key; `nr_hwcur` is `b`, `rxr->prod` has advanced by `n`, `nr_hwavail` is
its value after the harvest minus `n`, and `ring->avail` is
`nr_hwavail - ring->reserved`. -/
theorem rxsync_replenish_commit (env : Env) (fuel : Nat) (do_lock : Bool) (r : RxState)
    (lim : Nat) (hup : r.port_up = true)
    (hN : r.kring.nkr_num_slots = lim + 1) (hlim : lim + 1 < 4294967296)
    (hprod : r.rxr.prod < 4294967296) (hav : is_int r.kring.nr_hwavail)
    (hcur : r.kring.ring.cur ≤ lim) (hhw : r.kring.nr_hwcur ≤ lim) (hfuel : lim ≤ fuel)
    (hk : (rx_release lim r.kring.ring.cur r.kring.ring.reserved r.kring.ring.avail).2 ≤ lim)
    (hl : rx_nic_start env lim r.kring.ring.reserved (rx_harvest env lim r) ≤ lim)
    (hgood : ∀ i,
      i < ((rx_release lim r.kring.ring.cur r.kring.ring.reserved r.kring.ring.avail).2 +
        (lim + 1) - r.kring.nr_hwcur) % (lim + 1) →
      (env.PNMB (r.kring.ring.slot ((r.kring.nr_hwcur + i) % (lim + 1))).buf_idx).1 ≠
        env.netmap_buffer_base) :
    ∃ r1, mlx4_netmap_rxsync env fuel do_lock r = some (sync_ret.ok, r1) ∧
      (∀ i,
        i < ((rx_release lim r.kring.ring.cur r.kring.ring.reserved r.kring.ring.avail).2 +
          (lim + 1) - r.kring.nr_hwcur) % (lim + 1) →
        r1.rxr.buf
            ((rx_nic_start env lim r.kring.ring.reserved (rx_harvest env lim r) + i) % (lim + 1))
            0 =
          { addr := (env.PNMB (r.kring.ring.slot ((r.kring.nr_hwcur + i) % (lim + 1))).buf_idx).2
            byte_count := env.NETMAP_BUF_SIZE
            lkey := r.mr_key }) ∧
      r1.kring.nr_hwcur =
        (rx_release lim r.kring.ring.cur r.kring.ring.reserved r.kring.ring.avail).2 ∧
      r1.rxr.prod = u32 (r.rxr.prod +
        ((rx_release lim r.kring.ring.cur r.kring.ring.reserved r.kring.ring.avail).2 +
          (lim + 1) - r.kring.nr_hwcur) % (lim + 1)) ∧
      r1.kring.nr_hwavail = s32 ((rx_harvest env lim r).kring.nr_hwavail -
        ((((rx_release lim r.kring.ring.cur r.kring.ring.reserved r.kring.ring.avail).2 +
          (lim + 1) - r.kring.nr_hwcur) % (lim + 1) : Nat) : Int)) ∧
      r1.kring.ring.avail = sub32 (to_u32 r1.kring.nr_hwavail) r1.kring.ring.reserved := by
  obtain ⟨_, _, _, _, f5, f6, f7, _, _, f10, f11, f12, _⟩ := rx_harvest_fields env lim r
  have hres := rx_clamp_reserved lim r.kring.ring.cur (rx_harvest env lim r)
  rw [f11, f10] at hres
  obtain ⟨c1, _, c3, c4, c5, _, _, _, c9, _⟩ :=
    rx_clamp_fields lim r.kring.ring.reserved (rx_harvest env lim r)
  have hih := rx_harvest_is_int env lim r hav
  unfold mlx4_netmap_rxsync
  simp only [rxsync_lim hN hlim, hup, Bool.not_true, Bool.false_eq_true, if_false]
  rw [if_neg (by omega)]
  rw [rx_replenish_ok env fuel lim r.kring.ring.cur r.kring.ring.reserved (rx_harvest env lim r)
    (by rw [f7]; exact hhw) (by rw [f10]; exact hk) hfuel (by omega)
    (by rw [f10, f7]; intro i hi; rw [rx_harvest_buf_idx]; exact hgood i hi)]
  rw [f10, f7]
  by_cases hjk : r.kring.nr_hwcur =
      (rx_release lim r.kring.ring.cur r.kring.ring.reserved r.kring.ring.avail).2
  · rw [if_pos hjk]
    have hn0 : ((rx_release lim r.kring.ring.cur r.kring.ring.reserved r.kring.ring.avail).2 +
        (lim + 1) - r.kring.nr_hwcur) % (lim + 1) = 0 := by
      rw [← hjk, Nat.add_sub_cancel_left, Nat.mod_self]
    rw [hn0]
    refine ⟨_, rfl, fun i hi => by omega, ?_, ?_, ?_, ?_⟩
    · simp only [rx_publish, c4, f7]
      exact hjk
    · simp only [rx_publish, c1, f5, Nat.add_zero, u32_of_lt hprod]
    · simp only [rx_publish, c5, Nat.cast_zero, sub_zero, s32]
      exact (to_s32_to_u32 hih.1 hih.2).symm
    · simp only [rx_publish, hres]
  · rw [if_neg hjk]
    have hd : ((rx_release lim r.kring.ring.cur r.kring.ring.reserved r.kring.ring.avail).2 +
        (lim + 1) - r.kring.nr_hwcur) % (lim + 1) < lim + 1 := Nat.mod_lt _ (by omega)
    obtain ⟨_, p2, p3, _, _, p6, _, _, _, p10, _⟩ :=
      rx_post_n_frame env lim
        (((rx_release lim r.kring.ring.cur r.kring.ring.reserved r.kring.ring.avail).2 +
          (lim + 1) - r.kring.nr_hwcur) % (lim + 1))
        r.kring.nr_hwcur (rx_nic_start env lim r.kring.ring.reserved (rx_harvest env lim r))
        (rx_clamp lim r.kring.ring.reserved (rx_harvest env lim r))
    refine ⟨_, rfl, ?_, ?_, ?_, ?_, ?_⟩
    · intro i hi
      have hv := rx_post_n_buf_val env lim _ r.kring.nr_hwcur
        (rx_nic_start env lim r.kring.ring.reserved (rx_harvest env lim r))
        (rx_clamp lim r.kring.ring.reserved (rx_harvest env lim r)) i hi
        (fun i2 h1 h2 => by
          rw [iter_next hl, iter_next hl]
          exact ring_no_dup h1 (by omega))
      rw [iter_next hl, iter_next hhw, c9, rx_harvest_buf_idx, c3, f12] at hv
      simpa [rx_commit] using hv
    · simp [rx_commit]
    · simp [rx_commit, p3, c1, f5]
    · simp only [rx_commit, p6, c5, s32]
      exact to_s32_sub (by omega)
    · simp only [rx_commit, p10, hres]

theorem rxsync_replenish_commit_witness :
    ∃ r1, mlx4_netmap_rxsync ex_env 8 false ex_rx_rel = some (sync_ret.ok, r1) ∧
      (∀ i,
        i < ((rx_release 7 ex_rx_rel.kring.ring.cur ex_rx_rel.kring.ring.reserved
          ex_rx_rel.kring.ring.avail).2 + (7 + 1) - ex_rx_rel.kring.nr_hwcur) % (7 + 1) →
        r1.rxr.buf
            ((rx_nic_start ex_env 7 ex_rx_rel.kring.ring.reserved (rx_harvest ex_env 7 ex_rx_rel)
              + i) % (7 + 1)) 0 =
          { addr := (ex_env.PNMB
              (ex_rx_rel.kring.ring.slot ((ex_rx_rel.kring.nr_hwcur + i) % (7 + 1))).buf_idx).2
            byte_count := ex_env.NETMAP_BUF_SIZE
            lkey := ex_rx_rel.mr_key }) ∧
      r1.kring.nr_hwcur = 3 ∧ r1.rxr.prod = 10 ∧ r1.kring.nr_hwavail = 3 ∧
      r1.kring.ring.avail = sub32 (to_u32 r1.kring.nr_hwavail) r1.kring.ring.reserved := by
  obtain ⟨r1, h1, h2, h3, h4, h5, h6⟩ :=
    rxsync_replenish_commit ex_env 8 false ex_rx_rel 7 (by decide) (by decide) (by decide)
      (by decide) ⟨by decide, by decide⟩ (by decide) (by decide) (by decide) (by decide)
      (by decide) (by decide)
  exact ⟨r1, h1, h2, h3.trans (by decide), h4.trans (by decide), h5.trans (by decide), h6⟩

/-! ## What a finished call looks like -/

theorem tx_loop_shape (env : Env) (lim k : Nat) : ∀ (fuel j n : Nat) (s : TxState)
    (r : Nat × Nat × TxState), tx_loop env lim k fuel j n s = some r →
    ∃ m, r.2.2 = tx_post_n env lim m j s := by
  intro fuel
  induction fuel with
  | zero =>
    intro j n s r h
    by_cases hjk : j = k
    · simp [tx_loop, hjk] at h
      exact ⟨0, by rw [← h]; rfl⟩
    · simp [tx_loop, hjk] at h
  | succ fuel ih =>
    intro j n s r h
    by_cases hjk : j = k
    · simp [tx_loop, hjk] at h
      exact ⟨0, by rw [← h]; rfl⟩
    · by_cases hb : tx_slot_bad env (s.kring.ring.slot j) = true
      · simp [tx_loop, hjk, hb] at h
        exact ⟨0, by rw [← h]; rfl⟩
      · simp only [tx_loop, hjk, if_false, hb] at h
        obtain ⟨m, hm⟩ := ih _ _ _ r h
        exact ⟨m + 1, by rw [hm]; rfl⟩

theorem rx_loop_shape (env : Env) (lim k : Nat) : ∀ (fuel j l n : Nat) (s : RxState)
    (r : Bool × Nat × RxState), rx_loop env lim k fuel j l n s = some r →
    ∃ m, r.2.2 = rx_post_n env lim m j l s := by
  intro fuel
  induction fuel with
  | zero =>
    intro j l n s r h
    by_cases hjk : j = k
    · simp [rx_loop, hjk] at h
      exact ⟨0, by rw [← h]; rfl⟩
    · simp [rx_loop, hjk] at h
  | succ fuel ih =>
    intro j l n s r h
    by_cases hjk : j = k
    · simp [rx_loop, hjk] at h
      exact ⟨0, by rw [← h]; rfl⟩
    · by_cases hb : (env.PNMB (s.kring.ring.slot j).buf_idx).1 = env.netmap_buffer_base
      · simp [rx_loop, hjk, hb] at h
        exact ⟨0, by rw [← h]; rfl⟩
      · simp only [rx_loop, hjk, if_false, beq_iff_eq, hb] at h
        obtain ⟨m, hm⟩ := ih _ _ _ _ r h
        exact ⟨m + 1, by rw [hm]; rfl⟩

/-- A transmit half that ends without error leaves `nr_hwcur = k` and touches
nothing of the completion queue or of the cursor side of the ring. -/
theorem tx_send_inv (env : Env) (fuel lim k : Nat) (s s1 : TxState)
    (h : tx_send env fuel lim k s = some (0, s1)) :
    s1.kring.nr_hwcur = k ∧ s1.cq = s.cq ∧ s1.cqe_factor = s.cqe_factor ∧
    s1.txr.size_mask = s.txr.size_mask ∧ s1.txr.cons = s.txr.cons ∧
    s1.kring.nkr_num_slots = s.kring.nkr_num_slots ∧
    s1.kring.ring.cur = s.kring.ring.cur := by
  unfold tx_send at h
  by_cases hjk : s.kring.nr_hwcur = k
  · simp only [ne_eq, hjk, not_true_eq_false, if_false, Option.some.injEq, Prod.mk.injEq,
      true_and] at h
    rw [← h]
    exact ⟨hjk, rfl, rfl, rfl, rfl, rfl, rfl⟩
  · simp only [ne_eq, hjk, not_false_eq_true, if_true] at h
    cases hl : tx_loop env lim k fuel s.kring.nr_hwcur 0 s with
    | none => simp [hl] at h
    | some r =>
      obtain ⟨err, n, s2⟩ := r
      obtain ⟨m, hm⟩ := tx_loop_shape env lim k fuel _ _ s _ hl
      simp only at hm
      simp only [hl] at h
      by_cases he : err = 0
      · simp only [he, ne_eq, not_true_eq_false, if_false, Option.some.injEq, Prod.mk.injEq,
          true_and] at h
        obtain ⟨f1, f2, _, f4, _, f6, _, _, _, f10, f11, _, _⟩ :=
          tx_post_n_frame env lim m s.kring.nr_hwcur s
        rw [← h, hm]
        simp [tx_commit, f1, f2, f4, f6, f10, f11]
      · simp [he] at h

/-- A call of `mlx4_netmap_txsync` that returns 0 went through both halves. -/
theorem txsync_ok_inv (env : Env) (fuel : Nat) (do_lock : Bool) (s s1 : TxState)
    (h : mlx4_netmap_txsync env fuel do_lock s = some (sync_ret.ok, s1)) :
    s.kring.ring.cur ≤ sub32 s.kring.nkr_num_slots 1 ∧
    s.kring.nr_hwcur ≤ sub32 s.kring.nkr_num_slots 1 ∧
    ∃ sm, tx_send env fuel (sub32 s.kring.nkr_num_slots 1) s.kring.ring.cur s = some (0, sm) ∧
      (tx_reclaim (sub32 s.kring.nkr_num_slots 1) sm).1 = 0 ∧
      s1 = (tx_reclaim (sub32 s.kring.nkr_num_slots 1) sm).2 := by
  unfold mlx4_netmap_txsync at h
  by_cases h1 : s.kring.ring.cur > sub32 s.kring.nkr_num_slots 1
  · simp [h1] at h
  · by_cases h2 : s.kring.nr_hwcur > sub32 s.kring.nkr_num_slots 1
    · simp [h1, h2] at h
    · simp only [h1, h2, if_false] at h
      cases hs : tx_send env fuel (sub32 s.kring.nkr_num_slots 1) s.kring.ring.cur s with
      | none => simp [hs] at h
      | some r =>
        obtain ⟨err, sm⟩ := r
        simp only [hs] at h
        by_cases he : err = 0
        · subst he
          simp only [ne_eq, not_true_eq_false, if_false] at h
          by_cases hr : (tx_reclaim (sub32 s.kring.nkr_num_slots 1) sm).1 = 0
          · simp only [hr, ne_eq, not_true_eq_false, if_false, Option.some.injEq,
              Prod.mk.injEq, true_and] at h
            exact ⟨by omega, by omega, sm, rfl, hr, h.symm⟩
          · simp [hr] at h
        · simp [he] at h

/-- A call of `mlx4_netmap_txsync` with nothing to send and nothing to
reclaim. -/
theorem txsync_idle_call (env : Env) (fuel : Nat) (do_lock : Bool) (s : TxState)
    (hcur : s.kring.ring.cur ≤ sub32 s.kring.nkr_num_slots 1)
    (hjk : s.kring.nr_hwcur = s.kring.ring.cur)
    (hq : cqe_ready s.cq.size (tx_cqe s.txr.size_mask s.cqe_factor s.cq.buf s.cq.cons_index)
      s.cq.cons_index = false) :
    mlx4_netmap_txsync env fuel do_lock s =
      some (sync_ret.ok,
        { s with
          cq := { s.cq with
            set_ci_db := s.cq.cons_index &&& 0xffffff
            arm_count := if s.kring.nr_hwavail = 0 then s.cq.arm_count + 1 else s.cq.arm_count }
          kring := { s.kring with
            ring := { s.kring.ring with avail := to_u32 s.kring.nr_hwavail } } }) := by
  unfold mlx4_netmap_txsync
  rw [if_neg (by omega), if_neg (by omega)]
  have hs : tx_send env fuel (sub32 s.kring.nkr_num_slots 1) s.kring.ring.cur s = some (0, s) := by
    unfold tx_send
    simp [hjk]
  simp only [hs, tx_reclaim_idle _ s hq, ne_eq, not_true_eq_false, if_false]

theorem rx_harvest_idle (env : Env) (lim : Nat) (s : RxState)
    (h : cqe_ready s.cq.size (rx_cqe s.rxr.size_mask s.cqe_factor s.cq.buf s.cq.cons_index)
      s.cq.cons_index = false) :
    rx_harvest env lim s =
      { s with
        kring := { s.kring with nr_kflags := clear_bits s.kring.nr_kflags env.NKR_PENDINTR } } := by
  unfold rx_harvest
  simp [rx_scan_idle lim s h]

/-- A replenish half that returns 0 leaves `nr_hwcur` at the release boundary
and `ring->avail` at `nr_hwavail - resvd`. -/
theorem rx_replenish_inv (env : Env) (fuel lim k0 resvd0 : Nat) (s r1 : RxState)
    (h : rx_replenish env fuel lim k0 resvd0 s = some (sync_ret.ok, r1)) :
    r1.kring.nr_hwcur = (rx_release lim k0 resvd0 s.kring.ring.avail).2 ∧
    r1.kring.ring.avail =
      sub32 (to_u32 r1.kring.nr_hwavail) (rx_release lim k0 resvd0 s.kring.ring.avail).1 ∧
    r1.kring.ring.reserved = (rx_clamp lim resvd0 s).kring.ring.reserved ∧
    r1.kring.ring.cur = s.kring.ring.cur ∧
    r1.kring.nkr_num_slots = s.kring.nkr_num_slots ∧
    r1.port_up = s.port_up ∧ r1.cq = s.cq ∧ r1.cqe_factor = s.cqe_factor ∧
    r1.rxr.size_mask = s.rxr.size_mask := by
  unfold rx_replenish at h
  obtain ⟨c1, c2, _, c4, c5, c6, c7, _, _, c10, c11⟩ := rx_clamp_fields lim resvd0 s
  by_cases hjk : s.kring.nr_hwcur = (rx_release lim k0 resvd0 s.kring.ring.avail).2
  · simp only [ne_eq, hjk, not_true_eq_false, if_false, Option.some.injEq, Prod.mk.injEq,
      true_and] at h
    rw [← h]
    simp [rx_publish, c4, c7, c6, c10, c2, c11, c1, c5, hjk]
  · simp only [ne_eq, hjk, not_false_eq_true, if_true] at h
    cases hl : rx_loop env lim (rx_release lim k0 resvd0 s.kring.ring.avail).2 fuel
        s.kring.nr_hwcur (rx_nic_start env lim resvd0 s) 0 (rx_clamp lim resvd0 s) with
    | none => simp [hl] at h
    | some r =>
      obtain ⟨bad, n, s2⟩ := r
      obtain ⟨m, hm⟩ := rx_loop_shape env lim _ fuel _ _ _ _ _ hl
      simp only at hm
      simp only [hl] at h
      cases bad with
      | true => simp at h
      | false =>
        simp only [Bool.false_eq_true, if_false, Option.some.injEq, Prod.mk.injEq,
          true_and] at h
        obtain ⟨p1, _, _, _, _, _, p7, p8, _, p10, p11, p12, p13⟩ :=
          rx_post_n_frame env lim m s.kring.nr_hwcur (rx_nic_start env lim resvd0 s)
            (rx_clamp lim resvd0 s)
        rw [← h, hm]
        simp [rx_commit, p1, p7, p8, p10, p11, p12, p13, c1, c2, c6, c7, c10, c11]

/-- A call of `mlx4_netmap_rxsync` that returns 0 either found the port down
or went through both halves. -/
theorem rxsync_ok_inv (env : Env) (fuel : Nat) (do_lock : Bool) (s r1 : RxState)
    (h : mlx4_netmap_rxsync env fuel do_lock s = some (sync_ret.ok, r1)) :
    (s.port_up = false ∧ r1 = s) ∨
    (s.port_up = true ∧ s.kring.ring.cur ≤ sub32 s.kring.nkr_num_slots 1 ∧
      rx_replenish env fuel (sub32 s.kring.nkr_num_slots 1) s.kring.ring.cur
        s.kring.ring.reserved (rx_harvest env (sub32 s.kring.nkr_num_slots 1) s) =
          some (sync_ret.ok, r1)) := by
  unfold mlx4_netmap_rxsync at h
  cases hp : s.port_up with
  | false =>
    simp [hp] at h
    exact Or.inl ⟨rfl, h.symm⟩
  | true =>
    simp only [hp, Bool.not_true, Bool.false_eq_true, if_false] at h
    by_cases h1 : s.kring.ring.cur > sub32 s.kring.nkr_num_slots 1
    · simp [h1] at h
    · simp only [h1, if_false] at h
      exact Or.inr ⟨rfl, by omega, h⟩

/-- The `reserved` handling run again on its own result: when the clamp test
fails for the result, the outcome is the same. -/
theorem rx_release_again (lim k resvd avail avail2 : Nat)
    (h : (rx_release lim k resvd avail).1 = 0 ∨
      u32 ((rx_release lim k resvd avail).1 + avail2) < u32 (lim + 1)) :
    rx_release lim k (rx_release lim k resvd avail).1 avail2 = rx_release lim k resvd avail := by
  unfold rx_release at h ⊢
  by_cases h0 : resvd > 0
  · by_cases h1 : u32 (resvd + avail) ≥ u32 (lim + 1)
    · simp [h0, h1]
    · simp only [h0, h1, if_true, if_false] at h ⊢
      have h2 : ¬ u32 (resvd + avail2) ≥ u32 (lim + 1) := by
        rcases h with h | h
        · omega
        · omega
      simp [h0, h2]
  · simp [h0]

/-- A call of `mlx4_netmap_rxsync` with `nr_hwcur` already at the release
boundary. -/
theorem rxsync_idle_call (env : Env) (fuel : Nat) (do_lock : Bool) (s : RxState)
    (hup : s.port_up = true)
    (hcur : s.kring.ring.cur ≤ sub32 s.kring.nkr_num_slots 1)
    (hb : s.kring.nr_hwcur =
      (rx_release (sub32 s.kring.nkr_num_slots 1) s.kring.ring.cur s.kring.ring.reserved
        s.kring.ring.avail).2) :
    mlx4_netmap_rxsync env fuel do_lock s =
      some (sync_ret.ok,
        rx_publish
          (rx_release (sub32 s.kring.nkr_num_slots 1) s.kring.ring.cur s.kring.ring.reserved
            s.kring.ring.avail).1
          (rx_clamp (sub32 s.kring.nkr_num_slots 1) s.kring.ring.reserved
            (rx_harvest env (sub32 s.kring.nkr_num_slots 1) s))) := by
  unfold mlx4_netmap_rxsync
  simp only [hup, Bool.not_true, Bool.false_eq_true, if_false]
  rw [if_neg (by omega)]
  obtain ⟨_, _, _, _, _, _, f7, _, _, f10, _⟩ :=
    rx_harvest_fields env (sub32 s.kring.nkr_num_slots 1) s
  unfold rx_replenish
  simp only [f7, f10, ne_eq]
  rw [if_neg (by simpa using hb)]

theorem u32_add_sub32 {a r : Nat} (ha : a < 4294967296) (hr : r < 4294967296) :
    u32 (r + sub32 a r) = a := by
  unfold u32 sub32; omega

/-- C7 (amended): a successful `mlx4_netmap_txsync` followed, with the same
cursor and no completion entry ready at the consumer index, by a second call
makes the second call return 0 with `txr->buf`, `txr->prod`, `txr->cons`,
`nr_hwcur`, `nr_hwavail` and the completion consumer index unchanged and the
same `ring->avail`; the same holds for `mlx4_netmap_rxsync` (same cursor and
reserved count) provided `nr_hwavail` after the first call lies in
`[0, N-1]`. -/
theorem sync_twice_idempotent (env : Env) (fuel fuel2 : Nat) (do_lock do_lock2 : Bool)
    (t t1 : TxState) (r r1 : RxState) (lr : Nat)
    (ht : mlx4_netmap_txsync env fuel do_lock t = some (sync_ret.ok, t1))
    (htq : cqe_ready t1.cq.size
      (tx_cqe t1.txr.size_mask t1.cqe_factor t1.cq.buf t1.cq.cons_index) t1.cq.cons_index = false)
    (hrN : r.kring.nkr_num_slots = lr + 1) (hrlim : lr + 1 < 4294967296)
    (hrres : r.kring.ring.reserved < 4294967296)
    (hr : mlx4_netmap_rxsync env fuel do_lock r = some (sync_ret.ok, r1))
    (hrq : cqe_ready r1.cq.size
      (rx_cqe r1.rxr.size_mask r1.cqe_factor r1.cq.buf r1.cq.cons_index) r1.cq.cons_index = false)
    (hrav : 0 ≤ r1.kring.nr_hwavail ∧ r1.kring.nr_hwavail ≤ lr) :
    (∃ t2, mlx4_netmap_txsync env fuel2 do_lock2 t1 = some (sync_ret.ok, t2) ∧
      t2.txr.buf = t1.txr.buf ∧ t2.txr.prod = t1.txr.prod ∧ t2.txr.cons = t1.txr.cons ∧
      t2.kring.nr_hwcur = t1.kring.nr_hwcur ∧ t2.kring.nr_hwavail = t1.kring.nr_hwavail ∧
      t2.cq.cons_index = t1.cq.cons_index ∧ t2.kring.ring.avail = t1.kring.ring.avail) ∧
    (∃ r2, mlx4_netmap_rxsync env fuel2 do_lock2 r1 = some (sync_ret.ok, r2) ∧
      r2.rxr.buf = r1.rxr.buf ∧ r2.rxr.prod = r1.rxr.prod ∧ r2.rxr.cons = r1.rxr.cons ∧
      r2.kring.nr_hwcur = r1.kring.nr_hwcur ∧ r2.kring.nr_hwavail = r1.kring.nr_hwavail ∧
      r2.cq.cons_index = r1.cq.cons_index ∧ r2.kring.ring.avail = r1.kring.ring.avail) := by
  constructor
  · obtain ⟨hcur, _, sm, hs, hok, h1⟩ := txsync_ok_inv env fuel do_lock t t1 ht
    obtain ⟨s1, _, _, _, _, s6, s7⟩ := tx_send_inv env fuel _ _ t sm hs
    obtain ⟨_, _, _, _, _, _, r7, _, r9, r10, r11, _⟩ :=
      tx_reclaim_fields (sub32 t.kring.nkr_num_slots 1) sm
    rw [← h1] at r7 r9 r10 r11
    have e1 : t1.kring.nkr_num_slots = t.kring.nkr_num_slots := by rw [r10, s6]
    have e2 : t1.kring.ring.cur = t.kring.ring.cur := by rw [r11, s7]
    have e3 : t1.kring.nr_hwcur = t1.kring.ring.cur := by rw [r7, s1, e2]
    refine ⟨_, txsync_idle_call env fuel2 do_lock2 t1 (by rw [e1, e2]; exact hcur) e3 htq,
      rfl, rfl, rfl, rfl, rfl, rfl, ?_⟩
    exact (r9 hok).symm
  · rcases rxsync_ok_inv env fuel do_lock r r1 hr with ⟨hdown, h1⟩ | ⟨hup, hcur, hrep⟩
    · subst h1
      refine ⟨r1, ?_, rfl, rfl, rfl, rfl, rfl, rfl, rfl⟩
      unfold mlx4_netmap_rxsync
      simp [hdown]
    · rw [rxsync_lim hrN hrlim] at hcur hrep
      obtain ⟨_, _, _, _, _, _, _, _, f9, f10, f11, _, _, _, _, _, f17⟩ :=
        rx_harvest_fields env lr r
      obtain ⟨i1, i2, i3, i4, i5, i6, _⟩ := rx_replenish_inv env fuel lr _ _ _ r1 hrep
      have hres := rx_clamp_reserved lr r.kring.ring.cur (rx_harvest env lr r)
      rw [f11, f10] at hres
      rw [f10] at i1 i2
      rw [hres] at i3
      rw [f9] at i4
      have hN1 : r1.kring.nkr_num_slots = lr + 1 := by
        rw [i5, (rx_harvest_fields env lr r).2.2.2.2.2.2.2.1, hrN]
      have hl1 := rxsync_lim hN1 hrlim
      have hrk1 : (rx_release lr r.kring.ring.cur r.kring.ring.reserved r.kring.ring.avail).1
          < 4294967296 := by
        unfold rx_release
        split
        · split
          · simp
          · simp; omega
        · simpa using hrres
      have hagain : rx_release lr r1.kring.ring.cur r1.kring.ring.reserved r1.kring.ring.avail =
          rx_release lr r.kring.ring.cur r.kring.ring.reserved r.kring.ring.avail := by
        rw [i4, i3, i2]
        apply rx_release_again
        right
        rw [u32_add_sub32 (to_u32_lt _) hrk1, to_u32_of_nonneg hrav.1 (by omega),
          u32_of_lt hrlim]
        omega
      have hcall := rxsync_idle_call env fuel2 do_lock2 r1 (by rw [i6, f17]; exact hup)
        (by rw [hl1, i4]; exact hcur) (by rw [hl1, hagain]; exact i1)
      rw [hl1, hagain] at hcall
      obtain ⟨c1, c2, _, c4, c5, _, _, _, _, _⟩ :=
        rx_clamp_fields lr r1.kring.ring.reserved (rx_harvest env lr r1)
      obtain ⟨g1, _, g3, g4, g5, g6, g7, _⟩ := rx_harvest_fields env lr r1
      have hidle := rx_scan_idle lr r1 hrq
      refine ⟨_, hcall, ?_, ?_, ?_, ?_, ?_, ?_, ?_⟩
      · simp only [rx_publish, c1, g6]
      · simp only [rx_publish, c1, g5]
      · simp only [rx_publish, c1, g4, hidle, ne_eq, not_true_eq_false, if_false]
      · simp only [rx_publish, c4, g7]
      · simp only [rx_publish, c5, g3, hidle, ne_eq, not_true_eq_false, if_false]
      · simp only [rx_publish, c2, g1, hidle]
      · simp only [rx_publish, c5, g3, hidle, ne_eq, not_true_eq_false, if_false]
        exact i2.symm

theorem sync_twice_idempotent_witness :
    (∃ t2, mlx4_netmap_txsync ex_env 0 true ex_tx_once = some (sync_ret.ok, t2) ∧
      t2.txr.buf = ex_tx_once.txr.buf ∧ t2.txr.prod = ex_tx_once.txr.prod ∧
      t2.txr.cons = ex_tx_once.txr.cons ∧
      t2.kring.nr_hwcur = ex_tx_once.kring.nr_hwcur ∧
      t2.kring.nr_hwavail = ex_tx_once.kring.nr_hwavail ∧
      t2.cq.cons_index = ex_tx_once.cq.cons_index ∧
      t2.kring.ring.avail = ex_tx_once.kring.ring.avail) ∧
    (∃ r2, mlx4_netmap_rxsync ex_env 0 true ex_rx_once = some (sync_ret.ok, r2) ∧
      r2.rxr.buf = ex_rx_once.rxr.buf ∧ r2.rxr.prod = ex_rx_once.rxr.prod ∧
      r2.rxr.cons = ex_rx_once.rxr.cons ∧
      r2.kring.nr_hwcur = ex_rx_once.kring.nr_hwcur ∧
      r2.kring.nr_hwavail = ex_rx_once.kring.nr_hwavail ∧
      r2.cq.cons_index = ex_rx_once.cq.cons_index ∧
      r2.kring.ring.avail = ex_rx_once.kring.ring.avail) :=
  sync_twice_idempotent ex_env 8 0 false true (ex_tx 3 0 7 0 0 (ex_cq_buf 0 id)) ex_tx_once
    ex_rx_rel ex_rx_once 7 rfl (by decide) (by decide) (by decide) (by decide) rfl (by decide)
    ⟨by decide, by decide⟩

/-- C7 as stated fails for `mlx4_netmap_rxsync`: on `ex_rx_over` the first
call returns 0 and leaves `nr_hwavail = -2`; the second call, with the same
cursor and reserved count and no completion entry ready, clamps `reserved`,
replenishes one more slot (descriptor 2 is written), and moves `rxr->prod`
from 9 to 10, `nr_hwcur` from 2 to 3 and `nr_hwavail` from -2 to -3. -/
theorem sync_twice_counterexample :
    (mlx4_netmap_rxsync ex_env 8 false ex_rx_over).bind (fun p =>
      (mlx4_netmap_rxsync ex_env 8 false p.2).map (fun q =>
        (p.1, q.1, p.2.kring.ring.cur, p.2.kring.ring.reserved,
         cqe_ready p.2.cq.size
           (rx_cqe p.2.rxr.size_mask p.2.cqe_factor p.2.cq.buf p.2.cq.cons_index)
           p.2.cq.cons_index,
         p.2.rxr.prod, q.2.rxr.prod, p.2.kring.nr_hwcur, q.2.kring.nr_hwcur,
         p.2.kring.nr_hwavail, q.2.kring.nr_hwavail,
         (p.2.rxr.buf 2 0).addr, (q.2.rxr.buf 2 0).addr))) =
      some (sync_ret.ok, sync_ret.ok, 3, 1, false, 9, 10, 2, 3, -2, -3, 0, 1054720) := by
  rfl

/-! ## No new host work -/

/-- C8 as stated fails: with `cur == nr_hwcur`, `mlx4_netmap_txsync` still
reclaims the two pending completions and moves `txr->cons` from 3 to 5, and
`mlx4_netmap_rxsync` with `reserved = 1` replenishes seven slots and moves
`rxr->prod` from 7 to 14. -/
theorem idle_cursor_counterexample :
    (ex_tx_done.kring.ring.cur = ex_tx_done.kring.nr_hwcur ∧ ex_tx_done.txr.cons = 3 ∧
      (mlx4_netmap_txsync ex_env 8 false ex_tx_done).map (fun p => (p.1, p.2.txr.cons)) =
        some (sync_ret.ok, 5)) ∧
    (ex_rx_resv.kring.ring.cur = ex_rx_resv.kring.nr_hwcur ∧ ex_rx_resv.rxr.prod = 7 ∧
      (mlx4_netmap_rxsync ex_env 8 false ex_rx_resv).map (fun p => (p.1, p.2.rxr.prod)) =
        some (sync_ret.ok, 14)) := by
  decide

/-- C8 (amended): with `cur == nr_hwcur`, `mlx4_netmap_txsync` returns with
`txr->prod` unchanged, and with `txr->cons` unchanged when no completion entry
is ready at the completion consumer index; `mlx4_netmap_rxsync` with
`reserved = 0` returns with `rxr->prod` unchanged, and with `rxr->cons`
unchanged when no completion entry is ready. -/
theorem idle_cursor_frame (env : Env) (fuel : Nat) (do_lock : Bool) (t : TxState) (r : RxState)
    (ht : t.kring.ring.cur = t.kring.nr_hwcur)
    (hr : r.kring.ring.cur = r.kring.nr_hwcur) (hres : r.kring.ring.reserved = 0) :
    (∃ ret t1, mlx4_netmap_txsync env fuel do_lock t = some (ret, t1) ∧
      t1.txr.prod = t.txr.prod ∧
      (cqe_ready t.cq.size (tx_cqe t.txr.size_mask t.cqe_factor t.cq.buf t.cq.cons_index)
          t.cq.cons_index = false → t1.txr.cons = t.txr.cons)) ∧
    (∃ ret r1, mlx4_netmap_rxsync env fuel do_lock r = some (ret, r1) ∧
      r1.rxr.prod = r.rxr.prod ∧
      (cqe_ready r.cq.size (rx_cqe r.rxr.size_mask r.cqe_factor r.cq.buf r.cq.cons_index)
          r.cq.cons_index = false → r1.rxr.cons = r.rxr.cons)) := by
  constructor
  · unfold mlx4_netmap_txsync
    by_cases h1 : t.kring.ring.cur > sub32 t.kring.nkr_num_slots 1
    · exact ⟨_, _, by rw [if_pos h1], rfl, fun _ => rfl⟩
    · rw [if_neg h1, if_neg (by rw [← ht]; exact h1)]
      have hs : tx_send env fuel (sub32 t.kring.nkr_num_slots 1) t.kring.ring.cur t =
          some (0, t) := by
        unfold tx_send
        simp [ht]
      simp only [hs, ne_eq, not_true_eq_false, if_false]
      obtain ⟨_, f2, _, _, f5, _⟩ := tx_reclaim_fields (sub32 t.kring.nkr_num_slots 1) t
      by_cases he : (tx_reclaim (sub32 t.kring.nkr_num_slots 1) t).1 = 0
      · refine ⟨_, _, by rw [if_neg (by simpa using he)], f5, ?_⟩
        intro hq
        rw [f2, tx_freed_idle _ t hq]
        simp
      · refine ⟨_, _, by rw [if_pos (by simpa using he)], f5, ?_⟩
        intro hq
        rw [f2, tx_freed_idle _ t hq]
        simp
  · unfold mlx4_netmap_rxsync
    cases hp : r.port_up with
    | false => exact ⟨sync_ret.ok, r, by simp, rfl, fun _ => rfl⟩
    | true =>
      simp only [Bool.not_true, Bool.false_eq_true, if_false]
      by_cases h1 : r.kring.ring.cur > sub32 r.kring.nkr_num_slots 1
      · exact ⟨_, _, by rw [if_pos h1], rfl, fun _ => rfl⟩
      · rw [if_neg h1]
        obtain ⟨_, _, _, f4, f5, _, f7, _, _, f10, _⟩ :=
          rx_harvest_fields env (sub32 r.kring.nkr_num_slots 1) r
        have hrel : ∀ a, rx_release (sub32 r.kring.nkr_num_slots 1) r.kring.ring.cur
            r.kring.ring.reserved a = (0, r.kring.ring.cur) := by
          intro a
          unfold rx_release
          simp [hres]
        have hrep : rx_replenish env fuel (sub32 r.kring.nkr_num_slots 1) r.kring.ring.cur
            r.kring.ring.reserved (rx_harvest env (sub32 r.kring.nkr_num_slots 1) r) =
            some (sync_ret.ok, rx_publish 0
              (rx_clamp (sub32 r.kring.nkr_num_slots 1) r.kring.ring.reserved
                (rx_harvest env (sub32 r.kring.nkr_num_slots 1) r))) := by
          unfold rx_replenish
          simp only [hrel, f7]
          rw [if_neg (by rw [hr]; simp)]
        obtain ⟨c1, _⟩ := rx_clamp_fields (sub32 r.kring.nkr_num_slots 1) r.kring.ring.reserved
          (rx_harvest env (sub32 r.kring.nkr_num_slots 1) r)
        refine ⟨_, _, hrep, ?_, ?_⟩
        · simp only [rx_publish, c1, f5]
        · intro hq
          simp only [rx_publish, c1, f4, rx_scan_idle _ r hq, ne_eq, not_true_eq_false, if_false]

theorem idle_cursor_frame_witness :
    (∃ ret t1, mlx4_netmap_txsync ex_env 8 false ex_tx_done = some (ret, t1) ∧
      t1.txr.prod = ex_tx_done.txr.prod ∧
      (cqe_ready ex_tx_done.cq.size
          (tx_cqe ex_tx_done.txr.size_mask ex_tx_done.cqe_factor ex_tx_done.cq.buf
            ex_tx_done.cq.cons_index) ex_tx_done.cq.cons_index = false →
        t1.txr.cons = ex_tx_done.txr.cons)) ∧
    (∃ ret r1, mlx4_netmap_rxsync ex_env 8 false ex_rx_done = some (ret, r1) ∧
      r1.rxr.prod = ex_rx_done.rxr.prod ∧
      (cqe_ready ex_rx_done.cq.size
          (rx_cqe ex_rx_done.rxr.size_mask ex_rx_done.cqe_factor ex_rx_done.cq.buf
            ex_rx_done.cq.cons_index) ex_rx_done.cq.cons_index = false →
        r1.rxr.cons = ex_rx_done.rxr.cons)) :=
  idle_cursor_frame ex_env 8 false ex_tx_done ex_rx_done (by decide) (by decide) (by decide)

/-! ## The range of nr_hwavail -/

theorem rx_loop_unreach (env : Env) (lim k : Nat) (hk : lim < k) : ∀ (fuel j l n : Nat)
    (s : RxState) (n1 : Nat) (s1 : RxState), j ≤ lim →
    rx_loop env lim k fuel j l n s ≠ some (false, n1, s1) := by
  intro fuel
  induction fuel with
  | zero =>
    intro j l n s n1 s1 hj
    simp [rx_loop, show j ≠ k by omega]
  | succ fuel ih =>
    intro j l n s n1 s1 hj
    by_cases hb : (env.PNMB (s.kring.ring.slot j).buf_idx).1 = env.netmap_buffer_base
    · simp [rx_loop, show j ≠ k by omega, hb]
    · simp only [rx_loop, show j ≠ k by omega, if_false, beq_iff_eq, hb]
      apply ih
      unfold nm_next
      split <;> omega

theorem range_of_check {x lim : Nat} (h : to_u32 (to_s32 x) ≤ lim) (hl : lim < 2147483648) :
    0 ≤ to_s32 x ∧ to_s32 x ≤ lim := by
  unfold to_u32 to_s32 at *
  split at h <;> split <;> omega

theorem to_s32_sub_exact {h : Int} {n : Nat} (h0 : 0 ≤ h - n) (h1 : h < 2147483648) :
    to_s32 (sub32 (to_u32 h) n) = h - n := by
  unfold to_s32 to_u32 sub32; split <;> omega

theorem to_s32_add_exact {h : Int} {n : Nat} (h0 : 0 ≤ h) (h1 : h + n < 2147483648) :
    to_s32 (to_u32 h + n) = h + n := by
  unfold to_s32 to_u32; split <;> omega

/-- C1 as stated fails. On `ex_tx_over` (`nr_hwavail = 0`, `cur = 3`)
`mlx4_netmap_txsync` returns 0 with `nr_hwavail = -3`; on `ex_rx_full`
(`nr_hwavail = 7 = N - 1`, one completion pending) `mlx4_netmap_rxsync`
returns 0 with `nr_hwavail = 8`. -/
theorem hwavail_range_counterexample :
    (0 ≤ ex_tx_over.kring.nr_hwavail ∧ ex_tx_over.kring.nr_hwavail ≤ 7 ∧
      ex_tx_over.kring.nkr_num_slots = 8 ∧ ex_tx_over.kring.ring.cur ≤ 7 ∧
      (mlx4_netmap_txsync ex_env 8 false ex_tx_over).map
        (fun p => (p.1, p.2.kring.nr_hwavail)) = some (sync_ret.ok, -3)) ∧
    (0 ≤ ex_rx_full.kring.nr_hwavail ∧ ex_rx_full.kring.nr_hwavail ≤ 7 ∧
      ex_rx_full.kring.nkr_num_slots = 8 ∧ ex_rx_full.kring.ring.cur ≤ 7 ∧
      (mlx4_netmap_rxsync ex_env 8 false ex_rx_full).map
        (fun p => (p.1, p.2.kring.nr_hwavail)) = some (sync_ret.ok, 8)) := by
  decide

/-- Range of `nr_hwavail` after a `mlx4_netmap_txsync` that returns 0 and
sends no more slots than were available. -/
theorem txsync_hwavail_range (env : Env) (fuel : Nat) (do_lock : Bool) (t t1 : TxState)
    (lt : Nat) (hN : t.kring.nkr_num_slots = lt + 1) (hlim : lt + 1 ≤ 2147483648)
    (h1 : t.kring.nr_hwavail ≤ lt) (hfuel : lt ≤ fuel)
    (hd : (((t.kring.ring.cur + (lt + 1) - t.kring.nr_hwcur) % (lt + 1) : Nat) : Int) ≤
      t.kring.nr_hwavail)
    (hret : mlx4_netmap_txsync env fuel do_lock t = some (sync_ret.ok, t1)) :
    0 ≤ t1.kring.nr_hwavail ∧ t1.kring.nr_hwavail ≤ lt := by
  obtain ⟨hcur, hhw, sm, hs, hok, e1⟩ := txsync_ok_inv env fuel do_lock t t1 hret
  have hl := txsync_lim hN (show lt + 1 < 4294967296 by omega)
  rw [hl] at hcur hhw hs hok e1
  by_cases hb : ∃ b, b < (t.kring.ring.cur + (lt + 1) - t.kring.nr_hwcur) % (lt + 1) ∧
      tx_slot_bad env (t.kring.ring.slot ((t.kring.nr_hwcur + b) % (lt + 1))) = true
  · obtain ⟨b, hb1, hb2⟩ := hb
    obtain ⟨i0, _, _, _, h4⟩ :=
      txsync_bad_slot env fuel do_lock t lt b hN (by omega) hcur hhw hfuel hb1 hb2
    rw [h4] at hret
    simp at hret
  · have hgood : ∀ i, i < (t.kring.ring.cur + (lt + 1) - t.kring.nr_hwcur) % (lt + 1) →
        tx_slot_bad env (t.kring.ring.slot ((t.kring.nr_hwcur + i) % (lt + 1))) = false := by
      intro i hi
      by_contra hne
      exact hb ⟨i, hi, by simpa using hne⟩
    rw [tx_send_ok env fuel lt _ t hhw hcur hfuel (by omega) hgood] at hs
    simp only [Option.some.injEq, Prod.mk.injEq, true_and] at hs
    have hsm : sm.kring.nr_hwavail = t.kring.nr_hwavail -
        (((t.kring.ring.cur + (lt + 1) - t.kring.nr_hwcur) % (lt + 1) : Nat) : Int) := by
      rw [← hs]
      by_cases hjk : t.kring.nr_hwcur = t.kring.ring.cur
      · simp [hjk]
      · rw [if_neg hjk]
        simp only [tx_commit, (tx_post_n_frame env lt _ _ t).2.2.2.2.2.2.2.2.1]
        exact to_s32_sub_exact (by omega) (by omega)
    obtain ⟨f1, _, f3, _⟩ := tx_reclaim_fields lt sm
    rw [e1, f3]
    by_cases hn : tx_freed lt sm = 0
    · simp only [hn, ne_eq, not_true_eq_false, if_false, hsm]
      omega
    · simp only [ne_eq, hn, not_false_eq_true, if_true]
      rw [f1] at hok
      by_cases hc : to_u32 (to_s32 (to_u32 sm.kring.nr_hwavail + tx_freed lt sm)) > lt
      · simp [hn, hc, EINVAL] at hok
      · exact range_of_check (by omega) (by omega)

/-- Range of `nr_hwavail` after a `mlx4_netmap_rxsync` that returns 0, whose
harvest stays below the ring size and which replenishes no more slots than
are available. -/
theorem rxsync_hwavail_range (env : Env) (fuel : Nat) (do_lock : Bool) (r r1 : RxState)
    (lr : Nat) (hN : r.kring.nkr_num_slots = lr + 1) (hlim : lr + 1 ≤ 2147483648)
    (h0 : 0 ≤ r.kring.nr_hwavail) (h1 : r.kring.nr_hwavail ≤ lr)
    (hhw : r.kring.nr_hwcur ≤ lr) (hfuel : lr ≤ fuel)
    (hm : r.kring.nr_hwavail + (((rx_scan lr r).2.2.1 : Nat) : Int) ≤ lr)
    (hn : ((((rx_release lr r.kring.ring.cur r.kring.ring.reserved r.kring.ring.avail).2 +
        (lr + 1) - r.kring.nr_hwcur) % (lr + 1) : Nat) : Int) ≤
      r.kring.nr_hwavail + (((rx_scan lr r).2.2.1 : Nat) : Int))
    (hret : mlx4_netmap_rxsync env fuel do_lock r = some (sync_ret.ok, r1)) :
    0 ≤ r1.kring.nr_hwavail ∧ r1.kring.nr_hwavail ≤ lr := by
  rcases rxsync_ok_inv env fuel do_lock r r1 hret with ⟨_, e1⟩ | ⟨hup, hcur, hrep⟩
  · rw [e1]; exact ⟨h0, h1⟩
  · have hl := rxsync_lim hN (show lr + 1 < 4294967296 by omega)
    rw [hl] at hcur hrep
    obtain ⟨_, _, f3, _, _, _, f7, _, _, f10, _⟩ := rx_harvest_fields env lr r
    have hh : (rx_harvest env lr r).kring.nr_hwavail =
        r.kring.nr_hwavail + (((rx_scan lr r).2.2.1 : Nat) : Int) := by
      rw [f3]
      by_cases hz : (rx_scan lr r).2.2.1 = 0
      · simp [hz]
      · simp only [ne_eq, hz, not_false_eq_true, if_true]
        exact to_s32_add_exact h0 (by omega)
    have hk : (rx_release lr r.kring.ring.cur r.kring.ring.reserved r.kring.ring.avail).2 ≤ lr := by
      by_contra hgt
      have hrep2 := hrep
      unfold rx_replenish at hrep2
      rw [f7, f10] at hrep2
      rw [if_pos (by omega)] at hrep2
      cases hlp : rx_loop env lr
          (rx_release lr r.kring.ring.cur r.kring.ring.reserved r.kring.ring.avail).2 fuel
          r.kring.nr_hwcur (rx_nic_start env lr r.kring.ring.reserved (rx_harvest env lr r)) 0
          (rx_clamp lr r.kring.ring.reserved (rx_harvest env lr r)) with
      | none => simp [hlp] at hrep2
      | some x =>
        obtain ⟨bad, n, s2⟩ := x
        cases bad with
        | true => simp [hlp] at hrep2
        | false =>
          exact rx_loop_unreach env lr _ (by omega) fuel _ _ _ _ n s2 hhw hlp
    by_cases hb : ∃ b,
        b < ((rx_release lr r.kring.ring.cur r.kring.ring.reserved r.kring.ring.avail).2 +
          (lr + 1) - r.kring.nr_hwcur) % (lr + 1) ∧
        (env.PNMB (r.kring.ring.slot ((r.kring.nr_hwcur + b) % (lr + 1))).buf_idx).1 =
          env.netmap_buffer_base
    · obtain ⟨b, hb1, hb2⟩ := hb
      obtain ⟨i0, _, _, _, h4⟩ :=
        rxsync_bad_slot env fuel do_lock r lr b hup hN (by omega) hcur hhw hfuel hk hb1 hb2
      rw [h4] at hret
      simp at hret
    · have hgood : ∀ i,
          i < ((rx_release lr r.kring.ring.cur r.kring.ring.reserved
            (rx_harvest env lr r).kring.ring.avail).2 + (lr + 1) -
              (rx_harvest env lr r).kring.nr_hwcur) % (lr + 1) →
          (env.PNMB ((rx_harvest env lr r).kring.ring.slot
            (((rx_harvest env lr r).kring.nr_hwcur + i) % (lr + 1))).buf_idx).1 ≠
            env.netmap_buffer_base := by
        rw [f7, f10]
        intro i hi hne
        rw [rx_harvest_buf_idx] at hne
        exact hb ⟨i, hi, hne⟩
      rw [rx_replenish_ok env fuel lr _ _ (rx_harvest env lr r) (by rw [f7]; exact hhw)
        (by rw [f10]; exact hk) hfuel (by omega) hgood] at hrep
      simp only [Option.some.injEq, Prod.mk.injEq, true_and] at hrep
      rw [f7, f10] at hrep
      rw [← hrep]
      by_cases hjk : r.kring.nr_hwcur =
          (rx_release lr r.kring.ring.cur r.kring.ring.reserved r.kring.ring.avail).2
      · rw [if_pos hjk]
        simp only [rx_publish, (rx_clamp_fields lr _ _).2.2.2.2.1, hh]
        omega
      · rw [if_neg hjk]
        simp only [rx_commit, (rx_post_n_frame env lr _ _ _ _).2.2.2.2.2.1,
          (rx_clamp_fields lr _ _).2.2.2.2.1, hh]
        rw [to_s32_sub_exact (by omega) (by omega)]
        omega

/-- C1 (amended): on a ring of `N ≤ 2^31` slots with `nr_hwavail ≤ N - 1`, a
call of `mlx4_netmap_txsync` that returns 0 and sends no more slots than were
available (`(cur - nr_hwcur) mod N ≤ nr_hwavail`, hence `0 ≤ nr_hwavail`)
leaves `0 ≤ nr_hwavail ≤ N - 1`; on a ring with `0 ≤ nr_hwavail ≤ N - 1` and
`nr_hwcur ≤ N - 1`, a call of `mlx4_netmap_rxsync` that returns 0, whose
harvest of `m` entries keeps `nr_hwavail + m ≤ N - 1` and which replenishes no
more than `nr_hwavail + m` slots leaves `0 ≤ nr_hwavail ≤ N - 1`. -/
theorem hwavail_range_preserved (env : Env) (fuel : Nat) (do_lock : Bool)
    (t t1 : TxState) (r r1 : RxState) (lt lr : Nat)
    (htN : t.kring.nkr_num_slots = lt + 1) (htlim : lt + 1 ≤ 2147483648)
    (ht1 : t.kring.nr_hwavail ≤ lt) (htfuel : lt ≤ fuel)
    (htd : (((t.kring.ring.cur + (lt + 1) - t.kring.nr_hwcur) % (lt + 1) : Nat) : Int) ≤
      t.kring.nr_hwavail)
    (htret : mlx4_netmap_txsync env fuel do_lock t = some (sync_ret.ok, t1))
    (hrN : r.kring.nkr_num_slots = lr + 1) (hrlim : lr + 1 ≤ 2147483648)
    (hr0 : 0 ≤ r.kring.nr_hwavail) (hr1 : r.kring.nr_hwavail ≤ lr)
    (hrhw : r.kring.nr_hwcur ≤ lr) (hrfuel : lr ≤ fuel)
    (hrm : r.kring.nr_hwavail + (((rx_scan lr r).2.2.1 : Nat) : Int) ≤ lr)
    (hrn : ((((rx_release lr r.kring.ring.cur r.kring.ring.reserved r.kring.ring.avail).2 +
        (lr + 1) - r.kring.nr_hwcur) % (lr + 1) : Nat) : Int) ≤
      r.kring.nr_hwavail + (((rx_scan lr r).2.2.1 : Nat) : Int))
    (hrret : mlx4_netmap_rxsync env fuel do_lock r = some (sync_ret.ok, r1)) :
    (0 ≤ t1.kring.nr_hwavail ∧ t1.kring.nr_hwavail ≤ lt) ∧
    (0 ≤ r1.kring.nr_hwavail ∧ r1.kring.nr_hwavail ≤ lr) :=
  ⟨txsync_hwavail_range env fuel do_lock t t1 lt htN htlim ht1 htfuel htd htret,
   rxsync_hwavail_range env fuel do_lock r r1 lr hrN hrlim hr0 hr1 hrhw hrfuel hrm hrn hrret⟩

theorem hwavail_range_preserved_witness :
    (0 ≤ ex_tx_once.kring.nr_hwavail ∧ ex_tx_once.kring.nr_hwavail ≤ 7) ∧
    (0 ≤ ex_rx_once.kring.nr_hwavail ∧ ex_rx_once.kring.nr_hwavail ≤ 7) :=
  hwavail_range_preserved ex_env 8 false (ex_tx 3 0 7 0 0 (ex_cq_buf 0 id)) ex_tx_once
    ex_rx_rel ex_rx_once 7 7 (by decide) (by decide) (by decide) (by decide) (by decide) rfl
    (by decide) (by decide) (by decide) (by decide) (by decide) (by decide) (by decide)
    (by decide) rfl

/-! ## The reserved count -/

/-- Whatever the replenish half returns, `ring->reserved` is what the clamp
left in it. -/
theorem rx_replenish_reserved (env : Env) (fuel lim k0 resvd0 : Nat) (s r1 : RxState)
    (ret : sync_ret) (h : rx_replenish env fuel lim k0 resvd0 s = some (ret, r1)) :
    r1.kring.ring.reserved = (rx_clamp lim resvd0 s).kring.ring.reserved := by
  unfold rx_replenish at h
  by_cases hjk : s.kring.nr_hwcur = (rx_release lim k0 resvd0 s.kring.ring.avail).2
  · simp only [ne_eq, hjk, not_true_eq_false, if_false, Option.some.injEq, Prod.mk.injEq] at h
    rw [← h.2]
    simp [rx_publish]
  · simp only [ne_eq, hjk, not_false_eq_true, if_true] at h
    cases hl : rx_loop env lim (rx_release lim k0 resvd0 s.kring.ring.avail).2 fuel
        s.kring.nr_hwcur (rx_nic_start env lim resvd0 s) 0 (rx_clamp lim resvd0 s) with
    | none => simp [hl] at h
    | some r =>
      obtain ⟨bad, n, s2⟩ := r
      obtain ⟨m, hm⟩ := rx_loop_shape env lim _ fuel _ _ _ _ _ hl
      simp only at hm
      simp only [hl] at h
      have p10 := (rx_post_n_frame env lim m s.kring.nr_hwcur (rx_nic_start env lim resvd0 s)
        (rx_clamp lim resvd0 s)).2.2.2.2.2.2.2.2.2.1
      cases bad with
      | true =>
        simp only [if_true, Option.some.injEq, Prod.mk.injEq] at h
        rw [← h.2, hm, p10]
      | false =>
        simp only [Bool.false_eq_true, if_false, Option.some.injEq, Prod.mk.injEq] at h
        rw [← h.2, hm]
        simp [rx_commit, p10]

/-- With the port up and the cursor in range, `mlx4_netmap_rxsync` is the
replenish half run on the harvested state. -/
theorem rxsync_reaches_replenish (env : Env) (fuel : Nat) (do_lock : Bool) (r : RxState)
    (lim : Nat) (hup : r.port_up = true)
    (hN : r.kring.nkr_num_slots = lim + 1) (hlim : lim + 1 < 4294967296)
    (hcur : r.kring.ring.cur ≤ lim) :
    mlx4_netmap_rxsync env fuel do_lock r =
      rx_replenish env fuel lim r.kring.ring.cur r.kring.ring.reserved (rx_harvest env lim r) := by
  unfold mlx4_netmap_rxsync
  simp only [rxsync_lim hN hlim, hup, Bool.not_true, Bool.false_eq_true, if_false]
  rw [if_neg (by omega)]

/-- C11, refuted as stated: on a ring of `N = 8` slots with `ring->reserved = 1`
and `ring->avail = 7` the sum is `N`, which does not exceed `N`, and yet the
call stores 0 in `ring->reserved`. -/
theorem reserved_clamp_counterexample :
    ex_rx_edge.kring.ring.reserved + ex_rx_edge.kring.ring.avail =
        ex_rx_edge.kring.nkr_num_slots ∧
      ¬ (ex_rx_edge.kring.ring.reserved + ex_rx_edge.kring.ring.avail >
        ex_rx_edge.kring.nkr_num_slots) ∧
      0 < ex_rx_edge.kring.ring.reserved ∧
      (mlx4_netmap_rxsync ex_env 8 false ex_rx_edge).map
          (fun p => (p.1, p.2.kring.ring.reserved)) = some (sync_ret.ok, 0) := by
  refine ⟨by decide, by decide, by decide, rfl⟩

/-- C11, amended: for an rxsync call with the port up, `ring->cur` in range,
`ring->reserved > 0` and a sum `ring->reserved + ring->avail` that fits 32 bits,
the reserved count is set to zero, in the ring and for the rest of the call so
that the release boundary is `ring->cur`, exactly when that sum is at least
`N`; otherwise it is left unchanged and the boundary is
`(cur - reserved) mod N`. In both cases the boundary lies in `[0, N-1]` and the
result of the call is that of the replenish half, which returns 0 when
`nr_hwcur` is in range and every slot from it to the boundary has a buffer. -/
theorem rxsync_reserved_clamp (env : Env) (fuel : Nat) (do_lock : Bool) (r : RxState)
    (lim : Nat) (hup : r.port_up = true)
    (hN : r.kring.nkr_num_slots = lim + 1) (hlim : lim + 1 < 4294967296)
    (hcur : r.kring.ring.cur ≤ lim) (hres : 0 < r.kring.ring.reserved)
    (hsum : r.kring.ring.reserved + r.kring.ring.avail < 4294967296) :
    (r.kring.ring.reserved + r.kring.ring.avail ≥ lim + 1 →
      rx_release lim r.kring.ring.cur r.kring.ring.reserved r.kring.ring.avail =
        (0, r.kring.ring.cur) ∧
      ∀ ret r1, mlx4_netmap_rxsync env fuel do_lock r = some (ret, r1) →
        r1.kring.ring.reserved = 0) ∧
    (r.kring.ring.reserved + r.kring.ring.avail < lim + 1 →
      rx_release lim r.kring.ring.cur r.kring.ring.reserved r.kring.ring.avail =
        (r.kring.ring.reserved,
          (r.kring.ring.cur + (lim + 1) - r.kring.ring.reserved) % (lim + 1)) ∧
      ∀ ret r1, mlx4_netmap_rxsync env fuel do_lock r = some (ret, r1) →
        r1.kring.ring.reserved = r.kring.ring.reserved) ∧
    (rx_release lim r.kring.ring.cur r.kring.ring.reserved r.kring.ring.avail).2 ≤ lim ∧
    mlx4_netmap_rxsync env fuel do_lock r =
      rx_replenish env fuel lim r.kring.ring.cur r.kring.ring.reserved (rx_harvest env lim r) ∧
    (r.kring.nr_hwcur ≤ lim → lim ≤ fuel →
      (∀ i,
        i < ((rx_release lim r.kring.ring.cur r.kring.ring.reserved r.kring.ring.avail).2 +
          (lim + 1) - r.kring.nr_hwcur) % (lim + 1) →
        (env.PNMB (r.kring.ring.slot ((r.kring.nr_hwcur + i) % (lim + 1))).buf_idx).1 ≠
          env.netmap_buffer_base) →
      ∃ r1, mlx4_netmap_rxsync env fuel do_lock r = some (sync_ret.ok, r1)) := by
  obtain ⟨_, _, _, _, _, _, f7, _, _, f10, f11, _⟩ := rx_harvest_fields env lim r
  have hreach := rxsync_reaches_replenish env fuel do_lock r lim hup hN hlim hcur
  have hcl := rx_clamp_reserved lim r.kring.ring.cur (rx_harvest env lim r)
  rw [f11, f10] at hcl
  have hu : u32 (lim + 1) = lim + 1 := u32_of_lt hlim
  have hs : u32 (r.kring.ring.reserved + r.kring.ring.avail) =
      r.kring.ring.reserved + r.kring.ring.avail := u32_of_lt hsum
  have hclamp : r.kring.ring.reserved + r.kring.ring.avail ≥ lim + 1 →
      rx_release lim r.kring.ring.cur r.kring.ring.reserved r.kring.ring.avail =
        (0, r.kring.ring.cur) := by
    intro hge
    unfold rx_release
    rw [if_pos hres]
    simp only [hu, hs]
    rw [if_pos hge]
    simp
  have hkeep : r.kring.ring.reserved + r.kring.ring.avail < lim + 1 →
      rx_release lim r.kring.ring.cur r.kring.ring.reserved r.kring.ring.avail =
        (r.kring.ring.reserved,
          (r.kring.ring.cur + (lim + 1) - r.kring.ring.reserved) % (lim + 1)) := by
    intro hlt
    have hd := dist_ring (N := lim + 1) (j := r.kring.ring.reserved) (k := r.kring.ring.cur)
      (by omega) (by omega)
    unfold rx_release
    rw [if_pos hres]
    simp only [hu, hs]
    rw [if_neg (by omega), hd]
    by_cases hge : r.kring.ring.cur ≥ r.kring.ring.reserved
    · rw [if_pos hge, if_pos hge]
    · rw [if_neg hge, if_neg hge]
      have e2 : sub32 (u32 (r.kring.ring.cur + lim + 1)) r.kring.ring.reserved =
          r.kring.ring.cur + (lim + 1) - r.kring.ring.reserved := by
        unfold sub32 u32; omega
      rw [e2]
  have hrange :
      (rx_release lim r.kring.ring.cur r.kring.ring.reserved r.kring.ring.avail).2 ≤ lim := by
    by_cases hge : r.kring.ring.reserved + r.kring.ring.avail ≥ lim + 1
    · rw [hclamp hge]
      exact hcur
    · rw [hkeep (by omega)]
      exact Nat.le_of_lt_succ (Nat.mod_lt _ (by omega))
  refine ⟨fun hge => ?_, fun hlt => ?_, hrange, hreach, fun hhw hfuel hgood => ?_⟩
  · refine ⟨hclamp hge, fun ret r1 h => ?_⟩
    rw [hreach] at h
    rw [rx_replenish_reserved env fuel lim _ _ _ _ _ h, hcl, hclamp hge]
  · refine ⟨hkeep hlt, fun ret r1 h => ?_⟩
    rw [hreach] at h
    rw [rx_replenish_reserved env fuel lim _ _ _ _ _ h, hcl, hkeep hlt]
  · rw [hreach]
    exact ⟨_, rx_replenish_ok env fuel lim r.kring.ring.cur r.kring.ring.reserved
      (rx_harvest env lim r) (by rw [f7]; exact hhw) (by rw [f10]; exact hrange) hfuel
      (by omega)
      (by rw [f10, f7]; intro i hi; rw [rx_harvest_buf_idx]; exact hgood i hi)⟩

/-- Instances of the reserved handling on a ring of 8 slots: with
`ring->reserved = 1` and `ring->avail = 7` (sum 8) the count is clamped, the
boundary is `ring->cur = 3` and the call returns 0 with `ring->reserved = 0`;
with `ring->reserved = 2`, `ring->avail = 3` and `ring->cur = 3` the count is
kept, the boundary is 1 and the call returns 0. -/
theorem rxsync_reserved_clamp_witness :
    (rx_release 7 ex_rx_edge.kring.ring.cur ex_rx_edge.kring.ring.reserved
          ex_rx_edge.kring.ring.avail = (0, 3) ∧
      (∀ ret r1, mlx4_netmap_rxsync ex_env 8 false ex_rx_edge = some (ret, r1) →
        r1.kring.ring.reserved = 0) ∧
      ∃ r1, mlx4_netmap_rxsync ex_env 8 false ex_rx_edge = some (sync_ret.ok, r1)) ∧
    (rx_release 7 ex_rx_keep.kring.ring.cur ex_rx_keep.kring.ring.reserved
          ex_rx_keep.kring.ring.avail = (2, 1) ∧
      (∀ ret r1, mlx4_netmap_rxsync ex_env 8 false ex_rx_keep = some (ret, r1) →
        r1.kring.ring.reserved = 2) ∧
      ∃ r1, mlx4_netmap_rxsync ex_env 8 false ex_rx_keep = some (sync_ret.ok, r1)) :=
  have he := rxsync_reserved_clamp ex_env 8 false ex_rx_edge 7 (by decide) (by decide)
    (by decide) (by decide) (by decide) (by decide)
  have hk := rxsync_reserved_clamp ex_env 8 false ex_rx_keep 7 (by decide) (by decide)
    (by decide) (by decide) (by decide) (by decide)
  ⟨⟨(he.1 (by decide)).1, (he.1 (by decide)).2,
      he.2.2.2.2 (by decide) (by decide) (by decide)⟩,
    ⟨(hk.2.1 (by decide)).1, (hk.2.1 (by decide)).2,
      hk.2.2.2.2 (by decide) (by decide) (by decide)⟩⟩

/-! ## The cursor check of rxsync -/

/-- C12, refuted as stated: with the port down, a call whose `ring->cur` is 8
on a ring of 8 slots returns 0, not the reinitialisation fault. -/
theorem rxsync_cursor_counterexample :
    ex_rx_down.kring.nkr_num_slots = 8 ∧ ex_rx_down.kring.ring.cur = 8 ∧
      mlx4_netmap_rxsync ex_env 8 false ex_rx_down = some (sync_ret.ok, ex_rx_down) := by
  refine ⟨by decide, by decide, rfl⟩

/-- C12, amended: an rxsync call with the port up whose `ring->cur` is not below
`N` returns the result of `netmap_ring_reinit` and hands it the entry state, so
no descriptor, counter or slot has been written; with the port down the call
returns 0 with the state unchanged, whatever the cursor. -/
theorem rxsync_cur_out_of_range (env : Env) (fuel : Nat) (do_lock : Bool) (r : RxState)
    (lim : Nat) (hN : r.kring.nkr_num_slots = lim + 1) (hlim : lim + 1 < 4294967296)
    (hcur : lim + 1 ≤ r.kring.ring.cur) :
    (r.port_up = true →
      mlx4_netmap_rxsync env fuel do_lock r = some (sync_ret.ring_reinit, r)) ∧
    (r.port_up = false → mlx4_netmap_rxsync env fuel do_lock r = some (sync_ret.ok, r)) := by
  refine ⟨fun hup => ?_, fun hup => ?_⟩
  · unfold mlx4_netmap_rxsync
    simp only [rxsync_lim hN hlim, hup, Bool.not_true, Bool.false_eq_true, if_false]
    rw [if_pos (by omega)]
  · unfold mlx4_netmap_rxsync
    simp [hup]

/-- Instance of the cursor check: port up, `ring->cur = 8` on a ring of 8
slots. -/
theorem rxsync_cur_out_of_range_witness :
    mlx4_netmap_rxsync ex_env 0 false ex_rx_cheat = some (sync_ret.ring_reinit, ex_rx_cheat) :=
  (rxsync_cur_out_of_range ex_env 0 false ex_rx_cheat 7 (by decide) (by decide)
    (by decide)).1 (by decide)

/-! ## The overflow check of txsync -/

/-- C13: when the transmit loop of a txsync call has run to the harvest and
left the state `sm`, with `nr_hwavail` a valid `int` not above `N - 1`, and the
count `n` of newly freed slots makes `nr_hwavail + n` exceed `N - 1`, the
reclaim sets `error` and the call returns the result of `netmap_ring_reinit`. -/
theorem txsync_overflow_fault (env : Env) (fuel : Nat) (do_lock : Bool) (s sm : TxState)
    (lim : Nat) (hN : s.kring.nkr_num_slots = lim + 1) (hlim : lim + 1 < 4294967296)
    (hcur : s.kring.ring.cur ≤ lim) (hhw : s.kring.nr_hwcur ≤ lim)
    (hsend : tx_send env fuel lim s.kring.ring.cur s = some (0, sm))
    (hmask : sm.txr.size_mask < 2147483648)
    (hav : is_int sm.kring.nr_hwavail) (hle : sm.kring.nr_hwavail ≤ (lim : Int))
    (hover : sm.kring.nr_hwavail + (tx_freed lim sm : Int) > (lim : Int)) :
    (tx_reclaim lim sm).1 = EINVAL ∧
    mlx4_netmap_txsync env fuel do_lock s =
      some (sync_ret.ring_reinit, (tx_reclaim lim sm).2) := by
  have hn : tx_freed lim sm < 2147483648 := by
    unfold tx_freed
    exact Nat.lt_of_le_of_lt Nat.and_le_right hmask
  have hn0 : tx_freed lim sm ≠ 0 := by omega
  have hgt : to_u32 (to_s32 (to_u32 sm.kring.nr_hwavail + tx_freed lim sm)) > lim := by
    obtain ⟨h1, h2⟩ := hav
    unfold to_u32 to_s32
    split <;> omega
  have herr : (tx_reclaim lim sm).1 = EINVAL := by
    rw [(tx_reclaim_fields lim sm).1, if_pos ⟨hn0, hgt⟩]
  refine ⟨herr, ?_⟩
  unfold mlx4_netmap_txsync
  simp only [txsync_lim hN hlim]
  rw [if_neg (by omega), if_neg (by omega)]
  simp only [hsend, herr]
  simp [EINVAL]

/-- Instance of the overflow check: ring of 8 slots, `nr_hwavail = 7`, nothing
to send, two completions pending. -/
theorem txsync_overflow_fault_witness :
    (tx_reclaim 7 ex_tx_flood).1 = EINVAL ∧
    mlx4_netmap_txsync ex_env 8 false ex_tx_flood =
      some (sync_ret.ring_reinit, (tx_reclaim 7 ex_tx_flood).2) :=
  txsync_overflow_fault ex_env 8 false ex_tx_flood ex_tx_flood 7 (by decide) (by decide)
    (by decide) (by decide) rfl (by decide) ⟨by decide, by decide⟩ (by decide) (by decide)

/-! ## The descriptors written by the transmit loop -/

theorem clear_bits_testBit (x m b : Nat) :
    (clear_bits x m).testBit b = (x.testBit b && !m.testBit b) := by
  unfold clear_bits
  rw [Nat.testBit_xor, Nat.testBit_and]
  cases x.testBit b <;> cases m.testBit b <;> rfl

/-- The flag update of the transmit loop clears the bits of `NS_REPORT` and of
`NS_BUF_CHANGED` and keeps every other bit. -/
theorem tx_slot_flags_testBit (env : Env) (f b : Nat) :
    (tx_slot_flags env f).testBit b =
      (f.testBit b && !env.NS_REPORT.testBit b && !env.NS_BUF_CHANGED.testBit b) := by
  unfold tx_slot_flags
  simp only
  split
  · rw [clear_bits_testBit, clear_bits_testBit]
  · rename_i h
    have h0 : clear_bits f env.NS_REPORT &&& env.NS_BUF_CHANGED = 0 := by
      simpa using h
    have hb : ((clear_bits f env.NS_REPORT) &&& env.NS_BUF_CHANGED).testBit b = false := by
      rw [h0]; simp
    rw [Nat.testBit_and] at hb
    rw [clear_bits_testBit] at hb ⊢
    cases h1 : f.testBit b <;> cases h2 : env.NS_REPORT.testBit b <;>
      cases h3 : env.NS_BUF_CHANGED.testBit b <;> simp_all

/-- The descriptor written by the `i`-th iteration of the transmit loop, when
no later iteration of the same loop writes the same descriptor. -/
theorem tx_post_n_buf_val (env : Env) (lim : Nat) : ∀ (d j : Nat) (s : TxState) (i : Nat),
    s.txr.prod < 4294967296 → i < d →
    (∀ i2, i < i2 → i2 < d →
      u32 (s.txr.prod + i2) &&& s.txr.size_mask ≠ u32 (s.txr.prod + i) &&& s.txr.size_mask) →
    (tx_post_n env lim d j s).txr.buf (u32 (s.txr.prod + i) &&& s.txr.size_mask) =
      tx_fill env s.mr_key s.txr.size (u32 (s.txr.prod + i))
        (env.PNMB (s.kring.ring.slot ((nm_next lim)^[i] j)).buf_idx).1
        (env.PNMB (s.kring.ring.slot ((nm_next lim)^[i] j)).buf_idx).2
        (s.kring.ring.slot ((nm_next lim)^[i] j)).len := by
  intro d
  induction d with
  | zero => intro j s i _ hi; omega
  | succ d ih =>
    intro j s i hp hi hlast
    simp only [tx_post_n]
    have hp1 : (tx_post env j s).txr.prod = u32 (s.txr.prod + 1) := by simp [tx_post]
    have hm1 : (tx_post env j s).txr.size_mask = s.txr.size_mask := by simp [tx_post]
    cases i with
    | zero =>
      simp only [Function.iterate_zero, id_eq, Nat.add_zero, u32_of_lt hp]
      rw [tx_post_n_buf_frame env lim d _ _ _ (by rw [hp1]; exact u32_lt _) (fun i2 hi2 => by
        have h := hlast (i2 + 1) (by omega) (by omega)
        rw [hp1, hm1, u32_add_u32, Nat.add_assoc, Nat.add_comm 1 i2]
        simp only [Nat.add_zero, u32_of_lt hp] at h
        exact fun e => h e.symm)]
      simp [tx_post, store]
    | succ i =>
      have h := ih (nm_next lim j) (tx_post env j s) i (by rw [hp1]; exact u32_lt _) (by omega)
        (fun i2 h1 h2 => by
          have h := hlast (i2 + 1) (by omega) (by omega)
          rw [hp1, hm1, u32_add_u32, u32_add_u32, Nat.add_assoc, Nat.add_comm 1 i2,
            Nat.add_assoc, Nat.add_comm 1 i]
          exact h)
      rw [hp1, hm1, u32_add_u32, Nat.add_assoc, Nat.add_comm 1 i] at h
      rw [Function.iterate_succ_apply, h, (tx_post_slot_static env j s _).1,
        (tx_post_slot_static env j s _).2]
      simp [tx_post]

/-- A slot that the transmit loop does not visit keeps its entry value. -/
theorem tx_post_n_slot_frame (env : Env) (lim : Nat) : ∀ (d j : Nat) (s : TxState) (x : Nat),
    (∀ i, i < d → x ≠ (nm_next lim)^[i] j) →
    (tx_post_n env lim d j s).kring.ring.slot x = s.kring.ring.slot x := by
  intro d
  induction d with
  | zero => intro j s x _; simp [tx_post_n]
  | succ d ih =>
    intro j s x hx
    simp only [tx_post_n]
    rw [ih (nm_next lim j) (tx_post env j s) x (fun i hi => by
      have h := hx (i + 1) (by omega)
      simpa only [Function.iterate_succ_apply] using h)]
    have h0 := hx 0 (by omega)
    simp only [Function.iterate_zero, id_eq] at h0
    simp [tx_post, store, h0]

/-- The slot visited by the `i`-th iteration of the transmit loop, when the
loop visits every slot at most once: only its flags have changed. -/
theorem tx_post_n_slot_val (env : Env) (lim : Nat) : ∀ (d j : Nat) (s : TxState) (i : Nat),
    i < d →
    (∀ a b, a < b → b < d → (nm_next lim)^[b] j ≠ (nm_next lim)^[a] j) →
    (tx_post_n env lim d j s).kring.ring.slot ((nm_next lim)^[i] j) =
      { s.kring.ring.slot ((nm_next lim)^[i] j) with
        flags := tx_slot_flags env (s.kring.ring.slot ((nm_next lim)^[i] j)).flags } := by
  intro d
  induction d with
  | zero => intro j s i hi; omega
  | succ d ih =>
    intro j s i hi hinj
    simp only [tx_post_n]
    cases i with
    | zero =>
      simp only [Function.iterate_zero, id_eq]
      rw [tx_post_n_slot_frame env lim d _ _ j (fun i2 hi2 => by
        have h := hinj 0 (i2 + 1) (by omega) (by omega)
        simp only [Function.iterate_zero, id_eq, Function.iterate_succ_apply] at h
        exact fun e => h e.symm)]
      simp [tx_post, store]
    | succ i =>
      have h := ih (nm_next lim j) (tx_post env j s) i (by omega)
        (fun a b h1 h2 => by
          have h := hinj (a + 1) (b + 1) (by omega) (by omega)
          simpa only [Function.iterate_succ_apply] using h)
      have hne := hinj 0 (i + 1) (by omega) (by omega)
      simp only [Function.iterate_zero, id_eq, Function.iterate_succ_apply] at hne
      rw [Function.iterate_succ_apply, h]
      simp [tx_post, store, hne]

/-- A call of `mlx4_netmap_txsync` whose cursors are in range and whose queued
slots all pass the check returns, and the descriptors and slots it leaves are
those left by the transmit loop. -/
theorem txsync_drained (env : Env) (fuel : Nat) (do_lock : Bool) (t : TxState) (lim : Nat)
    (hN : t.kring.nkr_num_slots = lim + 1) (hlim : lim + 1 < 4294967296)
    (hcur : t.kring.ring.cur ≤ lim) (hhw : t.kring.nr_hwcur ≤ lim) (hfuel : lim ≤ fuel)
    (hgood : ∀ i, i < (t.kring.ring.cur + (lim + 1) - t.kring.nr_hwcur) % (lim + 1) →
      tx_slot_bad env (t.kring.ring.slot ((t.kring.nr_hwcur + i) % (lim + 1))) = false) :
    ∃ ret t1, mlx4_netmap_txsync env fuel do_lock t = some (ret, t1) ∧
      t1.txr.buf = (tx_post_n env lim
        ((t.kring.ring.cur + (lim + 1) - t.kring.nr_hwcur) % (lim + 1))
        t.kring.nr_hwcur t).txr.buf ∧
      t1.kring.ring.slot = (tx_post_n env lim
        ((t.kring.ring.cur + (lim + 1) - t.kring.nr_hwcur) % (lim + 1))
        t.kring.nr_hwcur t).kring.ring.slot := by
  have hsend := tx_send_ok env fuel lim t.kring.ring.cur t hhw hcur hfuel (by omega) hgood
  have hsm : ∃ sm, tx_send env fuel lim t.kring.ring.cur t = some (0, sm) ∧
      sm.txr.buf = (tx_post_n env lim
        ((t.kring.ring.cur + (lim + 1) - t.kring.nr_hwcur) % (lim + 1))
        t.kring.nr_hwcur t).txr.buf ∧
      sm.kring.ring.slot = (tx_post_n env lim
        ((t.kring.ring.cur + (lim + 1) - t.kring.nr_hwcur) % (lim + 1))
        t.kring.nr_hwcur t).kring.ring.slot := by
    refine ⟨_, hsend, ?_, ?_⟩
    · by_cases hjk : t.kring.nr_hwcur = t.kring.ring.cur
      · rw [if_pos hjk, ← hjk, Nat.add_sub_cancel_left, Nat.mod_self]; rfl
      · rw [if_neg hjk]; rfl
    · by_cases hjk : t.kring.nr_hwcur = t.kring.ring.cur
      · rw [if_pos hjk, ← hjk, Nat.add_sub_cancel_left, Nat.mod_self]; rfl
      · rw [if_neg hjk]; rfl
  obtain ⟨sm, hs, hb, hsl⟩ := hsm
  obtain ⟨_, _, _, _, _, f6, _, f8, _⟩ := tx_reclaim_fields lim sm
  unfold mlx4_netmap_txsync
  simp only [txsync_lim hN hlim]
  rw [if_neg (by omega), if_neg (by omega)]
  simp only [hs, ne_eq, not_true_eq_false, if_false]
  by_cases he : (tx_reclaim lim sm).1 = 0
  · exact ⟨sync_ret.ok, (tx_reclaim lim sm).2, by simp [he], by rw [f6, hb], by rw [f8, hsl]⟩
  · exact ⟨sync_ret.ring_reinit, (tx_reclaim lim sm).2, by simp [he], by rw [f6, hb],
      by rw [f8, hsl]⟩

/-- C19: a txsync call whose cursors are in range and whose `d` queued slots
all pass the check returns, and for each `i < d`, with `p = txr->prod` at
entry, the descriptor at `(p + i) & size_mask` is the one filled from host slot
`(nr_hwcur + i) mod N`: data address the physical address of that slot, byte
count its length; the slot keeps its buffer and length and its flags lose the
bits of `NS_REPORT` and `NS_BUF_CHANGED` and no other; every other descriptor
and every other slot is as at entry. The device ring has `2^k >= N`
descriptors. -/
theorem txsync_drain_descriptors (env : Env) (fuel : Nat) (do_lock : Bool) (t : TxState)
    (lim k : Nat) (hN : t.kring.nkr_num_slots = lim + 1) (hlim : lim + 1 < 4294967296)
    (hprod : t.txr.prod < 4294967296) (hmask : t.txr.size_mask = 2 ^ k - 1) (hk : k ≤ 32)
    (hsz : lim + 1 ≤ 2 ^ k)
    (hcur : t.kring.ring.cur ≤ lim) (hhw : t.kring.nr_hwcur ≤ lim) (hfuel : lim ≤ fuel)
    (hgood : ∀ i, i < (t.kring.ring.cur + (lim + 1) - t.kring.nr_hwcur) % (lim + 1) →
      tx_slot_bad env (t.kring.ring.slot ((t.kring.nr_hwcur + i) % (lim + 1))) = false) :
    ∃ ret t1, mlx4_netmap_txsync env fuel do_lock t = some (ret, t1) ∧
      (∀ i, i < (t.kring.ring.cur + (lim + 1) - t.kring.nr_hwcur) % (lim + 1) →
        t1.txr.buf (u32 (t.txr.prod + i) &&& t.txr.size_mask) =
          tx_fill env t.mr_key t.txr.size (u32 (t.txr.prod + i))
            (env.PNMB (t.kring.ring.slot ((t.kring.nr_hwcur + i) % (lim + 1))).buf_idx).1
            (env.PNMB (t.kring.ring.slot ((t.kring.nr_hwcur + i) % (lim + 1))).buf_idx).2
            (t.kring.ring.slot ((t.kring.nr_hwcur + i) % (lim + 1))).len ∧
        (t1.txr.buf (u32 (t.txr.prod + i) &&& t.txr.size_mask)).data.addr =
          (env.PNMB (t.kring.ring.slot ((t.kring.nr_hwcur + i) % (lim + 1))).buf_idx).2 ∧
        (t1.txr.buf (u32 (t.txr.prod + i) &&& t.txr.size_mask)).data.byte_count =
          (t.kring.ring.slot ((t.kring.nr_hwcur + i) % (lim + 1))).len ∧
        t1.kring.ring.slot ((t.kring.nr_hwcur + i) % (lim + 1)) =
          { t.kring.ring.slot ((t.kring.nr_hwcur + i) % (lim + 1)) with
            flags := tx_slot_flags env
              (t.kring.ring.slot ((t.kring.nr_hwcur + i) % (lim + 1))).flags } ∧
        ∀ b, (t1.kring.ring.slot ((t.kring.nr_hwcur + i) % (lim + 1))).flags.testBit b =
          ((t.kring.ring.slot ((t.kring.nr_hwcur + i) % (lim + 1))).flags.testBit b &&
            !env.NS_REPORT.testBit b && !env.NS_BUF_CHANGED.testBit b)) ∧
      (∀ l, (∀ i, i < (t.kring.ring.cur + (lim + 1) - t.kring.nr_hwcur) % (lim + 1) →
          l ≠ u32 (t.txr.prod + i) &&& t.txr.size_mask) →
        t1.txr.buf l = t.txr.buf l) ∧
      (∀ x, (∀ i, i < (t.kring.ring.cur + (lim + 1) - t.kring.nr_hwcur) % (lim + 1) →
          x ≠ (t.kring.nr_hwcur + i) % (lim + 1)) →
        t1.kring.ring.slot x = t.kring.ring.slot x) := by
  obtain ⟨ret, t1, hret, hb, hsl⟩ :=
    txsync_drained env fuel do_lock t lim hN hlim hcur hhw hfuel hgood
  have hd : (t.kring.ring.cur + (lim + 1) - t.kring.nr_hwcur) % (lim + 1) < lim + 1 :=
    Nat.mod_lt _ (by omega)
  refine ⟨ret, t1, hret, fun i hi => ?_, fun l hl => ?_, fun x hx => ?_⟩
  · have hv := tx_post_n_buf_val env lim _ t.kring.nr_hwcur t i hprod hi
      (fun i2 h1 h2 => by
        rw [hmask]
        exact desc_distinct hk t.txr.prod h1 (by omega))
    have hs := tx_post_n_slot_val env lim _ t.kring.nr_hwcur t i hi
      (fun a b h1 h2 => by
        rw [iter_next hhw, iter_next hhw]
        exact ring_no_dup h1 (by omega))
    rw [iter_next hhw] at hv hs
    rw [hb, hsl, hv, hs]
    refine ⟨rfl, rfl, rfl, rfl, fun b => ?_⟩
    exact tx_slot_flags_testBit env _ b
  · rw [hb]
    exact tx_post_n_buf_frame env lim _ _ t l hprod hl
  · rw [hsl]
    exact tx_post_n_slot_frame env lim _ _ t x (fun i hi => by
      rw [iter_next hhw]
      exact hx i hi)

/-- Instance of the drain on a ring of 8 slots: host slots 0, 1, 2 go to the
descriptors 5, 6, 7. -/
theorem txsync_drain_descriptors_witness :
    ∃ ret t1, mlx4_netmap_txsync ex_env 8 false ex_tx_three = some (ret, t1) ∧
      (t1.txr.buf 5).data.addr = 1050624 ∧ (t1.txr.buf 5).data.byte_count = 60 ∧
      (t1.txr.buf 7).data.addr = 1054720 ∧
      t1.txr.buf 0 = ex_tx_three.txr.buf 0 := by
  obtain ⟨ret, t1, h, hv, hf, _⟩ :=
    txsync_drain_descriptors ex_env 8 false ex_tx_three 7 3 (by decide) (by decide) (by decide)
      (by decide) (by decide) (by decide) (by decide) (by decide) (by decide) (by decide)
  exact ⟨ret, t1, h, (hv 0 (by decide)).2.1, (hv 0 (by decide)).2.2.1, (hv 2 (by decide)).2.1,
    hf 0 (by decide)⟩

/-! ## The ownership bit of a transmit descriptor -/

/-- For a ring of `2^k` descriptors the test `prod & size` is non-zero exactly
when the wrap count `prod / size` is odd. -/
theorem own_bit_iff_parity (k p : Nat) : p &&& 2 ^ k ≠ 0 ↔ wrap_parity (2 ^ k) p = 1 := by
  unfold wrap_parity
  rw [Nat.and_one_is_mod, Ne, and_two_pow_eq_zero]
  omega

/-- One turn of the ring later the producer counter selects the same
descriptor. -/
theorem same_desc_next_wrap {k : Nat} (hk : k ≤ 32) (q : Nat) :
    u32 (q + 2 ^ k) &&& (2 ^ k - 1) = q &&& (2 ^ k - 1) := by
  have hM := two_pow_dvd_u32 hk
  simp only [Nat.and_pow_two_sub_one_eq_mod, u32]
  rw [Nat.mod_mod_of_dvd _ hM, Nat.add_mod_right]

/-- C20: every descriptor written by the transmit loop of a txsync call at
producer counter `p` has the owner/opcode word `MLX4_OPCODE_SEND`, or-ed with
`MLX4_EN_BIT_DESC_OWN` exactly when `p & size` is non-zero, which for a ring of
`size = 2^k` descriptors is exactly when the wrap count `p / size` is odd. The
counter one turn later selects the same descriptor with the opposite test, and
two counters of the same turn have the same test. -/
theorem txsync_owner_parity (env : Env) (fuel : Nat) (do_lock : Bool) (t : TxState)
    (lim k : Nat) (hN : t.kring.nkr_num_slots = lim + 1) (hlim : lim + 1 < 4294967296)
    (hprod : t.txr.prod < 4294967296) (hsize : t.txr.size = 2 ^ k)
    (hmask : t.txr.size_mask = 2 ^ k - 1) (hk : k ≤ 31) (hsz : lim + 1 ≤ 2 ^ k)
    (hcur : t.kring.ring.cur ≤ lim) (hhw : t.kring.nr_hwcur ≤ lim) (hfuel : lim ≤ fuel)
    (hgood : ∀ i, i < (t.kring.ring.cur + (lim + 1) - t.kring.nr_hwcur) % (lim + 1) →
      tx_slot_bad env (t.kring.ring.slot ((t.kring.nr_hwcur + i) % (lim + 1))) = false) :
    ∃ ret t1, mlx4_netmap_txsync env fuel do_lock t = some (ret, t1) ∧
      (∀ i, i < (t.kring.ring.cur + (lim + 1) - t.kring.nr_hwcur) % (lim + 1) →
        (t1.txr.buf (u32 (t.txr.prod + i) &&& t.txr.size_mask)).ctrl.owner_opcode =
          (env.MLX4_OPCODE_SEND |||
            (if u32 (t.txr.prod + i) &&& t.txr.size ≠ 0 then env.MLX4_EN_BIT_DESC_OWN else 0)) ∧
        (u32 (t.txr.prod + i) &&& t.txr.size ≠ 0 ↔
          wrap_parity t.txr.size (u32 (t.txr.prod + i)) = 1)) ∧
      (∀ q, q < 4294967296 →
        u32 (q + t.txr.size) &&& t.txr.size_mask = q &&& t.txr.size_mask ∧
        (u32 (q + t.txr.size) &&& t.txr.size ≠ 0 ↔ q &&& t.txr.size = 0)) ∧
      (∀ q r, q / t.txr.size = r / t.txr.size →
        (q &&& t.txr.size ≠ 0 ↔ r &&& t.txr.size ≠ 0)) := by
  obtain ⟨ret, t1, hret, hb, _⟩ :=
    txsync_drained env fuel do_lock t lim hN hlim hcur hhw hfuel hgood
  refine ⟨ret, t1, hret, fun i hi => ?_, fun q hq => ?_, fun q r hqr => ?_⟩
  · have hv := tx_post_n_buf_val env lim _ t.kring.nr_hwcur t i hprod hi
      (fun i2 h1 h2 => by
        rw [hmask]
        have hd : (t.kring.ring.cur + (lim + 1) - t.kring.nr_hwcur) % (lim + 1) < lim + 1 :=
          Nat.mod_lt _ (by omega)
        exact desc_distinct (by omega) t.txr.prod h1 (by omega))
    rw [hb, hv, hsize]
    exact ⟨rfl, own_bit_iff_parity k _⟩
  · rw [hsize, hmask]
    refine ⟨same_desc_next_wrap (by omega) q, ?_⟩
    have hflip := parity_flip hk hq
    have h1 := own_bit_iff_parity k (u32 (q + 2 ^ k))
    have h2 := own_bit_iff_parity k q
    have hb1 : wrap_parity (2 ^ k) (u32 (q + 2 ^ k)) < 2 := by
      unfold wrap_parity; rw [Nat.and_one_is_mod]; omega
    have hb2 : wrap_parity (2 ^ k) q < 2 := by
      unfold wrap_parity; rw [Nat.and_one_is_mod]; omega
    constructor
    · intro h
      by_contra hne
      have e1 := h1.1 h
      have e2 := h2.1 hne
      omega
    · intro h hz
      have e1 : wrap_parity (2 ^ k) (u32 (q + 2 ^ k)) ≠ 1 := fun e => h1.2 e hz
      have e2 : wrap_parity (2 ^ k) q ≠ 1 := fun e => h2.2 e h
      omega
  · rw [hsize] at hqr ⊢
    rw [own_bit_iff_parity, own_bit_iff_parity]
    unfold wrap_parity
    rw [hqr]

/-- Instance of the ownership rule: with `txr->prod = 6` on a ring of 8
descriptors, descriptor 6 is written in turn 0 without the bit and descriptor
0 in turn 1 with it. -/
theorem txsync_owner_parity_witness :
    ∃ ret t1, mlx4_netmap_txsync ex_env 8 false ex_tx_turn = some (ret, t1) ∧
      (t1.txr.buf 6).ctrl.owner_opcode = 10 ∧
      (t1.txr.buf 0).ctrl.owner_opcode = 2147483658 := by
  obtain ⟨ret, t1, h, hv, _, _⟩ :=
    txsync_owner_parity ex_env 8 false ex_tx_turn 7 3 (by decide) (by decide) (by decide)
      (by decide) (by decide) (by decide) (by decide) (by decide) (by decide) (by decide)
      (by decide)
  exact ⟨ret, t1, h, (hv 0 (by decide)).1, (hv 2 (by decide)).1⟩

/-! ## Register and unregister -/

theorem clear_bits_and_self (x m : Nat) : clear_bits x m &&& m = 0 := by
  apply Nat.eq_of_testBit_eq
  intro b
  rw [Nat.testBit_and, clear_bits_testBit]
  cases x.testBit b <;> cases m.testBit b <;> simp

/-- With the adapter present and the interface running, the stamping having
finished, the routine is one or two passes over the mode switch. -/
theorem reg_running_shape (env : RegEnv) (fuel : Nat) (onoff : Int) (s su : RegState)
    (hna : s.na_present = true) (hrun : s.running = true)
    (hu : reg_unload env fuel onoff s = some su) :
    mlx4_netmap_reg env fuel onoff s =
      some (if (reg_pass env true onoff su).1 ≠ 0 ∧ onoff ≠ 0 then
          reg_pass env true 0 (reg_pass env true onoff su).2
        else reg_pass env true onoff su) := by
  unfold mlx4_netmap_reg
  simp only [hna, hrun, hu, Bool.not_true, Bool.false_eq_true, if_false, true_and]
  split <;> rfl

/-- With `onoff != 0` the block run on a running interface only calls
`mlx4_en_stop_port`. -/
theorem reg_unload_on (env : RegEnv) (fuel : Nat) (onoff : Int) (s : RegState)
    (hrun : s.running = true) (hon : onoff ≠ 0) :
    reg_unload env fuel onoff s = some { s with stop_calls := s.stop_calls + 1 } := by
  unfold reg_unload
  simp [hrun, hon]

theorem stamp_n_frame (env : RegEnv) : ∀ (d : Nat) (r : tx_ring_raw),
    (stamp_n env d r).prod = r.prod ∧ (stamp_n env d r).size = r.size ∧
    (stamp_n env d r).size_mask = r.size_mask ∧
    (stamp_n env d r).last_nr_txbb = r.last_nr_txbb := by
  intro d
  induction d with
  | zero => intro r; simp [stamp_n]
  | succ d ih =>
    intro r
    simp only [stamp_n]
    obtain ⟨h1, h2, h3, h4⟩ := ih (stamp_step env r)
    rw [h1, h2, h3, h4]
    simp [stamp_step]

theorem stamp_n_cons (env : RegEnv) : ∀ (d : Nat) (r : tx_ring_raw),
    r.cons < 4294967296 → (stamp_n env d r).cons = u32 (r.cons + d) := by
  intro d
  induction d with
  | zero => intro r h; simp [stamp_n, u32_of_lt h]
  | succ d ih =>
    intro r h
    simp only [stamp_n]
    rw [ih (stamp_step env r) (by simp [stamp_step, u32_lt])]
    simp only [stamp_step, u32_add_u32]
    rw [Nat.add_assoc, Nat.add_comm 1 d]

/-- The stamping loop returns once it has as many iterations as the 32-bit
distance from `cons` to `prod`. -/
theorem stamp_loop_ok (env : RegEnv) : ∀ (d fuel : Nat) (r : tx_ring_raw),
    r.cons < 4294967296 → r.prod < 4294967296 → sub32 r.prod r.cons = d → d ≤ fuel →
    stamp_loop env fuel r = some (stamp_n env d r) := by
  intro d
  induction d with
  | zero =>
    intro fuel r hc hp hd _
    have he : r.cons = r.prod := by unfold sub32 at hd; omega
    cases fuel <;> simp [stamp_loop, he, stamp_n]
  | succ d ih =>
    intro fuel r hc hp hd hfuel
    have hne : r.cons ≠ r.prod := by
      intro he
      rw [he, sub32_self] at hd
      omega
    cases fuel with
    | zero => omega
    | succ fuel =>
      simp only [stamp_loop, hne, if_false, stamp_n]
      apply ih fuel (stamp_step env r) (by simp [stamp_step, u32_lt]) (by simpa [stamp_step] using hp)
        _ (by omega)
      simp only [stamp_step]
      unfold sub32 u32 at *
      omega

theorem stamp_n_word_frame (env : RegEnv) : ∀ (d : Nat) (r : tx_ring_raw) (x : Nat),
    r.cons < 4294967296 →
    (∀ i, i < d → x ≠ u16 (u32 (r.cons + i) &&& r.size_mask)) →
    (stamp_n env d r).word0 x = r.word0 x := by
  intro d
  induction d with
  | zero => intro r x _ _; simp [stamp_n]
  | succ d ih =>
    intro r x hc hx
    simp only [stamp_n]
    rw [ih (stamp_step env r) x (by simp [stamp_step, u32_lt]) (fun i hi => by
      have h := hx (i + 1) (by omega)
      simpa [stamp_step, u32_add_u32, Nat.add_assoc, Nat.add_comm 1 i] using h)]
    have h0 := hx 0 (by omega)
    simp only [Nat.add_zero, u32_of_lt hc] at h0
    simp [stamp_step, store, h0]

/-- The word written by the `i`-th iteration of the stamping loop, when no
later iteration writes the same block. -/
theorem stamp_n_word_val (env : RegEnv) : ∀ (d : Nat) (r : tx_ring_raw) (i : Nat),
    r.cons < 4294967296 → i < d →
    (∀ i2, i < i2 → i2 < d →
      u16 (u32 (r.cons + i2) &&& r.size_mask) ≠ u16 (u32 (r.cons + i) &&& r.size_mask)) →
    (stamp_n env d r).word0 (u16 (u32 (r.cons + i) &&& r.size_mask)) =
      stamp_word env (u32 (r.cons + i)) r.size := by
  intro d
  induction d with
  | zero => intro r i _ hi; omega
  | succ d ih =>
    intro r i hc hi hlast
    simp only [stamp_n]
    have hc1 : (stamp_step env r).cons = u32 (r.cons + 1) := by simp [stamp_step]
    have hm1 : (stamp_step env r).size_mask = r.size_mask := by simp [stamp_step]
    have hs1 : (stamp_step env r).size = r.size := by simp [stamp_step]
    cases i with
    | zero =>
      simp only [Nat.add_zero, u32_of_lt hc]
      rw [stamp_n_word_frame env d _ _ (by rw [hc1]; exact u32_lt _) (fun i2 hi2 => by
        have h := hlast (i2 + 1) (by omega) (by omega)
        rw [hc1, hm1, u32_add_u32, Nat.add_assoc, Nat.add_comm 1 i2]
        simp only [Nat.add_zero, u32_of_lt hc] at h
        exact fun e => h e.symm)]
      simp [stamp_step, store]
    | succ i =>
      have h := ih (stamp_step env r) i (by rw [hc1]; exact u32_lt _) (by omega)
        (fun i2 h1 h2 => by
          have h := hlast (i2 + 1) (by omega) (by omega)
          rw [hc1, hm1, u32_add_u32, u32_add_u32, Nat.add_assoc, Nat.add_comm 1 i2,
            Nat.add_assoc, Nat.add_comm 1 i]
          exact h)
      rw [hc1, hm1, hs1, u32_add_u32, Nat.add_assoc, Nat.add_comm 1 i] at h
      exact h

theorem u16_mask {k : Nat} (hk : k ≤ 16) (x : Nat) :
    u16 (x &&& (2 ^ k - 1)) = x &&& (2 ^ k - 1) := by
  have hle : 2 ^ k ≤ 65536 := by
    have h : (65536 : Nat) = 2 ^ 16 := by norm_num
    rw [h]
    exact Nat.pow_le_pow_right (by omega) hk
  have hlt : x % 2 ^ k < 2 ^ k := Nat.mod_lt _ (Nat.two_pow_pos k)
  rw [Nat.and_pow_two_sub_one_eq_mod]
  unfold u16
  omega

/-- The loop over the rings returns when every stamping loop does, and then
each of the `rem` rings from `i0` on holds the result of its own loop. -/
theorem stamp_rings_ok (env : RegEnv) (fuel : Nat) : ∀ (rem i0 : Nat)
    (rings : Nat → tx_ring_raw),
    (∀ x, i0 ≤ x → x < i0 + rem → ∃ r, stamp_ring env fuel (rings x) = some r) →
    ∃ rings1, stamp_rings env fuel rem i0 rings = some rings1 ∧
      (∀ x, i0 ≤ x → x < i0 + rem → stamp_ring env fuel (rings x) = some (rings1 x)) ∧
      (∀ x, ¬ (i0 ≤ x ∧ x < i0 + rem) → rings1 x = rings x) := by
  intro rem
  induction rem with
  | zero =>
    intro i0 rings _
    exact ⟨rings, rfl, fun x h1 h2 => by omega, fun _ _ => rfl⟩
  | succ rem ih =>
    intro i0 rings hall
    obtain ⟨r, hr⟩ := hall i0 (by omega) (by omega)
    have hst : ∀ x, i0 + 1 ≤ x → store rings i0 r x = rings x := by
      intro x hx
      simp [store, show x ≠ i0 by omega]
    obtain ⟨rings1, h1, h2, h3⟩ := ih (i0 + 1) (store rings i0 r) (fun x hx1 hx2 => by
      rw [hst x hx1]
      exact hall x (by omega) (by omega))
    refine ⟨rings1, by simp [stamp_rings, hr, h1], fun x hx1 hx2 => ?_, fun x hx => ?_⟩
    · by_cases he : x = i0
      · subst he
        rw [h3 x (by omega), hr]
        simp [store]
      · have := h2 x (by omega) (by omega)
        rw [hst x (by omega)] at this
        exact this
    · rw [h3 x (by omega)]
      simp [store, show x ≠ i0 by omega]

/-- One ring's stamping returns when `fuel` covers the 32-bit distance from
`cons + last_nr_txbb` to `prod`. -/
theorem stamp_ring_ok (env : RegEnv) (fuel : Nat) (r : tx_ring_raw)
    (hp : r.prod < 4294967296)
    (hfuel : sub32 r.prod (u32 (r.cons + r.last_nr_txbb)) ≤ fuel) :
    stamp_ring env fuel r =
      some (stamp_n env (sub32 r.prod (u32 (r.cons + r.last_nr_txbb)))
        { r with cons := u32 (r.cons + r.last_nr_txbb) }) := by
  unfold stamp_ring
  exact stamp_loop_ok env _ fuel _ (u32_lt _) hp rfl hfuel

/-- The block run on a running interface with `onoff == 0` returns when every
stamping loop has enough fuel, having called `mlx4_en_stop_port` once on the
stamped rings. -/
theorem reg_unload_off (env : RegEnv) (fuel : Nat) (s : RegState)
    (hrun : s.running = true)
    (hfuel : ∀ x, x < s.num_tx_rings → (s.tx_ring x).prod < 4294967296 ∧
      sub32 (s.tx_ring x).prod (u32 ((s.tx_ring x).cons + (s.tx_ring x).last_nr_txbb)) ≤ fuel) :
    ∃ rings, reg_unload env fuel 0 s =
        some { s with tx_ring := rings, stop_calls := s.stop_calls + 1 } ∧
      ∀ x, x < s.num_tx_rings → stamp_ring env fuel (s.tx_ring x) = some (rings x) := by
  obtain ⟨rings, h1, h2, _⟩ := stamp_rings_ok env fuel s.num_tx_rings 0 s.tx_ring
    (fun x _ hx => ⟨_, stamp_ring_ok env fuel _ (hfuel x (by omega)).1 (hfuel x (by omega)).2⟩)
  refine ⟨rings, ?_, fun x hx => h2 x (by omega) (by omega)⟩
  unfold reg_unload
  simp [hrun, h1]

/-- The value returned by a pass that calls `mlx4_en_start_port`. -/
theorem reg_pass_fst (env : RegEnv) (o : Int) (u : RegState) :
    (reg_pass env true o u).1 = env.mlx4_en_start_port u.start_calls := by
  unfold reg_pass reg_switch
  split <;> rfl

/-- On a running interface a call with `onoff != 0` whose first
`mlx4_en_start_port` fails takes the jump to `retry`: it returns the result of
a second call of `mlx4_en_start_port`, made after the switch back to the
operations saved at entry. -/
theorem reg_fallback_shape (env : RegEnv) (fuel : Nat) (onoff : Int) (s : RegState)
    (hna : s.na_present = true) (hrun : s.running = true) (hon : onoff ≠ 0)
    (hfail : env.mlx4_en_start_port s.start_calls ≠ 0) :
    ∃ s1, mlx4_netmap_reg env fuel onoff s =
        some (env.mlx4_en_start_port (s.start_calls + 1), s1) ∧
      s1.start_calls = s.start_calls + 2 ∧ s1.stop_calls = s.stop_calls + 1 ∧
      s1.netdev_ops = s.netdev_ops ∧ s1.if_capenable &&& env.IFCAP_NETMAP = 0 ∧
      s1.nm_ndo = s.nm_ndo := by
  rw [reg_running_shape env fuel onoff s _ hna hrun (reg_unload_on env fuel onoff s hrun hon)]
  rw [if_pos ⟨by rw [reg_pass_fst]; exact hfail, hon⟩]
  refine ⟨(reg_pass env true 0
    (reg_pass env true onoff { s with stop_calls := s.stop_calls + 1 }).2).2,
    ?_, ?_, ?_, ?_, ?_, ?_⟩
  · rw [show reg_pass env true 0
        (reg_pass env true onoff { s with stop_calls := s.stop_calls + 1 }).2 =
        (env.mlx4_en_start_port
          (reg_pass env true onoff { s with stop_calls := s.stop_calls + 1 }).2.start_calls,
          (reg_pass env true 0
            (reg_pass env true onoff { s with stop_calls := s.stop_calls + 1 }).2).2) from
      Prod.ext (reg_pass_fst env 0 _) rfl]
    simp [reg_pass, reg_switch, hon]
  · simp [reg_pass, reg_switch, hon]
  · simp [reg_pass, reg_switch, hon]
  · simp [reg_pass, reg_switch, hon]
  · simp only [reg_pass, reg_switch, hon, ne_eq, not_false_eq_true, if_true,
      not_true_eq_false, if_false]
    exact clear_bits_and_self _ _
  · simp [reg_pass, reg_switch, hon]

/-- C14, a divergence between the code and the claim: on a running interface
in standard mode, a call of `mlx4_netmap_reg` with `onoff != 0` whose first
`mlx4_en_start_port` fails and whose second one succeeds returns 0 although it
has fallen back to standard mode: `IFCAP_NETMAP` is clear and `netdev_ops` is
the address it had at entry, not that of the netmap operations. -/
theorem reg_on_returns_zero_in_standard_mode (env : RegEnv) (fuel : Nat) (onoff : Int)
    (s : RegState) (hna : s.na_present = true) (hrun : s.running = true) (hon : onoff ≠ 0)
    (hstd : s.netdev_ops ≠ s.nm_ndo)
    (hfail : env.mlx4_en_start_port s.start_calls ≠ 0)
    (hok : env.mlx4_en_start_port (s.start_calls + 1) = 0) :
    ∃ s1, mlx4_netmap_reg env fuel onoff s = some (0, s1) ∧
      s1.if_capenable &&& env.IFCAP_NETMAP = 0 ∧ s1.netdev_ops = s.netdev_ops ∧
      s1.netdev_ops ≠ s1.nm_ndo := by
  obtain ⟨s1, h1, _, _, h4, h5, h6⟩ := reg_fallback_shape env fuel onoff s hna hrun hon hfail
  rw [hok] at h1
  exact ⟨s1, h1, h5, h4, by rw [h4, h6]; exact hstd⟩

/-- The failing call: `onoff = 1`, operations at address 100, netmap
operations at 200, first `mlx4_en_start_port` returning -12 and the second
0. -/
theorem reg_on_returns_zero_in_standard_mode_witness :
    ∃ s1, mlx4_netmap_reg ex_reg_env 0 1 ex_reg = some (0, s1) ∧
      s1.if_capenable &&& 1048576 = 0 ∧ s1.netdev_ops = 100 ∧ s1.netdev_ops ≠ s1.nm_ndo :=
  reg_on_returns_zero_in_standard_mode ex_reg_env 0 1 ex_reg (by decide) (by decide)
    (by decide) (by decide) (by decide) (by decide)

/-- C15: on a running interface with the adapter present, a call with
`onoff != 0` whose `mlx4_en_start_port` fails goes once more through the mode
switch with `onoff = 0`, so that `netdev_ops` is the address it had at entry
and `IFCAP_NETMAP` is clear, calls `mlx4_en_start_port` a second and last time
and returns the result of that second call; when the first call succeeds there
is no second one; a call with `onoff == 0` calls `mlx4_en_start_port` exactly
once and returns its result, whatever it is. -/
theorem reg_restart_fallback (env : RegEnv) (fuel : Nat) (onoff : Int) (s : RegState)
    (hna : s.na_present = true) (hrun : s.running = true) :
    (onoff ≠ 0 → env.mlx4_en_start_port s.start_calls ≠ 0 →
      ∃ s1, mlx4_netmap_reg env fuel onoff s =
          some (env.mlx4_en_start_port (s.start_calls + 1), s1) ∧
        s1.start_calls = s.start_calls + 2 ∧ s1.stop_calls = s.stop_calls + 1 ∧
        s1.netdev_ops = s.netdev_ops ∧ s1.if_capenable &&& env.IFCAP_NETMAP = 0) ∧
    (onoff ≠ 0 → env.mlx4_en_start_port s.start_calls = 0 →
      ∃ s1, mlx4_netmap_reg env fuel onoff s = some (0, s1) ∧
        s1.start_calls = s.start_calls + 1 ∧ s1.netdev_ops = s.nm_ndo ∧
        s1.if_capenable = s.if_capenable ||| env.IFCAP_NETMAP) ∧
    (onoff = 0 →
      (∀ x, x < s.num_tx_rings → (s.tx_ring x).prod < 4294967296 ∧
        sub32 (s.tx_ring x).prod (u32 ((s.tx_ring x).cons + (s.tx_ring x).last_nr_txbb)) ≤
          fuel) →
      ∃ s1, mlx4_netmap_reg env fuel onoff s =
          some (env.mlx4_en_start_port s.start_calls, s1) ∧
        s1.start_calls = s.start_calls + 1 ∧ s1.netdev_ops = s.if_transmit ∧
        s1.if_capenable &&& env.IFCAP_NETMAP = 0) := by
  have hfst := reg_pass_fst env
  have hpair : ∀ (o : Int) (u : RegState),
      reg_pass env true o u = (env.mlx4_en_start_port u.start_calls, (reg_pass env true o u).2) :=
    fun o u => Prod.ext (hfst o u) rfl
  refine ⟨fun hon hfail => ?_, fun hon hok => ?_, fun hoff hfuel => ?_⟩
  · obtain ⟨s1, h1, h2, h3, h4, h5, _⟩ :=
      reg_fallback_shape env fuel onoff s hna hrun hon hfail
    exact ⟨s1, h1, h2, h3, h4, h5⟩
  · rw [reg_running_shape env fuel onoff s _ hna hrun (reg_unload_on env fuel onoff s hrun hon)]
    rw [if_neg (by rw [hfst]; simp [hok])]
    refine ⟨(reg_pass env true onoff { s with stop_calls := s.stop_calls + 1 }).2, ?_, ?_, ?_, ?_⟩
    · rw [hpair onoff]
      simp [hok]
    · simp [reg_pass, reg_switch, hon]
    · simp [reg_pass, reg_switch, hon]
    · simp [reg_pass, reg_switch, hon]
  · subst hoff
    obtain ⟨rings, hu, _⟩ := reg_unload_off env fuel s hrun hfuel
    rw [reg_running_shape env fuel 0 s _ hna hrun hu]
    rw [if_neg (by simp)]
    refine ⟨(reg_pass env true 0
      { s with tx_ring := rings, stop_calls := s.stop_calls + 1 }).2, ?_, ?_, ?_, ?_⟩
    · rw [hpair 0]
    · simp [reg_pass, reg_switch]
    · simp [reg_pass, reg_switch]
    · simp only [reg_pass, reg_switch, ne_eq, not_true_eq_false, if_false]
      exact clear_bits_and_self _ _

/-- Instance of the fallback: both calls of `mlx4_en_start_port` fail, the
first with -12 and the second with -5, and -5 is returned after two calls. -/
theorem reg_restart_fallback_witness :
    ∃ s1, mlx4_netmap_reg ex_reg_env_dead 0 1 ex_reg = some (-5, s1) ∧
      s1.start_calls = 2 ∧ s1.stop_calls = 1 ∧ s1.netdev_ops = 100 ∧
      s1.if_capenable &&& 1048576 = 0 :=
  (reg_restart_fallback ex_reg_env_dead 0 1 ex_reg (by decide) (by decide)).1 (by decide)
    (by decide)

/-! ## The stamps written on unregister -/

/-- C16, refuted as stated: a ring with `cons = 3`, `prod = 8` has
`prod - cons = 5`, yet with `last_nr_txbb = 1` the call with `onoff = 0` stamps
four blocks only, those of the counters 4 to 7; block 3 keeps its word. -/
theorem reg_off_stamp_counterexample :
    sub32 (ex_reg_on.tx_ring 0).prod (ex_reg_on.tx_ring 0).cons = 5 ∧
      ex_reg_on.running = true ∧
      (List.range 8).map (ex_reg_on.tx_ring 0).word0 = [0, 0, 0, 0, 0, 0, 0, 0] ∧
      (mlx4_netmap_reg ex_reg_env 8 0 ex_reg_on).map
          (fun p => (List.range 8).map (p.2.tx_ring 0).word0) =
        some [0, 0, 0, 0, 2147483647, 2147483647, 2147483647, 2147483647] := by
  refine ⟨by decide, by decide, by decide, rfl⟩

/-- C16, amended: a call with `onoff = 0` on a running interface returns once
the fuel covers every ring, having called `mlx4_en_stop_port` once, on rings in
which, for ring `i` of `2^k` blocks with `c0 = cons + last_nr_txbb` and
`n = prod - c0` (32-bit) not above `2^k`: for each `m < n` the first word of
block `(c0 + m) & size_mask` is `STAMP_VAL | (parity << STAMP_SHIFT)` with
parity 1 exactly when `(c0 + m) & size` is non-zero; these `n` blocks are
distinct; every other block keeps its word; `cons` has reached `prod`. The
rings are the same when the routine returns. -/
theorem reg_off_stamps (env : RegEnv) (fuel : Nat) (s : RegState) (i k : Nat)
    (hna : s.na_present = true) (hrun : s.running = true)
    (hfuel : ∀ x, x < s.num_tx_rings → (s.tx_ring x).prod < 4294967296 ∧
      sub32 (s.tx_ring x).prod (u32 ((s.tx_ring x).cons + (s.tx_ring x).last_nr_txbb)) ≤ fuel)
    (hi : i < s.num_tx_rings) (hmask : (s.tx_ring i).size_mask = 2 ^ k - 1) (hk : k ≤ 16)
    (hcnt : sub32 (s.tx_ring i).prod
      (u32 ((s.tx_ring i).cons + (s.tx_ring i).last_nr_txbb)) ≤ 2 ^ k) :
    ∃ su e s1, reg_unload env fuel 0 s = some su ∧ su.stop_calls = s.stop_calls + 1 ∧
      mlx4_netmap_reg env fuel 0 s = some (e, s1) ∧ s1.tx_ring = su.tx_ring ∧
      s1.stop_calls = s.stop_calls + 1 ∧
      (∀ m, m < sub32 (s.tx_ring i).prod
          (u32 ((s.tx_ring i).cons + (s.tx_ring i).last_nr_txbb)) →
        (su.tx_ring i).word0
            (u32 (u32 ((s.tx_ring i).cons + (s.tx_ring i).last_nr_txbb) + m) &&&
              (s.tx_ring i).size_mask) =
          u32 (env.STAMP_VAL |||
            ((if u32 (u32 ((s.tx_ring i).cons + (s.tx_ring i).last_nr_txbb) + m) &&&
                (s.tx_ring i).size ≠ 0 then 1 else 0) <<< env.STAMP_SHIFT))) ∧
      (∀ m1 m2, m1 < m2 →
        m2 < sub32 (s.tx_ring i).prod
          (u32 ((s.tx_ring i).cons + (s.tx_ring i).last_nr_txbb)) →
        u32 (u32 ((s.tx_ring i).cons + (s.tx_ring i).last_nr_txbb) + m2) &&&
            (s.tx_ring i).size_mask ≠
          u32 (u32 ((s.tx_ring i).cons + (s.tx_ring i).last_nr_txbb) + m1) &&&
            (s.tx_ring i).size_mask) ∧
      (∀ x, (∀ m, m < sub32 (s.tx_ring i).prod
            (u32 ((s.tx_ring i).cons + (s.tx_ring i).last_nr_txbb)) →
          x ≠ u32 (u32 ((s.tx_ring i).cons + (s.tx_ring i).last_nr_txbb) + m) &&&
            (s.tx_ring i).size_mask) →
        (su.tx_ring i).word0 x = (s.tx_ring i).word0 x) ∧
      (su.tx_ring i).cons = (s.tx_ring i).prod := by
  obtain ⟨rings, hu, hr⟩ := reg_unload_off env fuel s hrun hfuel
  have hri := hr i hi
  rw [stamp_ring_ok env fuel _ (hfuel i hi).1 (hfuel i hi).2] at hri
  have hri2 : rings i = stamp_n env
      (sub32 (s.tx_ring i).prod (u32 ((s.tx_ring i).cons + (s.tx_ring i).last_nr_txbb)))
      { s.tx_ring i with cons := u32 ((s.tx_ring i).cons + (s.tx_ring i).last_nr_txbb) } :=
    (Option.some.inj hri).symm
  have hdist : ∀ m1 m2, m1 < m2 →
      m2 < sub32 (s.tx_ring i).prod
        (u32 ((s.tx_ring i).cons + (s.tx_ring i).last_nr_txbb)) →
      u32 (u32 ((s.tx_ring i).cons + (s.tx_ring i).last_nr_txbb) + m2) &&&
          (s.tx_ring i).size_mask ≠
        u32 (u32 ((s.tx_ring i).cons + (s.tx_ring i).last_nr_txbb) + m1) &&&
          (s.tx_ring i).size_mask := by
    intro m1 m2 h1 h2
    rw [hmask]
    exact desc_distinct (by omega) _ h1 (by omega)
  refine ⟨_, env.mlx4_en_start_port s.start_calls,
    (reg_pass env true 0 { s with tx_ring := rings, stop_calls := s.stop_calls + 1 }).2,
    hu, rfl, ?_, ?_, ?_, fun m hm => ?_, hdist, fun x hx => ?_, ?_⟩
  · rw [reg_running_shape env fuel 0 s _ hna hrun hu, if_neg (by simp)]
    simp [reg_pass, reg_switch]
  · simp [reg_pass, reg_switch]
  · simp [reg_pass, reg_switch]
  · have hv := stamp_n_word_val env _
      { s.tx_ring i with cons := u32 ((s.tx_ring i).cons + (s.tx_ring i).last_nr_txbb) }
      m (u32_lt _) hm (fun i2 h1 h2 => by
        simp only [hmask, u16_mask hk]
        rw [← hmask]
        exact hdist m i2 h1 h2)
    simp only [hmask, u16_mask hk] at hv
    simp only [hri2, hmask]
    rw [hv]
    rfl
  · have hf := stamp_n_word_frame env _
      { s.tx_ring i with cons := u32 ((s.tx_ring i).cons + (s.tx_ring i).last_nr_txbb) }
      x (u32_lt _) (fun m hm => by
        simp only [hmask, u16_mask hk]
        rw [← hmask]
        exact hx m hm)
    simp only [hri2]
    rw [hf]
  · simp only [hri2]
    rw [stamp_n_cons env _ _ (u32_lt _)]
    simp only
    exact u32_add_sub32 (hfuel i hi).1 (u32_lt _)

/-- Instance of the stamping on the ring with `cons = 3`, `prod = 8`,
`last_nr_txbb = 1`: blocks 4 and 7 carry the stamp, block 3 keeps its word and
`cons` ends at 8. -/
theorem reg_off_stamps_witness :
    ∃ su e s1, reg_unload ex_reg_env 8 0 ex_reg_on = some su ∧
      mlx4_netmap_reg ex_reg_env 8 0 ex_reg_on = some (e, s1) ∧ s1.tx_ring = su.tx_ring ∧
      (su.tx_ring 0).word0 4 = 2147483647 ∧ (su.tx_ring 0).word0 7 = 2147483647 ∧
      (su.tx_ring 0).word0 3 = 0 ∧ (su.tx_ring 0).cons = 8 := by
  obtain ⟨su, e, s1, h1, _, h3, h4, _, hv, _, hf, hc⟩ :=
    reg_off_stamps ex_reg_env 8 ex_reg_on 0 3 (by decide) (by decide) (by decide) (by decide)
      (by decide) (by decide) (by decide)
  exact ⟨su, e, s1, h1, h3, h4, hv 0 (by decide), hv 3 (by decide), hf 3 (by decide), hc⟩

/-! ## The size check of rx_config -/

/-- C17, a divergence between the code and the claim: whenever `netmap_reset`
returns the slots, `mlx4_netmap_rx_config` returns 1, whether or not
`kring->nkr_num_slots` equals `rxr->actual_size`; the value returned does not
tell the mismatch from a successful bind. On the mismatch no descriptor is
written, and `rxr->prod` has been decremented. -/
theorem rx_config_mismatch_returns_one (env : Env) (cfg : CfgEnv) (s : RxState)
    (kr : netmap_kring) (hreset : cfg.netmap_reset s.kring = some kr) :
    (mlx4_netmap_rx_config env cfg s).1 = 1 ∧
    (kr.nkr_num_slots ≠ s.rxr.actual_size →
      (mlx4_netmap_rx_config env cfg s).2.rxr.buf = s.rxr.buf ∧
      (mlx4_netmap_rx_config env cfg s).2.rxr.prod = to_u32 ((s.rxr.prod : Int) - 1)) := by
  have hsz : (rx_cfg_enter s kr).rxr.actual_size = s.rxr.actual_size := rfl
  unfold mlx4_netmap_rx_config
  simp only [hreset, hsz]
  by_cases hm : kr.nkr_num_slots = s.rxr.actual_size
  · simp [hm]
  · simp [hm, rx_cfg_enter]

/-- The failing call and a successful one: 8 netmap slots against 16 reported
descriptors, and 8 against 8; both return 1. -/
theorem rx_config_mismatch_returns_one_witness :
    ex_rx_mis.kring.nkr_num_slots ≠ ex_rx_mis.rxr.actual_size ∧
      (mlx4_netmap_rx_config ex_env ex_cfg ex_rx_mis).1 = 1 ∧
      (mlx4_netmap_rx_config ex_env ex_cfg ex_rx_mis).2.rxr.buf = ex_rx_mis.rxr.buf ∧
      ex_rx_fit.kring.nkr_num_slots = ex_rx_fit.rxr.actual_size ∧
      (mlx4_netmap_rx_config ex_env ex_cfg ex_rx_fit).1 = 1 ∧
      ((mlx4_netmap_rx_config ex_env ex_cfg ex_rx_fit).2.rxr.buf 3 0).addr = 1056768 :=
  ⟨by decide,
    (rx_config_mismatch_returns_one ex_env ex_cfg ex_rx_mis ex_rx_mis.kring rfl).1,
    ((rx_config_mismatch_returns_one ex_env ex_cfg ex_rx_mis ex_rx_mis.kring rfl).2
      (by decide)).1,
    rfl,
    (rx_config_mismatch_returns_one ex_env ex_cfg ex_rx_fit ex_rx_fit.kring rfl).1,
    rfl⟩

/-! ## A replenish loop that does not end -/

/-- The replenish loop started inside the ring with a boundary beyond the last
slot, over slots that all have a buffer, exhausts any fuel. -/
theorem rx_loop_spin (env : Env) (lim k : Nat) (hk : lim < k) : ∀ (fuel j l n : Nat)
    (s : RxState), j ≤ lim →
    (∀ x, x < lim + 1 →
      (env.PNMB (s.kring.ring.slot x).buf_idx).1 ≠ env.netmap_buffer_base) →
    rx_loop env lim k fuel j l n s = none := by
  intro fuel
  induction fuel with
  | zero =>
    intro j l n s hj _
    simp [rx_loop, show j ≠ k by omega]
  | succ fuel ih =>
    intro j l n s hj hgood
    have hb := hgood j (by omega)
    simp only [rx_loop, show j ≠ k by omega, if_false, beq_iff_eq, hb]
    apply ih
    · unfold nm_next
      split <;> omega
    · intro x hx
      rw [rx_post_buf_idx]
      exact hgood x hx

/-- A call of `mlx4_netmap_rxsync` whose release boundary lies beyond the last
slot, on a ring whose slots all have a buffer, returns for no amount of fuel. -/
theorem rxsync_spin (env : Env) (do_lock : Bool) (r : RxState) (lim : Nat)
    (hup : r.port_up = true)
    (hN : r.kring.nkr_num_slots = lim + 1) (hlim : lim + 1 < 4294967296)
    (hcur : r.kring.ring.cur ≤ lim) (hhw : r.kring.nr_hwcur ≤ lim)
    (hk : lim < (rx_release lim r.kring.ring.cur r.kring.ring.reserved r.kring.ring.avail).2)
    (hgood : ∀ x, x < lim + 1 →
      (env.PNMB (r.kring.ring.slot x).buf_idx).1 ≠ env.netmap_buffer_base) (fuel : Nat) :
    mlx4_netmap_rxsync env fuel do_lock r = none := by
  obtain ⟨_, _, _, _, _, _, f7, _, _, f10, _⟩ := rx_harvest_fields env lim r
  obtain ⟨_, _, _, c4, _, _, _, _, c9, _⟩ :=
    rx_clamp_fields lim r.kring.ring.reserved (rx_harvest env lim r)
  rw [rxsync_reaches_replenish env fuel do_lock r lim hup hN hlim hcur]
  unfold rx_replenish
  simp only [f10, f7]
  rw [if_pos (by omega)]
  rw [rx_loop_spin env lim _ hk fuel _ _ _ _ hhw (fun x hx => by
    rw [c9, rx_harvest_buf_idx]
    exact hgood x hx)]

/-- C18, a divergence between the code and the claim: on a ring of 8 bound
slots with `nr_hwcur = 0`, `ring->cur = 0`, `ring->reserved = 9` and
`ring->avail = 4294967287` the 32-bit sum `reserved + avail` is 0, the clamp is
not taken, the release boundary is `0 + 8 - 9 = 4294967295`, and the replenish
loop of `mlx4_netmap_rxsync` never reaches it: no amount of fuel gives a
result. -/
theorem rxsync_never_returns (fuel : Nat) :
    ex_rx_spin.port_up = true ∧ ex_rx_spin.kring.nkr_num_slots = 8 ∧
      ex_rx_spin.kring.nr_hwcur < 8 ∧ ex_rx_spin.kring.ring.cur < 8 ∧
      ex_rx_spin.kring.ring.reserved < 4294967296 ∧
      ex_rx_spin.kring.ring.avail < 4294967296 ∧
      mlx4_netmap_rxsync ex_env fuel false ex_rx_spin = none :=
  ⟨by decide, by decide, by decide, by decide, by decide, by decide,
    rxsync_spin ex_env false ex_rx_spin 7 (by decide) (by decide) (by decide) (by decide)
      (by decide) (by decide) (by decide) fuel⟩

/-! ## A fault in the middle of the transmit loop -/

/-- C24: when the first slot of the range that fails the check is preceded by
`i0` slots that pass it, the txsync call returns the result of
`netmap_ring_reinit` in a state where the `i0` descriptors
`(p + i) & size_mask`, `i < i0`, have been filled from the slots
`(nr_hwcur + i) mod N` and `txr->prod` is `p + i0` (32-bit), every other
descriptor is as at entry, and `nr_hwcur`, `nr_hwavail`, `ring->avail`, the
doorbell count, the completion queue with its consumer index and `txr->cons`
are as at entry. The device ring has `2^k >= N` descriptors. -/
theorem txsync_fault_not_atomic (env : Env) (fuel : Nat) (do_lock : Bool) (t : TxState)
    (lim k i0 : Nat) (hN : t.kring.nkr_num_slots = lim + 1) (hlim : lim + 1 < 4294967296)
    (hprod : t.txr.prod < 4294967296) (hmask : t.txr.size_mask = 2 ^ k - 1) (hk : k ≤ 32)
    (hsz : lim + 1 ≤ 2 ^ k)
    (hcur : t.kring.ring.cur ≤ lim) (hhw : t.kring.nr_hwcur ≤ lim) (hfuel : lim ≤ fuel)
    (hi0 : i0 < (t.kring.ring.cur + (lim + 1) - t.kring.nr_hwcur) % (lim + 1))
    (hgood : ∀ i, i < i0 →
      tx_slot_bad env (t.kring.ring.slot ((t.kring.nr_hwcur + i) % (lim + 1))) = false)
    (hbad : tx_slot_bad env (t.kring.ring.slot ((t.kring.nr_hwcur + i0) % (lim + 1))) = true) :
    ∃ t1, mlx4_netmap_txsync env fuel do_lock t = some (sync_ret.ring_reinit, t1) ∧
      (∀ i, i < i0 →
        t1.txr.buf (u32 (t.txr.prod + i) &&& t.txr.size_mask) =
          tx_fill env t.mr_key t.txr.size (u32 (t.txr.prod + i))
            (env.PNMB (t.kring.ring.slot ((t.kring.nr_hwcur + i) % (lim + 1))).buf_idx).1
            (env.PNMB (t.kring.ring.slot ((t.kring.nr_hwcur + i) % (lim + 1))).buf_idx).2
            (t.kring.ring.slot ((t.kring.nr_hwcur + i) % (lim + 1))).len) ∧
      (∀ l, (∀ i, i < i0 → l ≠ u32 (t.txr.prod + i) &&& t.txr.size_mask) →
        t1.txr.buf l = t.txr.buf l) ∧
      t1.txr.prod = u32 (t.txr.prod + i0) ∧
      t1.kring.nr_hwcur = t.kring.nr_hwcur ∧
      t1.kring.nr_hwavail = t.kring.nr_hwavail ∧
      t1.kring.ring.avail = t.kring.ring.avail ∧
      t1.txr.doorbells = t.txr.doorbells ∧
      t1.cq = t.cq ∧
      t1.txr.cons = t.txr.cons := by
  have hd : (t.kring.ring.cur + (lim + 1) - t.kring.nr_hwcur) % (lim + 1) < lim + 1 :=
    Nat.mod_lt _ (by omega)
  have hcall : mlx4_netmap_txsync env fuel do_lock t =
      some (sync_ret.ring_reinit, tx_post_n env lim i0 t.kring.nr_hwcur t) := by
    unfold mlx4_netmap_txsync
    simp only [txsync_lim hN hlim]
    rw [if_neg (by omega), if_neg (by omega),
      tx_send_bad env fuel lim _ t i0 hhw hcur hfuel (by omega) hi0 hgood hbad]
    simp [EINVAL]
  obtain ⟨p1, _, _, p4, _, _, p7, p8, p9, _, _, p12, _⟩ :=
    tx_post_n_frame env lim i0 t.kring.nr_hwcur t
  refine ⟨_, hcall, fun i hi => ?_, fun l hl => ?_,
    tx_post_n_prod env lim i0 _ t hprod, p8, p9, p12, p7, p1, p4⟩
  · have hv := tx_post_n_buf_val env lim i0 t.kring.nr_hwcur t i hprod hi
      (fun i2 h1 h2 => by
        rw [hmask]
        exact desc_distinct hk t.txr.prod h1 (by omega))
    rw [iter_next hhw] at hv
    exact hv
  · exact tx_post_n_buf_frame env lim i0 _ t l hprod hl

/-- Instance of the fault: slots 0 and 1 are valid, slot 2 is unbound; the
descriptors 5 and 6 are written, `txr->prod` goes from 5 to 7, and the pending
completion is not consumed. -/
theorem txsync_fault_not_atomic_witness :
    ∃ t1, mlx4_netmap_txsync ex_env 8 false ex_tx_late = some (sync_ret.ring_reinit, t1) ∧
      (t1.txr.buf 5).data.addr = 1050624 ∧ (t1.txr.buf 6).data.addr = 1052672 ∧
      t1.txr.buf 7 = ex_tx_late.txr.buf 7 ∧
      t1.txr.prod = 7 ∧ t1.kring.nr_hwcur = 0 ∧ t1.kring.nr_hwavail = 7 ∧
      t1.cq.cons_index = 0 ∧ t1.txr.cons = 3 := by
  obtain ⟨t1, h, hv, hf, h1, h2, h3, _, _, h6, h7⟩ :=
    txsync_fault_not_atomic ex_env 8 false ex_tx_late 7 3 2 (by decide) (by decide)
      (by decide) (by decide) (by decide) (by decide) (by decide) (by decide) (by decide)
      (by decide) (by decide) (by decide)
  refine ⟨t1, h, ?_, ?_, hf 7 (by decide), h1, h2, h3, ?_, h7⟩
  · rw [show (5 : Nat) = u32 (ex_tx_late.txr.prod + 0) &&& ex_tx_late.txr.size_mask from rfl,
      hv 0 (by decide)]
    rfl
  · rw [show (6 : Nat) = u32 (ex_tx_late.txr.prod + 1) &&& ex_tx_late.txr.size_mask from rfl,
      hv 1 (by decide)]
    rfl
  · rw [h6]
    rfl

/-! ## The descriptors written by rx_config -/

/-- The padding loop writes the padding segment into the `rem` fragments from
`j0` on and nothing else. -/
theorem rx_cfg_pad_val (cfg : CfgEnv) : ∀ (rem j0 : Nat) (d : Nat → mlx4_wqe_data_seg)
    (x : Nat),
    rx_cfg_pad cfg rem j0 d x =
      if j0 ≤ x ∧ x < j0 + rem then
        { byte_count := 0, lkey := cfg.MLX4_EN_MEMTYPE_PAD, addr := 0 }
      else d x := by
  intro rem
  induction rem with
  | zero =>
    intro j0 d x
    simp only [rx_cfg_pad]
    rw [if_neg (by omega)]
  | succ rem ih =>
    intro j0 d x
    simp only [rx_cfg_pad]
    rw [ih]
    by_cases h1 : j0 + 1 ≤ x ∧ x < j0 + 1 + rem
    · rw [if_pos h1, if_pos (by omega)]
    · rw [if_neg h1]
      by_cases h2 : x = j0
      · rw [if_pos (by omega)]
        simp [store, h2]
      · rw [if_neg (by omega)]
        simp [store, h2]

/-- The filling loop rewrites the `rem` descriptors from `i0` on, each from its
own entry value, and leaves the others. -/
theorem rx_cfg_fill_val (env : Env) (cfg : CfgEnv) (mr_key : Nat) (frags : Int)
    (slot : Nat → netmap_slot) : ∀ (rem i0 : Nat) (buf : Nat → Nat → mlx4_wqe_data_seg)
    (i : Nat),
    rx_cfg_fill env cfg mr_key frags slot rem i0 buf i =
      if i0 ≤ i ∧ i < i0 + rem then
        rx_cfg_pad cfg (frags - 1).toNat 1
          (store (buf i) 0
            { addr := (env.PNMB (slot i).buf_idx).2
              byte_count := env.NETMAP_BUF_SIZE
              lkey := mr_key })
      else buf i := by
  intro rem
  induction rem with
  | zero =>
    intro i0 buf i
    simp only [rx_cfg_fill]
    rw [if_neg (by omega)]
  | succ rem ih =>
    intro i0 buf i
    simp only [rx_cfg_fill]
    rw [ih]
    by_cases h1 : i0 + 1 ≤ i ∧ i < i0 + 1 + rem
    · rw [if_pos h1, if_pos (by omega)]
      simp [store, show i ≠ i0 by omega]
    · rw [if_neg h1]
      by_cases h2 : i = i0
      · rw [if_pos (by omega)]
        simp [store, h2]
      · rw [if_neg (by omega)]
        simp [store, h2]

/-- A call of `mlx4_netmap_rx_config` in netmap mode with equal sizes returns
1 in the state left by the filling loop. -/
theorem rx_config_ok_shape (env : Env) (cfg : CfgEnv) (s : RxState) (kr : netmap_kring)
    (hreset : cfg.netmap_reset s.kring = some kr)
    (hsize : kr.nkr_num_slots = s.rxr.actual_size) :
    mlx4_netmap_rx_config env cfg s = (1, rx_cfg_bind env cfg (rx_cfg_enter s kr)) := by
  have hsz : (rx_cfg_enter s kr).rxr.actual_size = s.rxr.actual_size := rfl
  unfold mlx4_netmap_rx_config
  simp only [hreset, hsz]
  simp [hsize]

/-- The fragment count when the stride covers the descriptor header and the
quotient fits an `int`. -/
theorem possible_frags_exact (cfg : CfgEnv) (stride : Nat)
    (h1 : cfg.rx_desc_size ≤ stride) (h2 : stride < 18446744073709551616)
    (h3 : (stride - cfg.rx_desc_size) / cfg.DS_SIZE < 2147483648) :
    possible_frags cfg stride = (((stride - cfg.rx_desc_size) / cfg.DS_SIZE : Nat) : Int) := by
  have hs : sub64 stride cfg.rx_desc_size = stride - cfg.rx_desc_size := by
    unfold sub64; omega
  unfold possible_frags
  rw [hs]
  generalize (stride - cfg.rx_desc_size) / cfg.DS_SIZE = q at h3
  unfold to_s32
  split <;> omega

/-- C22: a call of `mlx4_netmap_rx_config` for which `netmap_reset` returns
the slots and `kring->nkr_num_slots` equals `rxr->actual_size` returns 1, and
for each `i < N` fragment 0 of descriptor `i` holds the physical address of
slot `i`, `NETMAP_BUF_SIZE` and the memory key, every fragment `j` with
`1 <= j < possible_frags` holds address 0, byte count 0 and
`MLX4_EN_MEMTYPE_PAD`, and every further fragment is as at entry; descriptors
from `N` on are as at entry. `possible_frags` is
`(stride - sizeof(struct mlx4_en_rx_desc)) / DS_SIZE` when the stride covers the
header and the quotient fits an `int`. -/
theorem rx_config_bind_descriptors (env : Env) (cfg : CfgEnv) (s : RxState)
    (kr : netmap_kring) (hreset : cfg.netmap_reset s.kring = some kr)
    (hsize : kr.nkr_num_slots = s.rxr.actual_size) :
    (mlx4_netmap_rx_config env cfg s).1 = 1 ∧
    (∀ i, i < kr.nkr_num_slots →
      (mlx4_netmap_rx_config env cfg s).2.rxr.buf i 0 =
        { addr := (env.PNMB (kr.ring.slot i).buf_idx).2
          byte_count := env.NETMAP_BUF_SIZE
          lkey := s.mr_key } ∧
      (∀ j : Nat, 1 ≤ j → (j : Int) < possible_frags cfg s.rxr.stride →
        (mlx4_netmap_rx_config env cfg s).2.rxr.buf i j =
          { byte_count := 0, lkey := cfg.MLX4_EN_MEMTYPE_PAD, addr := 0 }) ∧
      (∀ j : Nat, 1 ≤ j → possible_frags cfg s.rxr.stride ≤ (j : Int) →
        (mlx4_netmap_rx_config env cfg s).2.rxr.buf i j = s.rxr.buf i j)) ∧
    (∀ i, kr.nkr_num_slots ≤ i →
      (mlx4_netmap_rx_config env cfg s).2.rxr.buf i = s.rxr.buf i) ∧
    (cfg.rx_desc_size ≤ s.rxr.stride → s.rxr.stride < 18446744073709551616 →
      (s.rxr.stride - cfg.rx_desc_size) / cfg.DS_SIZE < 2147483648 →
      possible_frags cfg s.rxr.stride =
        (((s.rxr.stride - cfg.rx_desc_size) / cfg.DS_SIZE : Nat) : Int)) := by
  have hbuf : (mlx4_netmap_rx_config env cfg s).2.rxr.buf =
      rx_cfg_fill env cfg s.mr_key (possible_frags cfg s.rxr.stride) kr.ring.slot
        kr.nkr_num_slots 0 s.rxr.buf := by
    rw [rx_config_ok_shape env cfg s kr hreset hsize]
    rfl
  refine ⟨by rw [rx_config_ok_shape env cfg s kr hreset hsize], fun i hi => ⟨?_, ?_, ?_⟩,
    fun i hi => ?_, possible_frags_exact cfg s.rxr.stride⟩
  · rw [hbuf, rx_cfg_fill_val, if_pos (by omega), rx_cfg_pad_val, if_neg (by omega)]
    simp [store]
  · intro j h1 h2
    rw [hbuf, rx_cfg_fill_val, if_pos (by omega), rx_cfg_pad_val, if_pos (by omega)]
  · intro j h1 h2
    rw [hbuf, rx_cfg_fill_val, if_pos (by omega), rx_cfg_pad_val, if_neg (by omega)]
    simp [store, show j ≠ 0 by omega]
  · rw [hbuf]
    funext j
    rw [rx_cfg_fill_val, if_neg (by omega)]

/-- Instance of the bind on a ring of 8 slots with 4 fragments per
descriptor: descriptor 3 points at the buffer of slot 3 and its fragments 1 to
3 are padding. -/
theorem rx_config_bind_descriptors_witness :
    (mlx4_netmap_rx_config ex_env ex_cfg ex_rx_fit).1 = 1 ∧
      (mlx4_netmap_rx_config ex_env ex_cfg ex_rx_fit).2.rxr.buf 3 0 =
        { addr := 1056768, byte_count := 2048, lkey := 7 } ∧
      (mlx4_netmap_rx_config ex_env ex_cfg ex_rx_fit).2.rxr.buf 3 3 =
        { byte_count := 0, lkey := 4294967295, addr := 0 } ∧
      possible_frags ex_cfg ex_rx_fit.rxr.stride = 4 :=
  ⟨(rx_config_bind_descriptors ex_env ex_cfg ex_rx_fit ex_rx_fit.kring rfl rfl).1,
    ((rx_config_bind_descriptors ex_env ex_cfg ex_rx_fit ex_rx_fit.kring rfl rfl).2.1 3
      (by decide)).1,
    ((rx_config_bind_descriptors ex_env ex_cfg ex_rx_fit ex_rx_fit.kring rfl rfl).2.1 3
      (by decide)).2.1 3 (by decide) (by decide),
    (rx_config_bind_descriptors ex_env ex_cfg ex_rx_fit ex_rx_fit.kring rfl rfl).2.2.2
      (by decide) (by decide) (by decide)⟩

/-! ## The bound of the completion scans -/

/-- An entry that passes the loop test at consumer index `ci` fails it one
queue length later. -/
theorem not_ready_next_wrap {k : Nat} (hk : k ≤ 31) (cqe : mlx4_cqe) {ci : Nat}
    (hci : ci < 4294967296) (h : cqe_ready (2 ^ k) cqe ci = true) :
    cqe_ready (2 ^ k) cqe (u32 (ci + 2 ^ k)) = false := by
  rw [cqe_not_ready_iff_parity, (cqe_ready_iff_parity k cqe ci).1 h]
  exact (parity_flip hk hci).symm

theorem tx_cqe_next_wrap {k : Nat} (hk : k ≤ 16) (factor : Nat) (buf : Nat → mlx4_cqe)
    (ci : Nat) :
    tx_cqe (2 ^ k - 1) factor buf (u32 (ci + 2 ^ k)) = tx_cqe (2 ^ k - 1) factor buf ci := by
  have hM := two_pow_dvd_u32 (k := k) (by omega)
  rw [tx_cqe_pos hk, tx_cqe_pos hk]
  unfold u32
  rw [Nat.mod_mod_of_dvd _ hM, Nat.add_mod_right]

theorem rx_cqe_next_wrap {k : Nat} (hk : k ≤ 32) (factor : Nat) (buf : Nat → mlx4_cqe)
    (ci : Nat) :
    rx_cqe (2 ^ k - 1) factor buf (u32 (ci + 2 ^ k)) = rx_cqe (2 ^ k - 1) factor buf ci := by
  have hM := two_pow_dvd_u32 hk
  rw [rx_cqe_pos, rx_cqe_pos]
  unfold u32
  rw [Nat.mod_mod_of_dvd _ hM, Nat.add_mod_right]

/-- A run of entries that all pass the loop test of the transmit scan is at
most one queue length long. -/
theorem tx_run_le_size {k : Nat} (hk : k ≤ 16) (factor : Nat) (buf : Nat → mlx4_cqe)
    {ci c : Nat} (hci : ci < 4294967296)
    (hall : ∀ i, i < c →
      cqe_ready (2 ^ k) (tx_cqe (2 ^ k - 1) factor buf (u32 (ci + i))) (u32 (ci + i)) = true) :
    c ≤ 2 ^ k := by
  by_contra hgt
  have hlt : 2 ^ k < c := Nat.lt_of_not_le hgt
  have ha := hall 0 (Nat.lt_of_le_of_lt (Nat.zero_le _) hlt)
  have hb := hall (2 ^ k) hlt
  simp only [Nat.add_zero, u32_of_lt hci] at ha
  have hn := not_ready_next_wrap (by omega) _ hci ha
  rw [tx_cqe_next_wrap hk] at hb
  rw [hb] at hn
  exact Bool.noConfusion hn

/-- A run of entries that all pass the loop test of the receive scan is at
most one queue length long. -/
theorem rx_run_le_size {k : Nat} (hk : k ≤ 31) (factor : Nat) (buf : Nat → mlx4_cqe)
    {ci c : Nat} (hci : ci < 4294967296)
    (hall : ∀ i, i < c →
      cqe_ready (2 ^ k) (rx_cqe (2 ^ k - 1) factor buf (u32 (ci + i))) (u32 (ci + i)) = true) :
    c ≤ 2 ^ k := by
  by_contra hgt
  have hlt : 2 ^ k < c := Nat.lt_of_not_le hgt
  have ha := hall 0 (Nat.lt_of_le_of_lt (Nat.zero_le _) hlt)
  have hb := hall (2 ^ k) hlt
  simp only [Nat.add_zero, u32_of_lt hci] at ha
  have hn := not_ready_next_wrap hk _ hci ha
  rw [rx_cqe_next_wrap (by omega)] at hb
  rw [hb] at hn
  exact Bool.noConfusion hn

/-- C23: over a completion queue of `S = 2^k` entries indexed with the mask
`S - 1` and not modified during the call, the scan of `mlx4_netmap_txsync`
(`k <= 16`, its index being a `uint16_t`) and the scan of `mlx4_netmap_rxsync`
each consume at most `S` entries, the consumer index advancing by the number
consumed; and when the ring has `N = S >= 2` slots, the entry at the consumer
index left by the call fails the loop test, so the bound `2*lim` (tx) or
`2*lim + 1` (rx) has not cut the scan short of a matching entry. -/
theorem harvest_scan_within_bound (env : Env) (k kr lt lr : Nat) (t : TxState) (r : RxState)
    (hk : k ≤ 16) (ht1 : t.cq.size = 2 ^ k) (ht2 : t.txr.size_mask = 2 ^ k - 1)
    (ht3 : t.cq.cons_index < 4294967296)
    (hkr : kr ≤ 31) (hr1 : r.cq.size = 2 ^ kr) (hr2 : r.rxr.size_mask = 2 ^ kr - 1)
    (hr3 : r.cq.cons_index < 4294967296) :
    ((tx_scan lt t).2.2 ≤ 2 ^ k ∧
      (tx_reclaim lt t).2.cq.cons_index = u32 (t.cq.cons_index + (tx_scan lt t).2.2) ∧
      (lt + 1 = 2 ^ k → 1 ≤ lt →
        cqe_ready t.cq.size
          (tx_cqe t.txr.size_mask t.cqe_factor t.cq.buf (tx_reclaim lt t).2.cq.cons_index)
          (tx_reclaim lt t).2.cq.cons_index = false)) ∧
    ((rx_scan lr r).2.2.1 ≤ 2 ^ kr ∧
      (rx_harvest env lr r).cq.cons_index = u32 (r.cq.cons_index + (rx_scan lr r).2.2.1) ∧
      (lr + 1 = 2 ^ kr → 1 ≤ lr →
        cqe_ready r.cq.size
          (rx_cqe r.rxr.size_mask r.cqe_factor r.cq.buf (rx_harvest env lr r).cq.cons_index)
          (rx_harvest env lr r).cq.cons_index = false)) := by
  have h16 : (2 : Nat) ^ k ≤ 65536 := by
    have h : (65536 : Nat) = 2 ^ 16 := by norm_num
    rw [h]
    exact Nat.pow_le_pow_right (by norm_num) hk
  have h31 : (2 : Nat) ^ kr ≤ 2147483648 := by
    have h : (2147483648 : Nat) = 2 ^ 31 := by norm_num
    rw [h]
    exact Nat.pow_le_pow_right (by norm_num) hkr
  constructor
  · obtain ⟨c, hc, heq, hall, hstop⟩ :=
      tx_cq_scan_spec (2 ^ k - 1) (2 ^ k) t.cqe_factor t.cq.buf (u32 (2 * lt))
        t.cq.cons_index (u16 (t.txr.cons &&& (2 ^ k - 1))) 0 ht3
    have hrun := tx_run_le_size hk t.cqe_factor t.cq.buf ht3 hall
    have hci : (tx_reclaim lt t).2.cq.cons_index = (tx_scan lt t).1 :=
      (tx_reclaim_fields lt t).2.2.2.1
    have hscan : tx_scan lt t =
        (u32 (t.cq.cons_index + c),
         (if c = 0 then u16 (t.txr.cons &&& (2 ^ k - 1))
          else u16 ((tx_cqe (2 ^ k - 1) t.cqe_factor t.cq.buf
            (u32 (t.cq.cons_index + (c - 1)))).wqe_index &&& (2 ^ k - 1))),
         0 + c) := by
      unfold tx_scan
      rw [ht1, ht2]
      exact heq
    rw [hci, hscan, ht1, ht2]
    simp only [Nat.zero_add]
    refine ⟨hrun, trivial, fun hN h1 => ?_⟩
    by_cases hlt : c < u32 (2 * lt)
    · exact hstop hlt
    · have hrem : u32 (2 * lt) = 2 * lt := u32_of_lt (by omega)
      have hc2 : c = 2 ^ k := by omega
      have h0 := hall 0 (by omega)
      simp only [Nat.add_zero, u32_of_lt ht3] at h0
      rw [hc2, tx_cqe_next_wrap hk]
      exact not_ready_next_wrap (by omega) _ ht3 h0
  · obtain ⟨c, hc, h1, _, h3, hall, hstop, _⟩ :=
      rx_cq_scan_spec lr (2 ^ kr - 1) (2 ^ kr) r.cqe_factor r.rxr.fcs_del
        r.kring.nkr_slot_flags r.cq.buf (u32 (2 * lr) + 1) r.cq.cons_index
        (u32 (r.kring.nr_hwcur + to_u32 r.kring.nr_hwavail) % r.kring.nkr_num_slots) 0
        r.kring.ring.slot hr3
    have hrun := rx_run_le_size hkr r.cqe_factor r.cq.buf hr3 hall
    have hci : (rx_harvest env lr r).cq.cons_index = (rx_scan lr r).1 :=
      (rx_harvest_fields env lr r).1
    have hs1 : (rx_scan lr r).1 = u32 (r.cq.cons_index + c) := by
      unfold rx_scan
      rw [hr1, hr2]
      exact h1
    have hs3 : (rx_scan lr r).2.2.1 = c := by
      unfold rx_scan
      rw [hr1, hr2, h3, Nat.zero_add]
    rw [hci, hs1, hs3, hr1, hr2]
    refine ⟨hrun, rfl, fun hN h1 => ?_⟩
    have hrem : u32 (2 * lr) = 2 * lr := u32_of_lt (by omega)
    exact hstop (by omega)

/-- Instance of the scan bound: a transmit ring of 2 slots whose 2 completion
entries both match (the bound `2*lim = 2` ends the scan, and the entry at
consumer index 2 does not match), and a receive ring of 8 slots with two
completions pending. -/
theorem harvest_scan_within_bound_witness :
    ((tx_scan 1 ex_tx_two).2.2 ≤ 2 ^ 1 ∧
      (tx_reclaim 1 ex_tx_two).2.cq.cons_index =
        u32 (ex_tx_two.cq.cons_index + (tx_scan 1 ex_tx_two).2.2) ∧
      cqe_ready ex_tx_two.cq.size
        (tx_cqe ex_tx_two.txr.size_mask ex_tx_two.cqe_factor ex_tx_two.cq.buf
          (tx_reclaim 1 ex_tx_two).2.cq.cons_index)
        (tx_reclaim 1 ex_tx_two).2.cq.cons_index = false) ∧
    ((rx_scan 7 ex_rx_done).2.2.1 ≤ 2 ^ 3 ∧
      (rx_harvest ex_env 7 ex_rx_done).cq.cons_index =
        u32 (ex_rx_done.cq.cons_index + (rx_scan 7 ex_rx_done).2.2.1) ∧
      cqe_ready ex_rx_done.cq.size
        (rx_cqe ex_rx_done.rxr.size_mask ex_rx_done.cqe_factor ex_rx_done.cq.buf
          (rx_harvest ex_env 7 ex_rx_done).cq.cons_index)
        (rx_harvest ex_env 7 ex_rx_done).cq.cons_index = false) :=
  have h := harvest_scan_within_bound ex_env 1 3 1 7 ex_tx_two ex_rx_done (by decide)
    (by decide) (by decide) (by decide) (by decide) (by decide) (by decide) (by decide)
  ⟨⟨h.1.1, h.1.2.1, h.1.2.2 (by decide) (by decide)⟩,
    ⟨h.2.1, h.2.2.1, h.2.2.2 (by decide) (by decide)⟩⟩

/-! ## The range of the release boundary -/

/-- A replenish half that returns 0 from a cursor inside the ring had its
release boundary inside the ring. -/
theorem rx_replenish_ok_boundary (env : Env) (fuel lim k0 resvd0 : Nat) (s r1 : RxState)
    (hhw : s.kring.nr_hwcur ≤ lim)
    (h : rx_replenish env fuel lim k0 resvd0 s = some (sync_ret.ok, r1)) :
    (rx_release lim k0 resvd0 s.kring.ring.avail).2 ≤ lim := by
  by_contra hgt
  unfold rx_replenish at h
  rw [if_pos (by omega)] at h
  cases hlp : rx_loop env lim (rx_release lim k0 resvd0 s.kring.ring.avail).2 fuel
      s.kring.nr_hwcur (rx_nic_start env lim resvd0 s) 0 (rx_clamp lim resvd0 s) with
  | none => simp [hlp] at h
  | some x =>
    obtain ⟨bad, n, s2⟩ := x
    cases bad with
    | true => simp [hlp] at h
    | false => exact rx_loop_unreach env lim _ (by omega) fuel _ _ _ _ n s2 hhw hlp

/-- The release boundary when the sum `resvd + ring->avail` does not wrap:
`ring->cur` minus the reserved count left by the clamp, taken around the
ring. -/
theorem rx_release_no_wrap (lim cur resvd avail : Nat) (hlim : lim + 1 < 4294967296)
    (hcur : cur ≤ lim) (hsum : resvd + avail < 4294967296) :
    (rx_release lim cur resvd avail).2 =
      (cur + (lim + 1) - (rx_release lim cur resvd avail).1) % (lim + 1) ∧
    (rx_release lim cur resvd avail).1 ≤ lim ∧
    (rx_release lim cur resvd avail).2 ≤ lim := by
  have hu : u32 (lim + 1) = lim + 1 := u32_of_lt hlim
  have hs : u32 (resvd + avail) = resvd + avail := u32_of_lt hsum
  have hcm : (cur + (lim + 1) - 0) % (lim + 1) = cur := by
    rw [Nat.sub_zero, Nat.add_mod_right]
    exact Nat.mod_eq_of_lt (by omega)
  by_cases h0 : resvd > 0
  · by_cases hc : resvd + avail ≥ lim + 1
    · have e : rx_release lim cur resvd avail = (0, cur) := by
        unfold rx_release
        rw [if_pos h0]
        simp only [hu, hs]
        rw [if_pos hc]
        simp
      rw [e]
      exact ⟨hcm.symm, Nat.zero_le _, hcur⟩
    · have e : rx_release lim cur resvd avail =
          (resvd, if cur ≥ resvd then cur - resvd
            else sub32 (u32 (cur + lim + 1)) resvd) := by
        unfold rx_release
        rw [if_pos h0]
        simp only [hu, hs]
        rw [if_neg hc]
      have hd := dist_ring (N := lim + 1) (j := resvd) (k := cur) (by omega) (by omega)
      rw [e]
      simp only
      rw [hd]
      by_cases hge : cur ≥ resvd
      · rw [if_pos hge, if_pos hge]
        exact ⟨rfl, by omega, by omega⟩
      · rw [if_neg hge, if_neg hge]
        have e2 : sub32 (u32 (cur + lim + 1)) resvd = cur + (lim + 1) - resvd := by
          unfold sub32 u32; omega
        rw [e2]
        exact ⟨rfl, by omega, by omega⟩
  · have e : rx_release lim cur resvd avail = (resvd, cur) := by
      unfold rx_release
      rw [if_neg h0]
    have hz : resvd = 0 := by omega
    rw [e, hz]
    exact ⟨hcm.symm, Nat.zero_le _, hcur⟩

/-- The release boundary when the 32-bit sum `resvd + ring->avail` wraps to a
value below `N` and `resvd` exceeds `cur + N`: a 32-bit value past the ring. -/
theorem rx_release_wrap (lim cur resvd avail : Nat) (hlim : lim + 1 < 4294967296)
    (hcur : cur ≤ lim) (hr : resvd < 4294967296) (ha : avail < 4294967296)
    (hwrap : 4294967296 ≤ resvd + avail) (hsmall : resvd + avail < 4294967296 + (lim + 1))
    (hbig : cur + (lim + 1) < resvd) :
    rx_release lim cur resvd avail = (resvd, cur + (lim + 1) + 4294967296 - resvd) := by
  have hu : u32 (lim + 1) = lim + 1 := u32_of_lt hlim
  have hs : u32 (resvd + avail) = resvd + avail - 4294967296 := by
    unfold u32; omega
  unfold rx_release
  rw [if_pos (by omega)]
  simp only [hu, hs]
  rw [if_neg (by omega), if_neg (by omega)]
  have e2 : sub32 (u32 (cur + lim + 1)) resvd = cur + (lim + 1) + 4294967296 - resvd := by
    unfold sub32 u32; omega
  rw [e2]

/-- C21, a divergence between the code and the claim, with the part of the
claim that the code meets. For an rxsync call with the port up, `ring->cur` and
`nr_hwcur` in `[0, N-1]` and 32-bit `ring->reserved` and `ring->avail`: when the
sum of the two does not wrap, the release boundary is `ring->cur` minus the
effective reserved count taken around the ring and lies in `[0, N-1]`; when
the 32-bit sum wraps to a value below `N` and `ring->reserved > ring->cur + N`,
the clamp is not taken and the boundary is
`cur + N - reserved + 2^32`, outside the ring and different from
`(cur - reserved) mod N`, and the call cannot return 0. Whenever an rxsync call
returns 0, `nr_hwcur` is in `[0, N-1]`, and so it is after a txsync call that
returns 0. -/
theorem release_boundary_range (env : Env) (fuel : Nat) (do_lock : Bool) (t : TxState)
    (r : RxState) (lt lim : Nat)
    (hNt : t.kring.nkr_num_slots = lt + 1) (hlt : lt + 1 < 4294967296)
    (hup : r.port_up = true)
    (hN : r.kring.nkr_num_slots = lim + 1) (hlim : lim + 1 < 4294967296)
    (hcur : r.kring.ring.cur ≤ lim) (hhw : r.kring.nr_hwcur ≤ lim)
    (hr : r.kring.ring.reserved < 4294967296) (ha : r.kring.ring.avail < 4294967296) :
    (r.kring.ring.reserved + r.kring.ring.avail < 4294967296 →
      (rx_release lim r.kring.ring.cur r.kring.ring.reserved r.kring.ring.avail).2 =
        (r.kring.ring.cur + (lim + 1) -
          (rx_release lim r.kring.ring.cur r.kring.ring.reserved r.kring.ring.avail).1)
            % (lim + 1) ∧
      (rx_release lim r.kring.ring.cur r.kring.ring.reserved r.kring.ring.avail).2 ≤ lim) ∧
    (4294967296 ≤ r.kring.ring.reserved + r.kring.ring.avail →
      r.kring.ring.reserved + r.kring.ring.avail < 4294967296 + (lim + 1) →
      r.kring.ring.cur + (lim + 1) < r.kring.ring.reserved →
      (rx_release lim r.kring.ring.cur r.kring.ring.reserved r.kring.ring.avail).2 =
        r.kring.ring.cur + (lim + 1) + 4294967296 - r.kring.ring.reserved ∧
      lim < (rx_release lim r.kring.ring.cur r.kring.ring.reserved r.kring.ring.avail).2 ∧
      (rx_release lim r.kring.ring.cur r.kring.ring.reserved r.kring.ring.avail).2 ≠
        (r.kring.ring.cur + (lim + 1) - r.kring.ring.reserved % (lim + 1)) % (lim + 1) ∧
      ∀ r1, mlx4_netmap_rxsync env fuel do_lock r ≠ some (sync_ret.ok, r1)) ∧
    (∀ r1, mlx4_netmap_rxsync env fuel do_lock r = some (sync_ret.ok, r1) →
      r1.kring.nr_hwcur ≤ lim) ∧
    (∀ t1, mlx4_netmap_txsync env fuel do_lock t = some (sync_ret.ok, t1) →
      t1.kring.nr_hwcur ≤ lt) := by
  obtain ⟨_, _, _, _, _, _, f7, _, _, f10, _⟩ := rx_harvest_fields env lim r
  have hreach := rxsync_reaches_replenish env fuel do_lock r lim hup hN hlim hcur
  have hsucc : ∀ r1, mlx4_netmap_rxsync env fuel do_lock r = some (sync_ret.ok, r1) →
      r1.kring.nr_hwcur =
        (rx_release lim r.kring.ring.cur r.kring.ring.reserved r.kring.ring.avail).2 ∧
      (rx_release lim r.kring.ring.cur r.kring.ring.reserved r.kring.ring.avail).2 ≤ lim := by
    intro r1 h
    rw [hreach] at h
    have h1 := (rx_replenish_inv env fuel lim _ _ _ r1 h).1
    have h2 := rx_replenish_ok_boundary env fuel lim _ _ _ r1 (by rw [f7]; exact hhw) h
    rw [f10] at h1 h2
    exact ⟨h1, h2⟩
  refine ⟨fun hsum => ?_, fun hwrap hsmall hbig => ?_, fun r1 h => ?_, fun t1 h => ?_⟩
  · obtain ⟨h1, _, h3⟩ := rx_release_no_wrap lim _ _ _ hlim hcur hsum
    exact ⟨h1, h3⟩
  · have e := rx_release_wrap lim _ _ _ hlim hcur hr ha hwrap hsmall hbig
    have hm : (r.kring.ring.cur + (lim + 1) - r.kring.ring.reserved % (lim + 1)) % (lim + 1)
        < lim + 1 := Nat.mod_lt _ (by omega)
    rw [e]
    refine ⟨rfl, by simp only; omega, by simp only; omega, fun r1 h => ?_⟩
    have h2 := (hsucc r1 h).2
    rw [e] at h2
    simp only at h2
    omega
  · obtain ⟨h1, h2⟩ := hsucc r1 h
    omega
  · obtain ⟨h1, _, sm, h3, _, h5⟩ := txsync_ok_inv env fuel do_lock t t1 h
    rw [txsync_lim hNt hlt] at h1 h3 h5
    rw [h5, (tx_reclaim_fields lt sm).2.2.2.2.2.2.1, (tx_send_inv env fuel lt _ t sm h3).1]
    exact h1

/-- The failing call: on the ring of 8 slots with `ring->cur = 0`,
`ring->reserved = 9` and `ring->avail = 4294967287` the release boundary is
4294967295, where `(cur - reserved) mod N` is 7, and no fuel makes the call
return 0. -/
theorem release_boundary_range_witness :
    (rx_release 7 ex_rx_spin.kring.ring.cur ex_rx_spin.kring.ring.reserved
        ex_rx_spin.kring.ring.avail).2 = 4294967295 ∧
      (ex_rx_spin.kring.ring.cur + (7 + 1) - ex_rx_spin.kring.ring.reserved % (7 + 1))
        % (7 + 1) = 7 ∧
      ∀ r1, mlx4_netmap_rxsync ex_env 8 false ex_rx_spin ≠ some (sync_ret.ok, r1) :=
  have h := (release_boundary_range ex_env 8 false ex_tx_done ex_rx_spin 7 7 (by decide)
    (by decide) (by decide) (by decide) (by decide) (by decide) (by decide) (by decide)
    (by decide)).2.1 (by decide) (by decide) (by decide)
  ⟨h.1, by decide, h.2.2.2⟩

end Mlx4Netmap
